import Mathlib

/-! anisan-cli: the media-process control subsystem

A shallow embedding of `player/mpv.go`, `player/ipc.go`, `player/skip.go` and
`player/events.go`, and the properties of the specification that are stated
about them.

Go strings are byte sequences, so they are modelled as lists of byte values.
Functions of the Go standard library that the program calls (`strings`,
`net/url`, `path/filepath`, `encoding/json`) are modelled after the library's
documented behaviour; where a property does not depend on what the library
returns, the library function is a parameter of the embedded function.
-/

set_option autoImplicit false

namespace Anisan

/-! ## Strings and errors -/

/-- A Go string: a sequence of bytes. -/
abbrev GoString := List Nat

/-- The bytes of a string literal (its UTF-8 encoding). -/
def utf8 (s : String) : GoString :=
  (s.toList.flatMap String.utf8EncodeChar).map UInt8.toNat

/-- A Go error value: a message, or an error wrapped by `fmt.Errorf` with `%w`
under the text that precedes the verb. -/
inductive GoError where
  | msg (text : GoString)
  | wrap (before : GoString) (inner : GoError)
  deriving DecidableEq, Repr

/-- The text of an error (`err.Error()`). -/
def GoError.Error : GoError → GoString
  | .msg t => t
  | .wrap b e => b ++ e.Error

/-- Whether `target` is in the `%w` chain of `e` (what `errors.Is` and
`errors.Unwrap` see). -/
def GoError.wraps : GoError → GoError → Bool
  | .msg t, target => decide (GoError.msg t = target)
  | .wrap b e, target => decide (GoError.wrap b e = target) || e.wraps target

namespace strings

/-- UTF-8 encodings of the runes for which `unicode.IsSpace` holds:
U+0009..U+000D, U+0020, U+0085, U+00A0, U+1680, U+2000..U+200A, U+2028,
U+2029, U+202F, U+205F, U+3000. -/
def spaceEncodings : List GoString :=
  [[0x09], [0x0A], [0x0B], [0x0C], [0x0D], [0x20],
   [0xC2, 0x85], [0xC2, 0xA0], [0xE1, 0x9A, 0x80],
   [0xE2, 0x80, 0x80], [0xE2, 0x80, 0x81], [0xE2, 0x80, 0x82], [0xE2, 0x80, 0x83],
   [0xE2, 0x80, 0x84], [0xE2, 0x80, 0x85], [0xE2, 0x80, 0x86], [0xE2, 0x80, 0x87],
   [0xE2, 0x80, 0x88], [0xE2, 0x80, 0x89], [0xE2, 0x80, 0x8A],
   [0xE2, 0x80, 0xA8], [0xE2, 0x80, 0xA9], [0xE2, 0x80, 0xAF],
   [0xE2, 0x81, 0x9F], [0xE3, 0x80, 0x80]]

/-- Removes one leading rune of `encs` from `s`, if `s` starts with one. -/
def stripOne (encs : List GoString) (s : GoString) : Option GoString :=
  match encs with
  | [] => none
  | e :: es => if e.isPrefixOf s then some (s.drop e.length) else stripOne es s

/-- Removes leading runes of `encs` for as long as there is one (at most
`fuel` of them). -/
def trimLeftLoop (encs : List GoString) : Nat → GoString → GoString
  | 0, s => s
  | fuel + 1, s =>
    match stripOne encs s with
    | some r => trimLeftLoop encs fuel r
    | none => s

/-- The function `strings.TrimLeftFunc(s, unicode.IsSpace)`: every rune takes a byte
at least, so `len(s)` steps are enough. -/
def TrimLeftSpace (s : GoString) : GoString :=
  trimLeftLoop spaceEncodings s.length s

/-- The function `strings.TrimRightFunc(s, unicode.IsSpace)`: the same scan from the
end, on the reversed bytes. -/
def TrimRightSpace (s : GoString) : GoString :=
  (trimLeftLoop (spaceEncodings.map List.reverse) s.length s.reverse).reverse

/-- The function `strings.TrimSpace`. -/
def TrimSpace (s : GoString) : GoString :=
  TrimRightSpace (TrimLeftSpace s)

/-- A byte that occurs in the encoding of a whitespace rune. -/
def isSpaceByte (c : Nat) : Bool :=
  spaceEncodings.any (fun e => e.contains c)

/-- The function `strings.ContainsAny(s, chars)` for ASCII `chars`. -/
def ContainsAny (s chars : GoString) : Bool :=
  s.any (fun c => chars.contains c)

/-- The function `strings.HasPrefix`. -/
def HasPrefix (s pre : GoString) : Bool :=
  pre.isPrefixOf s

/-- The function `strings.HasSuffix`. -/
def HasSuffix (s suf : GoString) : Bool :=
  suf.isSuffixOf s

/-- The function `strings.Contains`. -/
def Contains (s substr : GoString) : Bool :=
  decide (substr <:+: s)

/-- The function `strings.ToLower` on ASCII letters; bytes from 0x80 on are left as they
are (no rune outside ASCII lower-cases to one of the letters h, t, p, s that
the result is compared with). -/
def ToLower (s : GoString) : GoString :=
  s.map (fun c => if 0x41 ≤ c ∧ c ≤ 0x5A then c + 0x20 else c)

/-- Splits `s` at every byte `sep`: the pieces between the separators, of
which there is always one at least (`strings.Split` with a one-byte
separator). -/
def Split (s : GoString) (sep : Nat) : List GoString :=
  match s with
  | [] => [[]]
  | c :: rest =>
    if c = sep then [] :: Split rest sep
    else
      match Split rest sep with
      | [] => [[c]]
      | p :: ps => (c :: p) :: ps

/-- The function `strings.Cut(s, sep)` with a one-byte separator: what is before the
first `sep` and what is after it. -/
def Cut (s : GoString) (sep : Nat) : GoString × GoString × Bool :=
  match s with
  | [] => ([], [], false)
  | c :: rest =>
    if c = sep then ([], rest, true)
    else
      let r := Cut rest sep
      (c :: r.1, r.2.1, r.2.2)

end strings

/-! ## Library models: `net/url` and `path/filepath` -/

namespace url

/-- The URL fields that `player/mpv.go` reads after a successful parse. -/
structure URL where
  Scheme : GoString
  deriving DecidableEq, Repr

/-- The unescaping modes of `net/url`. -/
inductive encoding where
  | encodePath
  | encodeHost
  | encodeZone
  | encodeUserPassword
  | encodeFragment
  deriving DecidableEq, Repr

def isAlpha (c : Nat) : Bool := (0x61 ≤ c && c ≤ 0x7A) || (0x41 ≤ c && c ≤ 0x5A)

def isDigit (c : Nat) : Bool := 0x30 ≤ c && c ≤ 0x39

def ishex (c : Nat) : Bool :=
  isDigit c || (0x61 ≤ c && c ≤ 0x66) || (0x41 ≤ c && c ≤ 0x46)

def unhex (c : Nat) : Nat :=
  if isDigit c then c - 0x30
  else if 0x61 ≤ c ∧ c ≤ 0x66 then c - 0x61 + 10
  else if 0x41 ≤ c ∧ c ≤ 0x46 then c - 0x41 + 10
  else 0

/-- The check `stringContainsCTLByte`: a byte below 0x20, or 0x7F. -/
def stringContainsCTLByte (s : GoString) : Bool :=
  s.any (fun b => b < 0x20 || b == 0x7F)

/-- The function `shouldEscape(c, encodeHost)` (the same for `encodeZone`): letters,
digits, the sub-delimiters and brackets a host may hold, and the unreserved
marks are not escaped; everything else is. -/
def shouldEscapeHost (c : Nat) : Bool :=
  !(isAlpha c || isDigit c || (utf8 "!$&\x27()*+,;=:[]<>\"").contains c
    || (utf8 "-_.~").contains c)

/-- The validity scan of `unescape(s, mode)`: the error it returns, if any.
The text that Go quotes into the message is left out. -/
def unescapeCheck (mode : encoding) : GoString → Option GoError
  | [] => none
  | 0x25 :: rest =>
    match rest with
    | h1 :: h2 :: rest2 =>
      if !(ishex h1 && ishex h2) then some (.msg (utf8 "invalid URL escape"))
      else if mode = .encodeHost ∧ unhex h1 < 8 ∧ [h1, h2] ≠ utf8 "25" then
        some (.msg (utf8 "invalid URL escape"))
      else if mode = .encodeZone ∧ [h1, h2] ≠ utf8 "25" ∧ unhex h1 * 16 + unhex h2 ≠ 0x20
          ∧ shouldEscapeHost (unhex h1 * 16 + unhex h2) then
        some (.msg (utf8 "invalid URL escape"))
      else unescapeCheck mode rest2
    | _ => some (.msg (utf8 "invalid URL escape"))
  | c :: rest =>
    if (mode = .encodeHost ∨ mode = .encodeZone) ∧ c < 0x80 ∧ shouldEscapeHost c then
      some (.msg (utf8 "invalid character in host name"))
    else unescapeCheck mode rest

/-- The scan `getScheme`: the scheme and what follows its colon, or no scheme and
the whole text. -/
def getSchemeLoop (rawURL : GoString) : Nat → GoString → Except GoError (GoString × GoString)
  | _, [] => .ok ([], rawURL)
  | i, c :: rest =>
    if isAlpha c then getSchemeLoop rawURL (i + 1) rest
    else if isDigit c || c == 0x2B || c == 0x2D || c == 0x2E then
      if i = 0 then .ok ([], rawURL) else getSchemeLoop rawURL (i + 1) rest
    else if c == 0x3A then
      if i = 0 then .error (.msg (utf8 "missing protocol scheme"))
      else .ok (rawURL.take i, rest)
    else .ok ([], rawURL)

def getScheme (rawURL : GoString) : Except GoError (GoString × GoString) :=
  getSchemeLoop rawURL 0 rawURL

/-- The check `validOptionalPort`: empty, or a colon and digits. -/
def validOptionalPort (port : GoString) : Bool :=
  match port with
  | [] => true
  | c :: digits => c == 0x3A && digits.all isDigit

/-- The check `validUserinfo`. -/
def validUserinfo (s : GoString) : Bool :=
  s.all (fun r => isAlpha r || isDigit r || (utf8 "-._:~!$&\x27()*+,;=%@").contains r)

/-- What is after the last occurrence of `sep` in `s`, and what is before it;
`none` when `sep` does not occur (`strings.LastIndex`). -/
def cutLast (s : GoString) (sep : Nat) : Option (GoString × GoString) :=
  let r := strings.Cut s.reverse sep
  if r.2.2 then some (r.2.1.reverse, r.1.reverse) else none

/-- The position of the first `%25` in `s` (`strings.Index`). -/
def indexZone : GoString → Option Nat
  | [] => none
  | c :: rest =>
    if (utf8 "%25").isPrefixOf (c :: rest) then some 0
    else (indexZone rest).map (· + 1)

/-- The validation of `parseHost`: the error it returns, if any. -/
def parseHostCheck (host : GoString) : Option GoError :=
  if strings.HasPrefix host (utf8 "[") then
    match cutLast host 0x5D with
    | none => some (.msg (utf8 "missing \x27]\x27 in host"))
    | some (before, colonPort) =>
      if !validOptionalPort colonPort then some (.msg (utf8 "invalid port after host"))
      else
        match indexZone before with
        | some zone =>
          (unescapeCheck .encodeHost (before.take zone)).orElse fun _ =>
          (unescapeCheck .encodeZone (before.drop zone)).orElse fun _ =>
          unescapeCheck .encodeHost (0x5D :: colonPort)
        | none => unescapeCheck .encodeHost host
  else
    match cutLast host 0x3A with
    | some (_, port) =>
      if !validOptionalPort (0x3A :: port) then some (.msg (utf8 "invalid port after host"))
      else unescapeCheck .encodeHost host
    | none => unescapeCheck .encodeHost host

/-- The validation of `parseAuthority`: the error it returns, if any. -/
def parseAuthorityCheck (authority : GoString) : Option GoError :=
  match cutLast authority 0x40 with
  | none => parseHostCheck authority
  | some (userinfo, host) =>
    (parseHostCheck host).orElse fun _ =>
    if !validUserinfo userinfo then some (.msg (utf8 "net/url: invalid userinfo"))
    else
      let up := strings.Cut userinfo 0x3A
      (unescapeCheck .encodeUserPassword up.1).orElse fun _ =>
      unescapeCheck .encodeUserPassword up.2.1

/-- The function `parse(rawURL, false)`: the scheme of the URL, or the error. -/
def parse (rawURL : GoString) : Except GoError URL :=
  if stringContainsCTLByte rawURL then
    .error (.msg (utf8 "net/url: invalid control character in URL"))
  else if rawURL = utf8 "*" then .ok ⟨[]⟩
  else
    match getScheme rawURL with
    | .error e => .error e
    | .ok (scheme0, rest0) =>
      let scheme := strings.ToLower scheme0
      let rest := (strings.Cut rest0 0x3F).1
      if !strings.HasPrefix rest (utf8 "/") ∧ scheme ≠ [] then .ok ⟨scheme⟩
      else if !strings.HasPrefix rest (utf8 "/")
          ∧ (strings.Cut rest 0x2F).1.contains 0x3A then
        .error (.msg (utf8 "first path segment in URL cannot contain colon"))
      else if (scheme ≠ [] ∨ !strings.HasPrefix rest (utf8 "///"))
          ∧ strings.HasPrefix rest (utf8 "//") then
        let authority := (rest.drop 2).takeWhile (· ≠ 0x2F)
        let path := (rest.drop 2).dropWhile (· ≠ 0x2F)
        match parseAuthorityCheck authority with
        | some e => .error e
        | none =>
          match unescapeCheck .encodePath path with
          | some e => .error e
          | none => .ok ⟨scheme⟩
      else
        match unescapeCheck .encodePath rest with
        | some e => .error e
        | none => .ok ⟨scheme⟩

/-- The function `url.Parse`: the fragment is cut off at the first `#`, the rest is
parsed, and the fragment must unescape. An error is the `*url.Error` around
the cause, whose text starts with the operation. -/
def Parse (rawURL : GoString) : Except GoError URL :=
  let c := strings.Cut rawURL 0x23
  match parse c.1 with
  | .error e => .error (.wrap (utf8 "parse: ") e)
  | .ok u =>
    if c.2.1 = [] then .ok u
    else
      match unescapeCheck .encodeFragment c.2.1 with
      | some e => .error (.wrap (utf8 "parse: ") e)
      | none => .ok u

end url

namespace filepath

/-- The inner loop of the `..` case of `Clean`: `w` moves back to the
separator before the last element, but not past `dotdot`. -/
def backtrack (out : GoString) (dotdot : Nat) : Nat → Nat
  | 0 => 0
  | w + 1 =>
    if w + 1 > dotdot ∧ out.getD (w + 1) 0 ≠ 0x2F then backtrack out dotdot w
    else w + 1

/-- The main loop of `Clean` over what is left of the path, with the output
written so far and the index where `..` must stop. -/
def cleanLoop (rooted : Bool) : Nat → GoString → GoString → Nat → GoString
  | 0, _, out, _ => out
  | _ + 1, [], out, _ => out
  | fuel + 1, c :: rest, out, dotdot =>
    if c = 0x2F then cleanLoop rooted fuel rest out dotdot
    else if c = 0x2E ∧ (rest = [] ∨ rest.head? = some 0x2F) then
      cleanLoop rooted fuel rest out dotdot
    else if c = 0x2E ∧ rest.head? = some 0x2E
        ∧ (rest.tail = [] ∨ rest.tail.head? = some 0x2F) then
      if out.length > dotdot then
        cleanLoop rooted fuel rest.tail
          (out.take (backtrack out dotdot (out.length - 1))) dotdot
      else if !rooted then
        let out1 := (if out.length > 0 then out ++ [0x2F] else out) ++ [0x2E, 0x2E]
        cleanLoop rooted fuel rest.tail out1 out1.length
      else cleanLoop rooted fuel rest.tail out dotdot
    else
      let out1 :=
        if (rooted ∧ out.length ≠ 1) ∨ (!rooted ∧ out.length ≠ 0) then out ++ [0x2F] else out
      cleanLoop rooted fuel ((c :: rest).dropWhile (· ≠ 0x2F))
        (out1 ++ (c :: rest).takeWhile (· ≠ 0x2F)) dotdot

/-- The function `filepath.Clean` where the separator is `/` and there are no volume
names (Unix). -/
def Clean (path : GoString) : GoString :=
  if path = [] then utf8 "."
  else
    let rooted := path.head? = some 0x2F
    let out := cleanLoop rooted path.length (if rooted then path.tail else path)
      (if rooted then [0x2F] else []) (if rooted then 1 else 0)
    if out = [] then utf8 "." else out

end filepath

/-! ## `player/mpv.go`: the sanitizer -/

/-- The library functions that `sanitizeMediaTarget` calls. -/
structure Platform where
  urlParse : GoString → Except GoError url.URL
  filepathClean : GoString → GoString

/-- The Go standard library on a Unix system. -/
def unix : Platform where
  urlParse := url.Parse
  filepathClean := filepath.Clean

/-- The function `sanitizeMediaTarget` of `player/mpv.go`. -/
def sanitizeMediaTarget (P : Platform) (link : GoString) : Except GoError GoString :=
  let l := strings.TrimSpace link
  if l = [] then .error (.msg (utf8 "empty URL"))
  else if strings.ContainsAny l (utf8 "\x00\n\r") then
    .error (.msg (utf8 "invalid control characters in URL"))
  else if strings.HasPrefix l (utf8 "-") then
    .error (.msg (utf8 "url must not start with \x27-\x27 (looks like a flag)"))
  else if strings.Contains l (utf8 "://") then
    match P.urlParse l with
    | .error err => .error (.wrap (utf8 "invalid URL: ") err)
    | .ok u =>
      if strings.ToLower u.Scheme = utf8 "http" ∨ strings.ToLower u.Scheme = utf8 "https" then
        .ok l
      else .error (.msg (utf8 "unsupported URL scheme: " ++ u.Scheme))
  else .ok (P.filepathClean l)

/-- Whether the sanitizer rejects the target (returns an error). -/
def rejects (P : Platform) (link : GoString) : Prop :=
  ∃ e, sanitizeMediaTarget P link = .error e

/-! ## Values -/

/-- A `float64` as far as comparisons go: not-a-number, the two infinities
and the finite values, each of which is a rational number. -/
inductive F64 where
  | nan
  | negInf
  | fin (q : ℚ)
  | posInf
  deriving DecidableEq

namespace F64

/-- Go's `<` on `float64`: false when either side is not a number. -/
def lt : F64 → F64 → Bool
  | nan, _ => false
  | _, nan => false
  | negInf, negInf => false
  | negInf, _ => true
  | fin _, negInf => false
  | fin a, fin b => decide (a < b)
  | fin _, posInf => true
  | posInf, _ => false

/-- Go's `>=` on `float64`: false when either side is not a number. -/
def ge : F64 → F64 → Bool
  | nan, _ => false
  | _, nan => false
  | _, negInf => true
  | negInf, _ => false
  | posInf, _ => true
  | fin _, posInf => false
  | fin a, fin b => decide (a ≥ b)

/-- Go's `<=` on `float64`. -/
def le (a b : F64) : Bool := ge b a

end F64

/-- A value held in an `interface{}`: `nil`, or one of the kinds of value
that the program puts into commands and that `encoding/json` decodes. -/
inductive Value where
  | null
  | bool (b : Bool)
  | float (x : F64)
  | int (n : Int)
  | str (s : GoString)
  | list (xs : List Value)
  | object (fields : List (GoString × Value))

/-- A `map[string]interface{}`. -/
abbrev JsonObject := List (GoString × Value)

/-- The index expression `m[key]`: the value stored under the key, `nil` when there is
none. -/
def JsonObject.get (m : JsonObject) (key : GoString) : Value :=
  match m.find? (fun kv => kv.1 = key) with
  | some kv => kv.2
  | none => .null

/-- The type assertion `v.(string)`. -/
def Value.asString : Value → Option GoString
  | .str s => some s
  | _ => none

/-! ## `player/ipc.go` -/

/-- The command of an `ipcCommand`: the method name and its arguments. -/
abbrev Command := List Value

/-- The decoded `ipcResponse`. -/
structure ipcResponse where
  Data : Value
  Error : GoString

def maxRetries : Nat := 3

/-- What the fallible calls of one `doSendCommand` meet: the dial, the
marshalling of the command, the write, the setting of the read deadline (each
with its error, if it fails) and the read (the bytes read, or its error). -/
structure Attempt where
  dial : Option GoError
  marshal : Option GoError
  write : Option GoError
  setReadDeadline : Option GoError
  read : Except GoError GoString

/-- The environment of a player: `encoding/json` decoding a response, and what
the n-th connection attempt meets when it carries a given command. -/
structure Env where
  unmarshal : GoString → Except GoError ipcResponse
  attempt : Nat → Command → Attempt

/-- What the program has done to the socket so far: the number of connection
attempts made, the number of `retryDelay` sleeps, and the commands handed to
`sendCommand`, in order. -/
structure MPV where
  attempts : Nat
  sleeps : Nat
  sent : List Command

/-- The function `doSendCommand`: a single IPC command attempt. -/
def doSendCommand (unmarshal : GoString → Except GoError ipcResponse) (a : Attempt) :
    Except GoError Value :=
  match a.dial with
  | some err => .error (.wrap (utf8 "connect: ") err)
  | none =>
    match a.marshal with
    | some err => .error (.wrap (utf8 "marshal: ") err)
    | none =>
      match a.write with
      | some err => .error (.wrap (utf8 "write: ") err)
      | none =>
        match a.setReadDeadline with
        | some err => .error (.wrap (utf8 "set deadline: ") err)
        | none =>
          match a.read with
          | .error err => .error (.wrap (utf8 "read: ") err)
          | .ok buf =>
            match unmarshal buf with
            | .error err => .error (.wrap (utf8 "unmarshal: ") err)
            | .ok resp =>
              if resp.Error ≠ [] ∧ resp.Error ≠ utf8 "success" then
                .error (.msg (utf8 "mpv error: " ++ resp.Error))
              else .ok resp.Data

/-- The error that `sendCommand` returns after its loop: `lastErr` wrapped with
`%w` (a nil `lastErr`, which the loop never leaves behind, prints as a bad verb). -/
def exhausted (lastErr : Option GoError) : GoError :=
  match lastErr with
  | some err =>
    .wrap (utf8 "ipc command failed after " ++ utf8 (toString maxRetries) ++ utf8 " attempts: ") err
  | none =>
    .msg (utf8 "ipc command failed after " ++ utf8 (toString maxRetries)
      ++ utf8 " attempts: %!w(<nil>)")

/-- The loop of `sendCommand`, with `remaining = maxRetries - attempt` iterations
to go. -/
def sendLoop (env : Env) (command : Command) :
    Nat → Nat → Option GoError → MPV → Except GoError Value × MPV
  | 0, _, lastErr, m => (.error (exhausted lastErr), m)
  | remaining + 1, attempt, _, m =>
    let m1 : MPV := if attempt > 0 then { m with sleeps := m.sleeps + 1 } else m
    let r := doSendCommand env.unmarshal (env.attempt m1.attempts command)
    let m2 : MPV := { m1 with attempts := m1.attempts + 1 }
    match r with
    | .ok result => (.ok result, m2)
    | .error err => sendLoop env command remaining (attempt + 1) (some err) m2

/-- The method `MPV.sendCommand`. -/
def MPV.sendCommand (env : Env) (m : MPV) (command : Command) : Except GoError Value × MPV :=
  sendLoop env command maxRetries 0 none { m with sent := m.sent ++ [command] }

/-- The method `MPV.Seek` of `player/mpv.go`: the error, if any. -/
def MPV.Seek (env : Env) (m : MPV) (seconds : F64) : Option GoError × MPV :=
  match m.sendCommand env [.str (utf8 "seek"), .float seconds, .str (utf8 "absolute")] with
  | (.ok _, m1) => (none, m1)
  | (.error err, m1) => (some err, m1)

/-- The command that `Seek` sends. -/
def seekCommand (seconds : F64) : Command :=
  [.str (utf8 "seek"), .float seconds, .str (utf8 "absolute")]

/-- An attempt that fails on the connection or on its input and output: the
dial fails, or the write, the setting of the deadline or the read does. -/
def Attempt.transportFailure (a : Attempt) : Bool :=
  a.dial.isSome
    || (a.marshal.isNone
        && (a.write.isSome || a.setReadDeadline.isSome
            || match a.read with
               | .error _ => true
               | .ok _ => false))

/-- An environment in which the player answers every command with a given
response. -/
def answering (resp : ipcResponse) : Env where
  unmarshal := fun _ => .ok resp
  attempt := fun _ _ => ⟨none, none, none, none, .ok []⟩

/-- A player with nothing loaded: every query is answered with the
application error `property unavailable`. -/
def nothingLoaded : Env :=
  answering ⟨.null, utf8 "property unavailable"⟩

/-- The command of the position query. -/
def getTimePos : Command :=
  [.str (utf8 "get_property"), .str (utf8 "time-pos")]

/-- An environment in which no connection can be made: the n-th dial fails
with an error that carries n. -/
def unreachable : Env where
  unmarshal := fun _ => .ok ⟨.null, []⟩
  attempt := fun n _ => ⟨some (.msg (utf8 "dial unix: connection refused #" ++ [0x30 + n])),
    none, none, none, .ok []⟩

/-! ## `player/skip.go` -/

/-- The type `aniskip.Interval`. -/
structure Interval where
  Start : F64
  End : F64

/-- The type `aniskip.SkipTimes`. -/
structure SkipTimes where
  Opening : Interval
  Ending : Interval
  HasIntro : Bool
  HasOutro : Bool

/-- The type `Skipper`; `Times` may be nil. -/
structure Skipper where
  Times : Option SkipTimes

/-- The method `Skipper.Check`: whether a skip was performed, the error, and the player
afterwards. -/
def Skipper.Check (s : Skipper) (env : Env) (m : MPV) (pos : F64) :
    (Bool × Option GoError) × MPV :=
  match s.Times with
  | none => ((false, none), m)
  | some times =>
    if times.HasIntro && F64.ge pos times.Opening.Start && F64.lt pos times.Opening.End then
      match m.Seek env times.Opening.End with
      | (some err, m1) => ((false, some (.wrap (utf8 "skip intro seek: ") err)), m1)
      | (none, m1) => ((true, none), m1)
    else if times.HasOutro && F64.ge pos times.Ending.Start && F64.lt pos times.Ending.End then
      match m.Seek env times.Ending.End with
      | (some err, m1) => ((false, some (.wrap (utf8 "skip outro seek: ") err)), m1)
      | (none, m1) => ((true, none), m1)
    else ((false, none), m)

/-- The position is inside the interval: `Start <= pos < End`. -/
def Interval.holds (i : Interval) (pos : F64) : Bool :=
  F64.le i.Start pos && F64.lt pos i.End

/-- The skip times of the example: opening from 10 to 30, ending from 200 to
210. -/
def exampleTimes : SkipTimes where
  Opening := ⟨.fin 10, .fin 30⟩
  Ending := ⟨.fin 200, .fin 210⟩
  HasIntro := true
  HasOutro := true

/-! ## `player/events.go` -/

/-- One call of the `EventCallback`. -/
structure Invocation where
  property : GoString
  data : Value

/-- The listener: how `encoding/json` decodes a line into a
`map[string]interface{}`, and whether a callback is set. -/
structure EventListener where
  unmarshal : GoString → Except GoError JsonObject
  callback : Bool

/-- The method `EventListener.processEvent`: the callback invocations it makes. -/
def EventListener.processEvent (el : EventListener) (line : GoString) : List Invocation :=
  match el.unmarshal line with
  | .error _ => []
  | .ok event =>
    match (event.get (utf8 "event")).asString with
    | none => []
    | some eventType =>
      if eventType = utf8 "property-change" then
        let name := ((event.get (utf8 "name")).asString).getD []
        let data := event.get (utf8 "data")
        if name ≠ [] ∧ el.callback then [⟨name, data⟩] else []
      else
        if el.callback then [⟨eventType, .object event⟩] else []

/-- The loop over the lines of one read in `readLoop`: the index of the line,
the lines still to go, and the remainder set so far; returns the remainder
for the next read and the invocations made. -/
def EventListener.linesLoop (el : EventListener) (data : GoString) (len : Nat) :
    Nat → List GoString → GoString → GoString × List Invocation
  | _, [], remainder => (remainder, [])
  | i, line0 :: rest, remainder =>
    let line := strings.TrimSpace line0
    if line = [] then el.linesLoop data len (i + 1) rest remainder
    else if i = len - 1 ∧ !strings.HasSuffix data (utf8 "\n") then
      el.linesLoop data len (i + 1) rest line
    else
      let r := el.linesLoop data len (i + 1) rest remainder
      (r.1, el.processEvent line ++ r.2)

/-- What one `conn.Read` of the read loop returns: bytes, a timeout, or another
error. -/
inductive ReadResult where
  | bytes (chunk : GoString)
  | timeout
  | failed

/-- The method `EventListener.readLoop` over the reads it is given (the loop ends with
them, as when the stop channel is closed): the invocations made, in order. -/
def EventListener.readLoop (el : EventListener) :
    List ReadResult → GoString → List Invocation
  | [], _ => []
  | .timeout :: reads, remainder => el.readLoop reads remainder
  | .failed :: _, _ => []
  | .bytes chunk :: reads, remainder =>
    let data := remainder ++ chunk
    let lines := strings.Split data 0x0A
    let r := el.linesLoop data lines.length 0 lines []
    r.2 ++ el.readLoop reads r.1

/-- The event line of the example, as the player writes it. -/
def titleEvent : GoString :=
  utf8 "\x7b\"event\":\"property-change\",\"name\":\"media-title\",\"data\":\"a b\"\x7d"

/-- The event line of the example without the space in its data. -/
def titleEventSquashed : GoString :=
  utf8 "\x7b\"event\":\"property-change\",\"name\":\"media-title\",\"data\":\"ab\"\x7d"

/-- The first read of the example: the line up to the space in its data, the
space included. -/
def titleEventHead : GoString :=
  utf8 "\x7b\"event\":\"property-change\",\"name\":\"media-title\",\"data\":\"a "

/-- The second read of the example: the rest of the line and its newline. -/
def titleEventTail : GoString :=
  utf8 "b\"\x7d\n"

/-- The object that the event line of the example decodes to. -/
def titleObject : JsonObject :=
  [(utf8 "event", .str (utf8 "property-change")), (utf8 "name", .str (utf8 "media-title")),
   (utf8 "data", .str (utf8 "a b"))]

/-- A listener with a callback, whose decoder is `encoding/json` on the lines
of the example (every other line is an error to it). -/
def exampleListener : EventListener where
  unmarshal := fun line =>
    if line = titleEvent then .ok titleObject
    else if line = titleEventSquashed then
      .ok [(utf8 "event", .str (utf8 "property-change")), (utf8 "name", .str (utf8 "media-title")),
           (utf8 "data", .str (utf8 "ab"))]
    else if line = utf8 "\x7b\"event\":\"end-file\"\x7d" then
      .ok [(utf8 "event", .str (utf8 "end-file"))]
    else .error (.msg (utf8 "invalid character"))
  callback := true

/-! ## `player/skip.go`: the chapter list -/

/-- The method `MPV.SetChapters` of `player/mpv.go`: the error, if any. -/
def MPV.SetChapters (env : Env) (m : MPV) (chapters : List Value) : Option GoError × MPV :=
  match m.sendCommand env
      [.str (utf8 "set_property"), .str (utf8 "chapter-list"), .list chapters] with
  | (.ok _, m1) => (none, m1)
  | (.error err, m1) => (some err, m1)

/-- One chapter marker: the map with a `title` and a `time`. -/
def chapter (title : GoString) (time : F64) : Value :=
  .object [(utf8 "title", .str title), (utf8 "time", .float time)]

/-- The chapter list that `ApplyChapters` builds from the skip times. -/
def chaptersOf (times : SkipTimes) : List Value :=
  let chapters := [chapter (utf8 "Part A") (.fin 0)]
  let chapters :=
    if times.HasIntro then
      chapters ++ [chapter (utf8 "Opening") times.Opening.Start,
        chapter (utf8 "Part B") times.Opening.End]
    else chapters
  if times.HasOutro then
    chapters ++ [chapter (utf8 "Ending") times.Ending.Start,
      chapter (utf8 "Preview / Next") times.Ending.End]
  else chapters

/-- The method `Skipper.ApplyChapters`: the error, if any, and the player afterwards. -/
def Skipper.ApplyChapters (s : Skipper) (env : Env) (m : MPV) : Option GoError × MPV :=
  match s.Times with
  | none => (none, m)
  | some times => m.SetChapters env (chaptersOf times)

/-- The command that `SetChapters` sends. -/
def chapterCommand (chapters : List Value) : Command :=
  [.str (utf8 "set_property"), .str (utf8 "chapter-list"), .list chapters]

/-- The `time` of a chapter marker. -/
def chapterTime : Value → Option F64
  | .object fields =>
    match JsonObject.get fields (utf8 "time") with
    | .float x => some x
    | _ => none
  | _ => none

/-- The `title` of a chapter marker. -/
def chapterTitle : Value → Option GoString
  | .object fields => (JsonObject.get fields (utf8 "title")).asString
  | _ => none

/-- Each time of the list is not less than the one before it (Go's `<=`). -/
def ascending : List F64 → Bool
  | a :: b :: rest => F64.le a b && ascending (b :: rest)
  | _ => true

/-- Skip times whose ending lies before the opening: opening from 600 to 690,
ending from 30 to 120. -/
def endingFirst : SkipTimes where
  Opening := ⟨.fin 600, .fin 690⟩
  Ending := ⟨.fin 30, .fin 120⟩
  HasIntro := true
  HasOutro := true

/-! ## Library model: `encoding/json` -/

namespace json

/-- The result of scanning one JSON value: its syntax, before conversion to Go
values. -/
inductive Tree where
  | null
  | bool (b : Bool)
  | number (literal : GoString)
  | string (content : GoString)
  | array (elements : List Tree)
  | object (members : List (GoString × Tree))

/-- JSON whitespace: space, tab, carriage return, newline. -/
def isSpace (c : Nat) : Bool := c == 0x20 || c == 0x09 || c == 0x0D || c == 0x0A

def skipSpace : GoString → GoString
  | [] => []
  | c :: rest => if isSpace c then skipSpace rest else c :: rest

def isDigit (c : Nat) : Bool := 0x30 ≤ c && c ≤ 0x39

def digitsOf (s : GoString) : GoString × GoString :=
  (s.takeWhile isDigit, s.dropWhile isDigit)

/-- Scans a number: an optional minus, `0` or a digit from 1 to 9 and further
digits, an optional fraction, an optional exponent. -/
def scanNumber (s : GoString) : Option (GoString × GoString) :=
  let (sign, s1) := match s with
    | 0x2D :: r => ([0x2D], r)
    | _ => ([], s)
  match s1 with
  | [] => none
  | d :: r1 =>
    if !isDigit d then none
    else
      let (intPart, s2) := if d == 0x30 then ([d], r1) else (d :: (digitsOf r1).1, (digitsOf r1).2)
      let fracResult : Option (GoString × GoString) :=
        match s2 with
        | 0x2E :: r2 =>
          if (digitsOf r2).1 = [] then none else some (0x2E :: (digitsOf r2).1, (digitsOf r2).2)
        | _ => some ([], s2)
      match fracResult with
      | none => none
      | some (frac, s3) =>
        match s3 with
        | e :: r3 =>
          if e == 0x65 || e == 0x45 then
            let (esign, r4) := match r3 with
              | 0x2B :: r => ([0x2B], r)
              | 0x2D :: r => ([0x2D], r)
              | _ => ([], r3)
            if (digitsOf r4).1 = [] then none
            else some (sign ++ intPart ++ frac ++ [e] ++ esign ++ (digitsOf r4).1, (digitsOf r4).2)
          else some (sign ++ intPart ++ frac, s3)
        | [] => some (sign ++ intPart ++ frac, s3)

/-- Scans the inside of a string up to its closing quote: the raw content
(escapes not yet resolved) and what follows the quote. A byte below 0x20 is an
error, and so is an escape that is not one of the JSON escapes. -/
def scanString : GoString → Option (GoString × GoString)
  | [] => none
  | 0x22 :: rest => some ([], rest)
  | 0x5C :: rest =>
    match rest with
    | 0x75 :: h1 :: h2 :: h3 :: h4 :: rest2 =>
      if url.ishex h1 && url.ishex h2 && url.ishex h3 && url.ishex h4 then
        (scanString rest2).map fun r => (0x5C :: 0x75 :: h1 :: h2 :: h3 :: h4 :: r.1, r.2)
      else none
    | e :: rest2 =>
      if (utf8 "\"\\/bfnrt").contains e then
        (scanString rest2).map fun r => (0x5C :: e :: r.1, r.2)
      else none
    | [] => none
  | c :: rest =>
    if c < 0x20 then none
    else (scanString rest).map fun r => (c :: r.1, r.2)

/-- The nesting limit of the scanner. -/
def maxNestingDepth : Nat := 10000

/-- Scans one value after leading whitespace, at nesting depth `depth`;
`scanMembers` and `scanElements` scan what follows the opening brace or
bracket, the members or elements scanned so far given in reverse. An object
or array that would be nested deeper than the limit is an error. -/
def scanValue : Nat → Nat → GoString → Option (Tree × GoString)
  | 0, _, _ => none
  | fuel + 1, depth, s =>
    match skipSpace s with
    | [] => none
    | 0x7B :: rest =>
      if maxNestingDepth ≤ depth then none
      else
        match skipSpace rest with
        | 0x7D :: rest2 => some (.object [], rest2)
        | _ => scanMembers fuel (depth + 1) rest []
    | 0x5B :: rest =>
      if maxNestingDepth ≤ depth then none
      else
        match skipSpace rest with
        | 0x5D :: rest2 => some (.array [], rest2)
        | _ => scanElements fuel (depth + 1) rest []
    | 0x22 :: rest => (scanString rest).map fun r => (.string r.1, r.2)
    | c :: rest =>
      if (utf8 "true").isPrefixOf (c :: rest) then some (.bool true, (c :: rest).drop 4)
      else if (utf8 "false").isPrefixOf (c :: rest) then some (.bool false, (c :: rest).drop 5)
      else if (utf8 "null").isPrefixOf (c :: rest) then some (.null, (c :: rest).drop 4)
      else (scanNumber (c :: rest)).map fun r => (.number r.1, r.2)
where
  scanMembers : Nat → Nat → GoString → List (GoString × Tree) → Option (Tree × GoString)
    | 0, _, _, _ => none
    | fuel + 1, depth, s, acc =>
      match skipSpace s with
      | 0x22 :: rest =>
        match scanString rest with
        | none => none
        | some (key, rest2) =>
          match skipSpace rest2 with
          | 0x3A :: rest3 =>
            match scanValue fuel depth rest3 with
            | none => none
            | some (v, rest4) =>
              match skipSpace rest4 with
              | 0x2C :: rest5 => scanMembers fuel depth rest5 ((key, v) :: acc)
              | 0x7D :: rest5 => some (.object ((key, v) :: acc).reverse, rest5)
              | _ => none
          | _ => none
      | _ => none
  scanElements : Nat → Nat → GoString → List Tree → Option (Tree × GoString)
    | 0, _, _, _ => none
    | fuel + 1, depth, s, acc =>
      match scanValue fuel depth s with
      | none => none
      | some (v, rest) =>
        match skipSpace rest with
        | 0x2C :: rest2 => scanElements fuel depth rest2 (v :: acc)
        | 0x5D :: rest2 => some (.array (v :: acc).reverse, rest2)
        | _ => none

/-- The check `checkValid` with the syntax it has scanned: one value with whitespace
around it and nothing else. Every call of the scanner takes a byte, so twice
the length is fuel enough. -/
def scan (data : GoString) : Except GoError Tree :=
  match scanValue (2 * data.length + 2) 0 data with
  | none => .error (.msg (utf8 "invalid character or unexpected end of JSON input"))
  | some (v, rest) =>
    match skipSpace rest with
    | [] => .ok v
    | _ => .error (.msg (utf8 "invalid character after top-level value"))

end json

namespace json

/-- The function `utf8.EncodeRune` for a rune that is not a surrogate. -/
def encodeRune (r : Nat) : GoString :=
  if r < 0x80 then [r]
  else if r < 0x800 then [0xC0 + r / 0x40, 0x80 + r % 0x40]
  else if r < 0x10000 then [0xE0 + r / 0x1000, 0x80 + r / 0x40 % 0x40, 0x80 + r % 0x40]
  else [0xF0 + r / 0x40000, 0x80 + r / 0x1000 % 0x40, 0x80 + r / 0x40 % 0x40, 0x80 + r % 0x40]

def isCont (c : Nat) : Bool := 0x80 ≤ c && c ≤ 0xBF

/-- The width of the valid UTF-8 sequence that `s` starts with, 0 when it
starts with none (`utf8.DecodeRune` then returns the replacement rune and
width 1). -/
def runeWidth : GoString → Nat
  | [] => 0
  | c :: rest =>
    if c < 0x80 then 1
    else
      match rest with
      | c1 :: rest1 =>
        if 0xC2 ≤ c ∧ c ≤ 0xDF then (if isCont c1 then 2 else 0)
        else
          match rest1 with
          | c2 :: rest2 =>
            if c = 0xE0 then (if 0xA0 ≤ c1 ∧ c1 ≤ 0xBF ∧ isCont c2 then 3 else 0)
            else if c = 0xED then (if 0x80 ≤ c1 ∧ c1 ≤ 0x9F ∧ isCont c2 then 3 else 0)
            else if 0xE1 ≤ c ∧ c ≤ 0xEF then (if isCont c1 ∧ isCont c2 then 3 else 0)
            else
              match rest2 with
              | c3 :: _ =>
                if c = 0xF0 then
                  (if 0x90 ≤ c1 ∧ c1 ≤ 0xBF ∧ isCont c2 ∧ isCont c3 then 4 else 0)
                else if c = 0xF4 then
                  (if 0x80 ≤ c1 ∧ c1 ≤ 0x8F ∧ isCont c2 ∧ isCont c3 then 4 else 0)
                else if 0xF1 ≤ c ∧ c ≤ 0xF3 then
                  (if isCont c1 ∧ isCont c2 ∧ isCont c3 then 4 else 0)
                else 0
              | [] => 0
          | [] => 0
      | [] => 0

/-- The value of four hex digits. -/
def hex4 (h1 h2 h3 h4 : Nat) : Nat :=
  ((url.unhex h1 * 16 + url.unhex h2) * 16 + url.unhex h3) * 16 + url.unhex h4

/-- The function `unquote` on the raw content of a scanned string: escapes are
resolved, a surrogate escape that is not followed by its pair and a byte that
is not valid UTF-8 become the replacement rune U+FFFD. -/
def unquoteLoop : Nat → GoString → GoString
  | 0, _ => []
  | _ + 1, [] => []
  | fuel + 1, 0x5C :: 0x75 :: h1 :: h2 :: h3 :: h4 :: rest =>
    let rr := hex4 h1 h2 h3 h4
    if 0xD800 ≤ rr ∧ rr < 0xE000 then
      match rest with
      | 0x5C :: 0x75 :: g1 :: g2 :: g3 :: g4 :: rest2 =>
        let rr1 := hex4 g1 g2 g3 g4
        if rr < 0xDC00 ∧ 0xDC00 ≤ rr1 ∧ rr1 < 0xE000 then
          encodeRune ((rr - 0xD800) * 0x400 + (rr1 - 0xDC00) + 0x10000) ++ unquoteLoop fuel rest2
        else encodeRune 0xFFFD ++ unquoteLoop fuel rest
      | _ => encodeRune 0xFFFD ++ unquoteLoop fuel rest
    else encodeRune rr ++ unquoteLoop fuel rest
  | fuel + 1, 0x5C :: e :: rest =>
    (if e = 0x62 then 0x08 else if e = 0x66 then 0x0C else if e = 0x6E then 0x0A
     else if e = 0x72 then 0x0D else if e = 0x74 then 0x09 else e) :: unquoteLoop fuel rest
  | fuel + 1, c :: rest =>
    if c < 0x80 then c :: unquoteLoop fuel rest
    else if runeWidth (c :: rest) = 0 then encodeRune 0xFFFD ++ unquoteLoop fuel rest
    else (c :: rest).take (runeWidth (c :: rest))
      ++ unquoteLoop fuel ((c :: rest).drop (runeWidth (c :: rest)))

def unquote (raw : GoString) : GoString :=
  unquoteLoop raw.length raw

/-- The number that a run of decimal digits writes. -/
def natOf (digits : GoString) : Nat :=
  digits.foldl (fun n d => 10 * n + (d - 0x30)) 0

/-- The integer nearest to `n / d`, the even one of the two when `n / d` lies
halfway. -/
def roundHalfEven (n d : Nat) : Nat :=
  if 2 * (n % d) < d then n / d
  else if 2 * (n % d) > d then n / d + 1
  else if n / d % 2 = 0 then n / d
  else n / d + 1

/-- The `float64` nearest to `num / den` (round to nearest, ties to even, as
`strconv.ParseFloat` does), `none` when it is out of range. The exponent `e`
is that of the binade of `num / den`, but not below that of the subnormals. -/
def float64Of (num den : Nat) : Option ℚ :=
  if num = 0 then some 0
  else
    let e0 : Int := (Nat.log2 num : Int) - (Nat.log2 den : Int)
    let reaches : Bool :=
      if 0 ≤ e0 then decide (den * 2 ^ e0.toNat ≤ num) else decide (den ≤ num * 2 ^ (-e0).toNat)
    let e : Int := max (if reaches then e0 else e0 - 1) (-1022)
    let m : Nat :=
      if e ≤ 52 then roundHalfEven (num * 2 ^ (52 - e).toNat) den
      else roundHalfEven num (den * 2 ^ (e - 52).toNat)
    if 1023 < e ∨ (e = 1023 ∧ 2 ^ 53 ≤ m) then none
    else if 52 ≤ e then some ((m * 2 ^ (e - 52).toNat : Nat) : ℚ)
    else some (mkRat m (2 ^ (52 - e).toNat))

/-- The function `convertNumber` on a scanned number: its `float64`, or the error when
it is out of range. -/
def convertNumber (literal : GoString) : Except GoError F64 :=
  let negative := literal.head? = some 0x2D
  let body := if negative then literal.tail else literal
  let intPart := body.takeWhile isDigit
  let afterInt := body.dropWhile isDigit
  let frac := if afterInt.head? = some 0x2E then afterInt.tail.takeWhile isDigit else []
  let afterFrac := if afterInt.head? = some 0x2E then afterInt.tail.dropWhile isDigit else afterInt
  let expNegative := afterFrac.tail.head? = some 0x2D
  let expDigits :=
    if afterFrac.tail.head? = some 0x2D ∨ afterFrac.tail.head? = some 0x2B then afterFrac.tail.tail
    else afterFrac.tail
  let mantissa := natOf (intPart ++ frac)
  let up := if expNegative then 0 else natOf expDigits
  let down := frac.length + (if expNegative then natOf expDigits else 0)
  match float64Of (mantissa * 10 ^ (up - down)) (10 ^ (down - up)) with
  | none => .error (.msg (utf8 "json: cannot unmarshal number into Go value of type float64"))
  | some q => .ok (.fin (if negative then -q else q))

/-- The assignment `m[key] = v` on a map. -/
def setKey (m : JsonObject) (key : GoString) (v : Value) : JsonObject :=
  (m.filter (fun kv => kv.1 ≠ key)) ++ [(key, v)]

/-- The first error, if there is one. -/
def firstError (a b : Option GoError) : Option GoError :=
  match a with
  | some e => some e
  | none => b

/-- The decoding of a scanned value into an `interface{}` (`valueInterface`):
the value, and the error saved on the way, if any. A number that is out of
range leaves nil and saves its error; in a map a key that occurs again
replaces the earlier value. -/
def toValue : Tree → Value × Option GoError
  | .null => (.null, none)
  | .bool b => (.bool b, none)
  | .number literal =>
    match convertNumber literal with
    | .ok x => (.float x, none)
    | .error e => (.null, some e)
  | .string raw => (.str (unquote raw), none)
  | .array elements =>
    let r := toValues elements
    (.list r.1, r.2)
  | .object members =>
    let r := toMembers members []
    (.object r.1, r.2)
where
  toValues : List Tree → List Value × Option GoError
    | [] => ([], none)
    | t :: ts =>
      let r := toValue t
      let rs := toValues ts
      (r.1 :: rs.1, firstError r.2 rs.2)
  toMembers : List (GoString × Tree) → JsonObject → JsonObject × Option GoError
    | [], acc => (acc, none)
    | (key, t) :: ms, acc =>
      let r := toValue t
      let rs := toMembers ms (setKey acc (unquote key) r.1)
      (rs.1, firstError r.2 rs.2)

/-- ASCII case folding, under which `encoding/json` matches an object key with
a struct field when there is no exact match. -/
def equalFold (a b : GoString) : Bool :=
  strings.ToLower a == strings.ToLower b

/-- The decoding of the members of an object into an `ipcResponse`, one after
the other: a key that matches `data` sets `Data`; a key that matches `error`
sets `Error` when its value is a string, leaves it when the value is null, and
saves a type error otherwise; every other key is skipped. -/
def decodeFields : List (GoString × Tree) → ipcResponse → ipcResponse × Option GoError
  | [], resp => (resp, none)
  | (key, t) :: ms, resp =>
    if equalFold (unquote key) (utf8 "data") then
      let r := toValue t
      let rs := decodeFields ms { resp with Data := r.1 }
      (rs.1, firstError r.2 rs.2)
    else if equalFold (unquote key) (utf8 "error") then
      match t with
      | .string raw => decodeFields ms { resp with Error := unquote raw }
      | .null => decodeFields ms resp
      | _ =>
        let rs := decodeFields ms resp
        (rs.1, some (.msg (utf8
          "json: cannot unmarshal value into Go struct field ipcResponse.error of type string")))
    else decodeFields ms resp

/-- The call `json.Unmarshal(data, &resp)` for a zero `ipcResponse`: the input must
be one JSON value; null leaves the response as it is, an object is decoded
field by field, any other value is a type error; an error saved while
decoding is returned. -/
def UnmarshalResponse (data : GoString) : Except GoError ipcResponse :=
  match scan data with
  | .error e => .error e
  | .ok .null => .ok ⟨.null, []⟩
  | .ok (.object members) =>
    match decodeFields members ⟨.null, []⟩ with
    | (_, some e) => .error e
    | (resp, none) => .ok resp
  | .ok _ =>
    .error (.msg (utf8 "json: cannot unmarshal value into Go value of type player.ipcResponse"))

/-- The call `json.Unmarshal(data, &event)` for a nil `map[string]interface{}`: null
leaves the map nil, an object is decoded into the map, any other value is a
type error. -/
def UnmarshalObject (data : GoString) : Except GoError JsonObject :=
  match scan data with
  | .error e => .error e
  | .ok .null => .ok []
  | .ok (.object members) =>
    match toValue.toMembers members [] with
    | (_, some e) => .error e
    | (m, none) => .ok m
  | .ok _ =>
    .error (.msg (utf8
      "json: cannot unmarshal value into Go value of type map[string]interface \x7b\x7d"))

end json

/-- The environment of a player whose n-th read returns the bytes `reads n`
and whose responses `encoding/json` decodes; every other call succeeds. -/
def reading (reads : Nat → GoString) : Env where
  unmarshal := json.UnmarshalResponse
  attempt := fun n _ => ⟨none, none, none, none, .ok (reads n)⟩

/-- The answer of the player to the pause query, with its newline. -/
def pauseResponse : GoString :=
  utf8 "\x7b\"data\":false,\"request_id\":0,\"error\":\"success\"\x7d\n"

/-- An event that the player sends to every client, with its newline. -/
def seekEvent : GoString :=
  utf8 "\x7b\"event\":\"seek\"\x7d\n"

/-- The command of the pause query. -/
def getPause : Command :=
  [.str (utf8 "get_property"), .str (utf8 "pause")]

/-! ## `player/mpv.go` and `player/iina.go`: the process and its exit signal -/

def socketWaitRetries : Nat := 10

/-- An `exec.Cmd`: its arguments, and its `Process`, which is nil until `Start`
has succeeded and the pid of the process afterwards. -/
structure Cmd where
  args : List GoString
  Process : Option Nat

/-- The machine the player runs on. Processes and channels are numbered in
the order in which they are made. `running` holds the processes that are
alive, `closedChans` the channels that are closed, `reapers` the processes
for which a goroutine waits in `cmd.Wait()` to close the exit signal
afterwards; `panics` counts the closes of a channel that was closed already
(each of which ends the program), `killed` lists the processes that were
alive when a kill reached them, `removed` the paths handed to `os.Remove`,
and `waits` counts the waits for the exit signal with a timeout. -/
structure Host where
  spawned : Nat
  running : List Nat
  chans : Nat
  closedChans : List Nat
  reapers : List Nat
  panics : Nat
  killed : List Nat
  removed : List GoString
  waits : Nat

/-- A machine on which a single channel has been made. -/
def Host.fresh : Host :=
  ⟨0, [], 1, [], [], 0, [], [], 0⟩

def Host.isClosed (h : Host) (c : Nat) : Bool := h.closedChans.contains c

def Host.isRunning (h : Host) (pid : Nat) : Bool := h.running.contains pid

/-- The statement `close(c)`. -/
def Host.close (h : Host) (c : Nat) : Host :=
  if h.isClosed c then { h with panics := h.panics + 1 }
  else { h with closedChans := h.closedChans ++ [c] }

/-- A kill signal to the process. -/
def Host.kill (h : Host) (pid : Nat) : Host :=
  if h.isRunning pid then
    { h with running := h.running.filter (· ≠ pid), killed := h.killed ++ [pid] }
  else h

/-- What happens on the machine beside the calls of the program: a process
exits, or the goroutine that waits for a process that has exited goes on and
closes the exit signal. -/
inductive Event where
  | exit (pid : Nat)
  | reap (pid : Nat)

/-- One event; `exited` is the channel that the field `exited` of the player
holds when the event happens, which is the one that a reaper closes. -/
def Host.happen (h : Host) (exited : Nat) : Event → Host
  | .exit pid => { h with running := h.running.filter (· ≠ pid) }
  | .reap pid =>
    if h.reapers.contains pid ∧ h.isRunning pid = false then
      Host.close { h with reapers := h.reapers.erase pid } exited
    else h

def Host.apply (h : Host) (exited : Nat) (events : List Event) : Host :=
  events.foldl (fun h e => h.happen exited e) h

/-- The Go struct `MPV` (the socket path, the command, the exit signal and the
stop signal of the ticker), with the state of its IPC client and of the
machine. -/
structure Instance where
  socketPath : GoString
  cmd : Option Cmd
  exited : Nat
  tickerStop : Option Nat
  ipc : MPV
  host : Host

/-- The function `NewMPV`. -/
def NewMPV : Instance :=
  ⟨[], none, 0, none, ⟨0, 0, []⟩, Host.fresh⟩

/-- An event beside the calls on the player. -/
def Instance.happen (m : Instance) (e : Event) : Instance :=
  { m with host := m.host.happen m.exited e }

/-- What one call of `Play` meets: the bytes of `rand.Read` or its error, the
temporary directory, the error of `cmd.Start` if it fails, the events before
each look at the exit signal (the looks 0 to 9 of the wait for the socket, and
the look 10 after it), and whether the connection attempt of each round of the
wait succeeds. -/
structure PlayEnv where
  random : Except GoError (List Nat)
  tempDir : GoString
  start : Option GoError
  events : Nat → List Event
  dial : Nat → Bool

/-- The call `strings.ReplaceAll(s, old, new)` for a one-byte `old`. -/
def strings.ReplaceByte (s : GoString) (old : Nat) (new : GoString) : GoString :=
  s.flatMap fun c => if c = old then new else [c]

/-- The function `sanitizeTitle`. -/
def sanitizeTitle (title : GoString) : GoString :=
  let t := strings.ReplaceByte title 0x0A (utf8 " ")
  let t := strings.ReplaceByte t 0x0D (utf8 " ")
  let t := strings.ReplaceByte t 0x09 (utf8 " ")
  let t := strings.ReplaceByte t 0x00 []
  strings.TrimSpace t

/-- The loop of `Play` over the headers, in the order in which the map yields
them, with the text built so far. -/
def headerLoop : List (GoString × GoString) → GoString → GoString
  | [], built => built
  | (k, v) :: rest, built =>
    headerLoop rest
      ((if built.length > 0 then built ++ utf8 "," else built)
        ++ k ++ utf8 ": " ++ strings.ReplaceByte v 0x2C (utf8 "%2C"))

/-- The verb `%x` on a byte slice. -/
def hexOf (bytes : List Nat) : GoString :=
  bytes.flatMap fun b =>
    [b / 16, b % 16].map fun d => if d < 10 then 0x30 + d else 0x61 + (d - 10)

/-- The socket path of the call: the one the player has, or a new one in the
temporary directory, named after four random bytes. -/
def socketPathFor (P : Platform) (env : PlayEnv) (m : Instance) : Except GoError GoString :=
  if m.socketPath = [] then
    match env.random with
    | .error err => .error (.wrap (utf8 "generate socket name: ") err)
    | .ok randomBytes =>
      let name := utf8 "anisan-" ++ hexOf randomBytes ++ utf8 ".sock"
      .ok (P.filepathClean (if env.tempDir = [] then name else env.tempDir ++ utf8 "/" ++ name))
  else .ok m.socketPath

/-- The argument list that `Play` builds. -/
def playArgs (socketPath safeTitle headerString safeURL : GoString) : List GoString :=
  [utf8 "--no-terminal", utf8 "--really-quiet",
    utf8 "--input-ipc-server=" ++ socketPath,
    utf8 "--force-media-title=" ++ safeTitle,
    utf8 "--title=" ++ safeTitle,
    utf8 "--force-window=yes", utf8 "--idle=yes"]
    ++ (if headerString ≠ [] then [utf8 "--http-header-fields=" ++ headerString] else [])
    ++ [safeURL]

/-- The loop of `waitForSocket`, with `remaining` rounds to go from round `i`:
after the sleep of a round the exit signal is looked at, then the connection
is tried. -/
def waitLoop (env : PlayEnv) (socketPath : GoString) (exited : Nat) :
    Nat → Nat → Host → Option GoError × Host
  | 0, _, h =>
    (some (.msg (utf8 "socket " ++ socketPath ++ utf8 " not ready after "
      ++ utf8 (toString socketWaitRetries) ++ utf8 " attempts")), h)
  | remaining + 1, i, h =>
    let h1 := h.apply exited (env.events i)
    if h1.isClosed exited then (some (.msg (utf8 "mpv exited before socket was ready")), h1)
    else if env.dial i then (none, h1)
    else waitLoop env socketPath exited remaining (i + 1) h1

/-- The method `MPV.waitForSocket`. -/
def waitForSocket (env : PlayEnv) (socketPath : GoString) (exited : Nat) (h : Host) :
    Option GoError × Host :=
  waitLoop env socketPath exited socketWaitRetries 0 h

/-- What a successful `cmd.Start` of `MPV.Play` and the two statements after
it do to the machine: a new process runs, a new channel is made for the exit
signal, and a goroutine waits for the process. -/
def Host.launch (h : Host) : Host :=
  { h with
    spawned := h.spawned + 1,
    running := h.running ++ [h.spawned],
    chans := h.chans + 1,
    reapers := h.reapers ++ [h.spawned] }

/-- The machine at the look `n` rounds after round `i` of the wait for the
socket, when the wait gets that far: the events of the rounds `i` to `i + n`
have happened. -/
def lookAt (env : PlayEnv) (exited : Nat) : Nat → Nat → Host → Host
  | i, 0, h => h.apply exited (env.events i)
  | i, n + 1, h => lookAt env exited (i + 1) n (h.apply exited (env.events i))

/-- The part of `Play` from `cmd.Start` on, for a player that holds the socket
path and the command already. -/
def Instance.start (env : PlayEnv) (m : Instance) (args : List GoString) :
    Option GoError × Instance :=
  match env.start with
  | some err => (some (.wrap (utf8 "start mpv: ") err), { m with cmd := some ⟨args, none⟩ })
  | none =>
    let pid := m.host.spawned
    let exited := m.host.chans
    let host1 := m.host.launch
    let m1 : Instance := { m with cmd := some ⟨args, some pid⟩, exited := exited, host := host1 }
    match waitForSocket env m.socketPath exited host1 with
    | (none, host2) => (none, { m1 with host := host2 })
    | (some err, host2) =>
      let host3 := host2.apply exited (env.events socketWaitRetries)
      (some (.wrap (utf8 "mpv socket not ready: ") err),
        { m1 with host := if host3.isClosed exited then host3 else host3.kill pid })

/-- The method `MPV.Play`: the error, if any, and the player afterwards. -/
def Instance.Play (P : Platform) (env : PlayEnv) (m : Instance) (rawURL title : GoString)
    (headers : List (GoString × GoString)) : Option GoError × Instance :=
  match sanitizeMediaTarget P rawURL with
  | .error err => (some (.wrap (utf8 "invalid media target: ") err), m)
  | .ok safeURL =>
    match socketPathFor P env m with
    | .error err => (some err, m)
    | .ok socketPath =>
      Instance.start env { m with socketPath := socketPath }
        (playArgs socketPath (sanitizeTitle title) (headerLoop headers []) safeURL)

/-- The method `MPV.StopIPCTicker`. -/
def Instance.StopIPCTicker (m : Instance) : Instance :=
  match m.tickerStop with
  | some c => { m with host := m.host.close c, tickerStop := none }
  | none => m

/-- The function `killProcess` (its error is dropped by `Close`): nothing for a nil
command or a nil process, a kill otherwise. -/
def killProcess (cmd : Option Cmd) (h : Host) : Host :=
  match cmd with
  | none => h
  | some c =>
    match c.Process with
    | none => h
    | some pid => h.kill pid

/-- The method `MPV.Close`, with the events that happen while it waits for the exit
signal, three seconds at most: the error, and the player afterwards. -/
def Instance.Close (env : Env) (during : List Event) (m : Instance) :
    Option GoError × Instance :=
  let m1 := m.StopIPCTicker
  if m1.socketPath = [] then (none, m1)
  else
    let r := m1.ipc.sendCommand env [.str (utf8 "quit")]
    let host1 : Host := { m1.host.apply m1.exited during with waits := m1.host.waits + 1 }
    let host2 := if host1.isClosed m1.exited then host1 else killProcess m1.cmd host1
    (none, { m1 with ipc := r.2, host := { host2 with removed := host2.removed ++ [m1.socketPath] } })

/-- The Go struct `IINA` with the machine. -/
structure IINA where
  cmd : Option Cmd
  exited : Nat
  host : Host

/-- The function `NewIINA`. -/
def NewIINA : IINA :=
  ⟨none, 0, Host.fresh⟩

/-- What one call of `IINA.Play` meets: whether the system is macOS, the
setting `aniskip`, and the error of `cmd.Start` if it fails. -/
structure IINAEnv where
  darwin : Bool
  aniskip : Bool
  start : Option GoError

/-- The loop of `IINA.Play` over the headers. -/
def iinaHeaderLoop : List (GoString × GoString) → GoString → GoString
  | [], built => built
  | (k, v) :: rest, built =>
    iinaHeaderLoop rest
      ((if built.length > 0 then built ++ utf8 "," else built) ++ k ++ utf8 ": " ++ v)

/-- The method `IINA.Play`: the error, if any, and the player afterwards. -/
def IINA.Play (env : IINAEnv) (m : IINA) (rawURL title : GoString)
    (headers : List (GoString × GoString)) : Option GoError × IINA :=
  if env.darwin = false then (some (.msg (utf8 "IINA is only supported on macOS")), m)
  else
    let args : List GoString :=
      [utf8 "-a", utf8 "IINA", utf8 "--args",
        (if env.aniskip then utf8 "--mpv-force-media-title=" else utf8 "--force-media-title=")
          ++ title]
      ++ (if headers.length > 0 then
            [utf8 "--http-header-fields=" ++ iinaHeaderLoop headers []]
          else [])
      ++ [rawURL]
    match env.start with
    | some err =>
      (some (.wrap (utf8 "LaunchServices failed to invoke IINA: ") err),
        { m with cmd := some ⟨args, none⟩ })
    | none =>
      let pid := m.host.spawned
      (none,
        { m with
          cmd := some ⟨args, some pid⟩,
          host :=
            { m.host with
              spawned := pid + 1,
              running := m.host.running ++ [pid],
              reapers := m.host.reapers ++ [pid] } })

/-- An event beside the calls on the player. -/
def IINA.happen (m : IINA) (e : Event) : IINA :=
  { m with host := m.host.happen m.exited e }

/-- An environment of `Play` in which everything succeeds at once: the random
bytes are there, the process starts, nothing else happens and the first
connection attempt succeeds. -/
def smooth : PlayEnv where
  random := .ok [0xDE, 0xAD, 0xBE, 0xEF]
  tempDir := utf8 "/tmp"
  start := none
  events := fun _ => []
  dial := fun _ => true

/-- An environment of `Play` in which the player binary cannot be started. -/
def noBinary : PlayEnv where
  random := .ok [0xDE, 0xAD, 0xBE, 0xEF]
  tempDir := utf8 "/tmp"
  start := some (.msg (utf8 "exec: \"mpv\": executable file not found in $PATH"))
  events := fun _ => []
  dial := fun _ => false

/-- An environment of `Play` in which the process starts and stays alive but
its socket never accepts a connection. -/
def deaf : PlayEnv where
  random := .ok [0xDE, 0xAD, 0xBE, 0xEF]
  tempDir := utf8 "/tmp"
  start := none
  events := fun _ => []
  dial := fun _ => false

/-- The media target of the examples. -/
def exampleURL : GoString := utf8 "https://example.com/v.mp4"

/-- The events in their order. -/
def Instance.run (m : Instance) (events : List Event) : Instance :=
  events.foldl Instance.happen m

/-- The events in their order. -/
def IINA.run (m : IINA) (events : List Event) : IINA :=
  events.foldl IINA.happen m

/-- The player after a first `Play` that succeeds. -/
def firstPlay : Instance :=
  (Instance.Play unix smooth NewMPV exampleURL (utf8 "Episode 1") []).2

/-- The player after a second `Play` that succeeds while the process of the
first is running. -/
def secondPlay : Instance :=
  (Instance.Play unix smooth firstPlay exampleURL (utf8 "Episode 2") []).2

/-- The player after a `Play` that fails because the binary cannot be
started. -/
def failedStart : Instance :=
  (Instance.Play unix noBinary NewMPV exampleURL (utf8 "Episode 1") []).2

/-- A macOS system on which `open` starts. -/
def mac : IINAEnv :=
  ⟨true, false, none⟩

/-- The IINA player after a `Play` whose `open` process has exited and has
been waited for. -/
def iinaPlayed : IINA :=
  ((IINA.Play mac NewIINA exampleURL (utf8 "Episode 1") []).2).run [.exit 0, .reap 0]

/-- A player state that is reached without a successful `Play`: from a new
player by calls of `Play` that return an error, events on the machine, calls
of `Close` and `StopIPCTicker`, and what a ticker does to the fields (a new
stop channel at its start, nil at its end, the IPC traffic of its polls). -/
inductive Unplayed (P : Platform) : Instance → Prop where
  | new : Unplayed P NewMPV
  | play (m : Instance) (env : PlayEnv) (rawURL title : GoString)
      (headers : List (GoString × GoString)) :
      Unplayed P m → (Instance.Play P env m rawURL title headers).1 ≠ none →
      Unplayed P (Instance.Play P env m rawURL title headers).2
  | happen (m : Instance) (e : Event) : Unplayed P m → Unplayed P (m.happen e)
  | close (m : Instance) (env : Env) (during : List Event) :
      Unplayed P m → Unplayed P (m.Close env during).2
  | stopTicker (m : Instance) : Unplayed P m → Unplayed P m.StopIPCTicker
  | startTicker (m : Instance) :
      Unplayed P m →
      Unplayed P { m with tickerStop := some m.host.chans,
                          host := { m.host with chans := m.host.chans + 1 } }
  | tickerExit (m : Instance) : Unplayed P m → Unplayed P { m with tickerStop := none }
  | poll (m : Instance) (ipc : MPV) : Unplayed P m → Unplayed P { m with ipc := ipc }

/-- The machine `b` is `a` some time later, as far as signals and processes
go: a channel that is closed stays closed, and a process that does not run
does not run again. -/
def Host.later (a b : Host) : Prop :=
  (∀ c, a.isClosed c = true → b.isClosed c = true)
    ∧ (∀ pid, a.isRunning pid = false → b.isRunning pid = false)

/-- The process that the player holds, if it holds one, has been seen to exit
or does not run. -/
def Instance.settled (m : Instance) : Prop :=
  ∀ c pid, m.cmd = some c → c.Process = some pid →
    m.host.isClosed m.exited = true ∨ m.host.isRunning pid = false

/-! ## `player/mpv.go`: the ticker -/

/-- The conversion `int(x)` of a `float64`: the fraction is dropped; a value
that is not a number or does not fit 64 bits gives the smallest integer (what
amd64 does; Go leaves this case to the implementation). -/
def F64.toInt : F64 → Int
  | .fin q =>
    if -(2 : Int) ^ 63 ≤ Int.tdiv q.num q.den ∧ Int.tdiv q.num q.den < (2 : Int) ^ 63 then
      Int.tdiv q.num q.den
    else -(2 : Int) ^ 63
  | _ => -(2 : Int) ^ 63

/-- The verb `%T` on a value. -/
def Value.typeName : Value → GoString
  | .null => utf8 "<nil>"
  | .bool _ => utf8 "bool"
  | .float _ => utf8 "float64"
  | .int _ => utf8 "int"
  | .str _ => utf8 "string"
  | .list _ => utf8 "[]interface \x7b\x7d"
  | .object _ => utf8 "map[string]interface \x7b\x7d"

/-- The method `MPV.getFloatProperty`. -/
def MPV.getFloatProperty (env : Env) (m : MPV) (name : GoString) : Except GoError F64 × MPV :=
  match m.sendCommand env [.str (utf8 "get_property"), .str name] with
  | (.error err, m1) => (.error err, m1)
  | (.ok .null, m1) =>
    (.error (.msg (utf8 "property " ++ name ++ utf8 ": nil response")), m1)
  | (.ok (.float val), m1) => (.ok val, m1)
  | (.ok data, m1) =>
    (.error (.msg (utf8 "property " ++ name ++ utf8 ": expected float64, got "
      ++ data.typeName)), m1)

/-- The method `MPV.GetTimePos`. -/
def MPV.GetTimePos (env : Env) (m : MPV) : Except GoError F64 × MPV :=
  m.getFloatProperty env (utf8 "time-pos")

/-- The method `MPV.GetDuration`. -/
def MPV.GetDuration (env : Env) (m : MPV) : Except GoError F64 × MPV :=
  m.getFloatProperty env (utf8 "duration")

/-- The method `MPV.IsRunning`: false without a socket path, false when the exit
signal is closed, else whether the `pid` query succeeds. -/
def Instance.IsRunning (env : Env) (m : Instance) : Bool × Instance :=
  if m.socketPath = [] then (false, m)
  else if m.host.isClosed m.exited then (false, m)
  else
    match m.ipc.sendCommand env [.str (utf8 "get_property"), .str (utf8 "pid")] with
    | (.ok _, ipc1) => (true, { m with ipc := ipc1 })
    | (.error _, ipc1) => (false, { m with ipc := ipc1 })

/-- The body of the tick case of the ticker: the arguments of the callback
when it is invoked, and the player afterwards. -/
def Instance.poll (env : Env) (m : Instance) : Option (Int × Int) × Instance :=
  match m.IsRunning env with
  | (false, m1) => (none, m1)
  | (true, m1) =>
    match m1.ipc.GetTimePos env with
    | (.error _, ipc2) => (none, { m1 with ipc := ipc2 })
    | (.ok pos, ipc2) =>
      match ipc2.GetDuration env with
      | (.error _, ipc3) => (some (pos.toInt, (F64.fin 0).toInt), { m1 with ipc := ipc3 })
      | (.ok dur, ipc3) => (some (pos.toInt, dur.toInt), { m1 with ipc := ipc3 })

/-- Where a ticker goroutine is: about to enter its `select`; in the `select`
with the stop channel and the exit channel that it read from the fields when
it entered; in the body of the tick case; or returned. -/
inductive Pc where
  | entering
  | blocked (stop : Option Nat) (exited : Nat)
  | polling
  | done

/-- A ticker goroutine and the callback it was started with. -/
structure Ticker where
  pc : Pc
  callback : Nat

/-- One invocation of a progress callback. -/
structure Call where
  callback : Nat
  timePos : Int
  duration : Int
  deriving DecidableEq

/-- The player with its ticker goroutines and the callback invocations made
so far. -/
structure Sys where
  player : Instance
  tickers : List Ticker
  calls : List Call

/-- The method `MPV.StartIPCTicker`: nothing when a stop channel is set; else a new
stop channel and a new goroutine. -/
def Sys.StartIPCTicker (s : Sys) (callback : Nat) : Sys :=
  match s.player.tickerStop with
  | some _ => s
  | none =>
    { s with
      player :=
        { s.player with
          tickerStop := some s.player.host.chans,
          host := { s.player.host with chans := s.player.host.chans + 1 } },
      tickers := s.tickers ++ [⟨.entering, callback⟩] }

/-- The method `MPV.StopIPCTicker` beside the goroutines. -/
def Sys.StopIPCTicker (s : Sys) : Sys :=
  { s with player := s.player.StopIPCTicker }

/-- The case of the `select` that fires. -/
inductive Pick where
  | stop
  | exited
  | tick

/-- One step of the ticker goroutine `g`. Entering the `select` reads the two
channel fields. In the `select`, the case `pick` fires if it is ready: the
stop case when the stop channel that was read is not nil and is closed, the
exit case when the exit channel that was read is closed, the tick case at
any time; a case that is not ready leaves the goroutine where it is. In the
tick case the body runs and the loop starts again. -/
def Sys.step (env : Env) (s : Sys) (g : Nat) (pick : Pick) : Sys :=
  match s.tickers[g]? with
  | none => s
  | some t =>
    match t.pc with
    | .done => s
    | .entering =>
      { s with tickers := s.tickers.set g { t with pc := .blocked s.player.tickerStop s.player.exited } }
    | .blocked stop exited =>
      match pick with
      | .stop =>
        match stop with
        | some c =>
          if s.player.host.isClosed c then
            { s with tickers := s.tickers.set g { t with pc := .done } }
          else s
        | none => s
      | .exited =>
        if s.player.host.isClosed exited then
          { s with
            player := { s.player with tickerStop := none },
            tickers := s.tickers.set g { t with pc := .done } }
        else s
      | .tick => { s with tickers := s.tickers.set g { t with pc := .polling } }
    | .polling =>
      match s.player.poll env with
      | (none, m1) =>
        { s with player := m1, tickers := s.tickers.set g { t with pc := .entering } }
      | (some (pos, dur), m1) =>
        { player := m1,
          tickers := s.tickers.set g { t with pc := .entering },
          calls := s.calls ++ [⟨t.callback, pos, dur⟩] }

/-- The steps of a schedule, in their order. -/
def Sys.run (env : Env) (s : Sys) (schedule : List (Nat × Pick)) : Sys :=
  schedule.foldl (fun s gp => s.step env gp.1 gp.2) s

/-- A player that answers every query with the number 12. -/
def twelve : Env :=
  answering ⟨.float (.fin 12), utf8 "success"⟩

/-- The example of the ticker: on a player whose process runs, a ticker is
started with callback 0, enters its `select`, and a tick fires, so that the
goroutine is about to run the body of the tick case. -/
def midPoll : Sys :=
  ((Sys.mk firstPlay [] []).StartIPCTicker 0).run twelve [(0, .tick), (0, .tick)]

/-! ## `player/mpv.go`: the queries -/

/-- The comparison `data != nil`. -/
def Value.isNil : Value → Bool
  | .null => true
  | _ => false

/-- The method `MPV.HasActivePlayback`: the result, the error, and the player
afterwards. -/
def MPV.HasActivePlayback (env : Env) (m : MPV) : (Bool × Option GoError) × MPV :=
  match m.sendCommand env [.str (utf8 "get_property"), .str (utf8 "time-pos")] with
  | (.error err, m1) =>
    if strings.Contains err.Error (utf8 "property unavailable") then ((false, none), m1)
    else ((false, some err), m1)
  | (.ok data, m1) => ((!data.isNil, none), m1)

/-- An environment in which no connection can be made and the temporary
directory, which is part of the socket path in the error of the dial, is
named `property unavailable`. -/
def oddTempDir : Env where
  unmarshal := fun _ => .ok ⟨.null, []⟩
  attempt := fun _ _ =>
    ⟨some (.msg (utf8
      "dial unix /tmp/property unavailable/anisan-deadbeef.sock: connect: connection refused")),
      none, none, none, .ok []⟩

/-- A `float64` from the nearest one to `num / den` and a sign; a value that is
out of range is an infinity. -/
def F64.rounded (negative : Bool) (num den : Nat) : F64 :=
  match json.float64Of num den with
  | some q => .fin (if negative then -q else q)
  | none => if negative then .negInf else .posInf

/-- Go's `/` on `float64`, rounded to the nearest value. The sign of a zero is
not part of the model: a zero divisor counts as positive. -/
def F64.div : F64 → F64 → F64
  | .nan, _ => .nan
  | _, .nan => .nan
  | .posInf, .fin b => if b < 0 then .negInf else .posInf
  | .negInf, .fin b => if b < 0 then .posInf else .negInf
  | .fin _, .posInf => .fin 0
  | .fin _, .negInf => .fin 0
  | .fin a, .fin b =>
    if b = 0 then (if a = 0 then .nan else if a < 0 then .negInf else .posInf)
    else
      F64.rounded (decide (a < 0) != decide (b < 0))
        (a.num.natAbs * b.den) (a.den * b.num.natAbs)
  | _, _ => .nan

/-- Go's `*` on `float64`, rounded to the nearest value. -/
def F64.mul : F64 → F64 → F64
  | .nan, _ => .nan
  | _, .nan => .nan
  | .fin a, .fin b =>
    F64.rounded (decide (a < 0) != decide (b < 0))
      (a.num.natAbs * b.num.natAbs) (a.den * b.den)
  | .fin a, .posInf => if a = 0 then .nan else if a < 0 then .negInf else .posInf
  | .fin a, .negInf => if a = 0 then .nan else if a < 0 then .posInf else .negInf
  | .posInf, .fin b => if b = 0 then .nan else if b < 0 then .negInf else .posInf
  | .negInf, .fin b => if b = 0 then .nan else if b < 0 then .posInf else .negInf
  | .posInf, .posInf => .posInf
  | .negInf, .negInf => .posInf
  | .posInf, .negInf => .negInf
  | .negInf, .posInf => .negInf

/-- The method `MPV.GetPercentWatched`: the value, the error, and the player
afterwards. -/
def MPV.GetPercentWatched (env : Env) (m : MPV) : (F64 × Option GoError) × MPV :=
  match m.GetTimePos env with
  | (.error err, m1) => ((.fin 0, some err), m1)
  | (.ok pos, m1) =>
    match m1.GetDuration env with
    | (.error err, m2) => ((.fin 0, some err), m2)
    | (.ok dur, m2) =>
      if F64.le dur (.fin 0) then ((.fin 0, none), m2)
      else ((F64.mul (F64.div pos dur) (.fin 100), none), m2)

/-- A player whose first answer is the number `first` and whose later answers
are the number `later`. -/
def reporting (first later : F64) : Env where
  unmarshal := fun buf =>
    .ok ⟨.float (if buf = [0] then first else later), utf8 "success"⟩
  attempt := fun n _ => ⟨none, none, none, none, .ok [n]⟩

/-- The conversion `float64(n)`: an integer of up to 2^53 in magnitude is held
exactly, a larger one is rounded to the nearest value. -/
def F64.ofInt (n : Int) : F64 :=
  if n.natAbs ≤ 2 ^ 53 then .fin n else F64.rounded (decide (n < 0)) n.natAbs 1

/-- The position that `Check` is given for the position `pos` of the player:
the ticker calls the callback with `int(pos)`, and the callback calls
`skipper.Check(float64(pos))`. -/
def tickerSample (pos : F64) : F64 :=
  F64.ofInt (F64.toInt pos)

/-- Skip times with an opening from 10 to 30.5 and no ending. -/
def halfSecond : SkipTimes where
  Opening := ⟨.fin 10, .fin (61 / 2)⟩
  Ending := ⟨.fin 0, .fin 0⟩
  HasIntro := true
  HasOutro := false

/-- An event that carries data, with its newline. -/
def pauseEvent : GoString :=
  utf8 "\x7b\"event\":\"property-change\",\"id\":2,\"name\":\"pause\",\"data\":true\x7d\n"

/-! ## `util/util.go` and `util/stack.go` -/

/-- The call `strings.ToUpper` on a string of one byte: an ASCII letter in upper
case, another ASCII byte as it is, and for a byte from 0x80 on, which is not
valid UTF-8 by itself, the replacement rune U+FFFD. -/
def strings.ToUpperByte (c : Nat) : GoString :=
  if c < 0x80 then [if 0x61 ≤ c ∧ c ≤ 0x7A then c - 0x20 else c]
  else [0xEF, 0xBF, 0xBD]

/-- The function `Capitalize`: `strings.ToUpper(s[:1]) + s[1:]`. -/
def Capitalize (s : GoString) : GoString :=
  match s with
  | [] => []
  | c :: rest => strings.ToUpperByte c ++ rest

/-- The type `Stack[T]`. -/
structure Stack (α : Type) where
  items : List α

/-- The method `Stack.Push`. -/
def Stack.Push {α : Type} (s : Stack α) (item : α) : Stack α :=
  ⟨s.items ++ [item]⟩

/-- The method `Stack.Pop`, with the zero value of the item type: the item and the
stack afterwards. -/
def Stack.Pop {α : Type} (zero : α) (s : Stack α) : α × Stack α :=
  if s.items.length = 0 then (zero, s)
  else (s.items.getD (s.items.length - 1) zero, ⟨s.items.take (s.items.length - 1)⟩)

/-- The method `Stack.Peek`, with the zero value of the item type. -/
def Stack.Peek {α : Type} (zero : α) (s : Stack α) : α :=
  if s.items.length = 0 then zero
  else s.items.getD (s.items.length - 1) zero

/-- The method `Stack.Len`. -/
def Stack.Len {α : Type} (s : Stack α) : Nat :=
  s.items.length

/-! ## `history/history.go` -/

/-- The fields of `source.Anime` that the history reads, with the ID of its
source and the number of its episodes. -/
structure Anime where
  Name : GoString
  URL : GoString
  ID : GoString
  SourceID : GoString
  Episodes : Nat

/-- The fields of `source.Episode` that the history reads. -/
structure Episode where
  ID : GoString
  Name : GoString
  URL : GoString
  Index : Nat
  Anime : Anime

/-- The type `SavedEpisode`. -/
structure SavedEpisode where
  SourceID : GoString
  AnimeName : GoString
  AnimeURL : GoString
  AnimeEpisodesTotal : Nat
  Name : GoString
  URL : GoString
  ID : GoString
  Index : Nat
  AnimeID : GoString
  WatchedPercentage : F64
  deriving DecidableEq

/-- The method `SavedEpisode.encode`: the key of the record. -/
def SavedEpisode.encode (s : SavedEpisode) : GoString :=
  s.AnimeName ++ utf8 " (" ++ s.SourceID ++ utf8 ")"

/-- The function `newSavedEpisode`; the percentage is the zero value. -/
def newSavedEpisode (episode : Episode) : SavedEpisode where
  SourceID := episode.Anime.SourceID
  AnimeName := episode.Anime.Name
  AnimeURL := episode.Anime.URL
  Name := episode.Name
  URL := episode.URL
  ID := episode.ID
  AnimeID := episode.Anime.ID
  AnimeEpisodesTotal := episode.Anime.Episodes
  Index := episode.Index
  WatchedPercentage := .fin 0

/-- The map of the history: the records under their keys. -/
abbrev Records := List (GoString × SavedEpisode)

/-- The index expression `saved[key]`. -/
def Records.get (saved : Records) (key : GoString) : Option SavedEpisode :=
  (saved.find? fun kv => kv.1 = key).map fun kv => kv.2

/-- The assignment `saved[key] = record`. -/
def Records.set (saved : Records) (key : GoString) (record : SavedEpisode) : Records :=
  (saved.filter fun kv => kv.1 ≠ key) ++ [(key, record)]

/-- The cache behind the history: what it holds (nothing, when nothing has
been stored), whether that has expired, and the errors of its next `Get` and
`Set`, if they fail. -/
structure Cacher where
  cached : Option Records
  expired : Bool
  getError : Option GoError
  setError : Option GoError

/-- The function `history.Get`. -/
def history.Get (c : Cacher) : Except GoError Records :=
  match c.getError with
  | some err => .error err
  | none =>
    match c.cached with
    | none => .ok []
    | some cached => if c.expired then .ok [] else .ok cached

/-- The function `history.Save`: the error, if any, and the cache afterwards. -/
def history.Save (c : Cacher) (episode : Episode) (percentage : F64) :
    Option GoError × Cacher :=
  match history.Get c with
  | .error err => (some err, c)
  | .ok saved =>
    let record := newSavedEpisode episode
    let percentage :=
      match saved.get record.encode with
      | some existing =>
        if F64.lt percentage existing.WatchedPercentage then existing.WatchedPercentage
        else percentage
      | none => percentage
    let record := { record with WatchedPercentage := percentage }
    match c.setError with
    | some err => (some err, c)
    | none => (none, { c with cached := some (saved.set record.encode record), expired := false })

/-- An anime of the examples, with 12 episodes. -/
def frieren : Anime :=
  ⟨utf8 "Frieren", utf8 "https://example.com/frieren", utf8 "frieren", utf8 "example", 12⟩

/-- Its first episode. -/
def frierenOne : Episode :=
  ⟨utf8 "1", utf8 "Episode 1", utf8 "https://example.com/frieren/1", 1, frieren⟩

/-- Its second episode. -/
def frierenTwo : Episode :=
  ⟨utf8 "2", utf8 "Episode 2", utf8 "https://example.com/frieren/2", 2, frieren⟩

/-- An empty cache that works. -/
def emptyCacher : Cacher :=
  ⟨none, false, none, none⟩

/-- The cache after the first episode has been saved with 95 percent. -/
def afterOne : Cacher :=
  (history.Save emptyCacher frierenOne (.fin 95)).2

/-- The cache after the second episode has then been saved with 0 percent, as
at the start of its playback. -/
def afterTwo : Cacher :=
  (history.Save afterOne frierenTwo (.fin 0)).2

/-! ## `version/compare.go` -/

/-- The function `strings.TrimPrefix`. -/
def strings.TrimPrefix (s pre : GoString) : GoString :=
  if strings.HasPrefix s pre then s.drop pre.length else s

/-- The function `strconv.ParseInt(s, 10, 64)` on a token of the scanner, an optional sign
and digits (such a token is its own quoted form but for the quotes). -/
def strconv.ParseInt (s : GoString) : Except GoError Int :=
  let signed : Bool := s.head? = some 0x2B || s.head? = some 0x2D
  let neg : Bool := s.head? = some 0x2D
  let digits := if signed then s.tail else s
  if digits = [] ∨ digits.all json.isDigit = false then
    .error (.msg (utf8 "strconv.ParseInt: parsing \"" ++ s ++ utf8 "\": invalid syntax"))
  else if (neg = false ∧ json.natOf digits ≥ 2 ^ 63) ∨ (neg = true ∧ json.natOf digits > 2 ^ 63) then
    .error (.msg (utf8 "strconv.ParseInt: parsing \"" ++ s ++ utf8 "\": value out of range"))
  else .ok (if neg then -(json.natOf digits : Int) else (json.natOf digits : Int))

namespace fmt

/-- The method `ss.SkipSpace` of a scan in which a newline is no space: the
input after the whitespace, or the error of a newline. A rune takes a byte
at least, so `fuel = len(s)` steps are enough. -/
def SkipSpace : Nat → GoString → Except GoError GoString
  | 0, s => .ok s
  | fuel + 1, s =>
    match s with
    | [] => .ok []
    | c :: _ =>
      if c = 0x0A then .error (.msg (utf8 "unexpected newline"))
      else
        match strings.stripOne strings.spaceEncodings s with
        | some r => SkipSpace fuel r
        | none => .ok s

/-- The method `ss.scanInt` for the verb `%d` and an `int` of 64 bits: the
number and the input after it. -/
def scanInt (s : GoString) : Except GoError (Int × GoString) :=
  match SkipSpace s.length s with
  | .error err => .error err
  | .ok s1 =>
    match s1 with
    | [] => .error (.msg (utf8 "EOF"))
    | c :: r =>
      let sign : GoString := if c = 0x2B ∨ c = 0x2D then [c] else []
      let s2 : GoString := if c = 0x2B ∨ c = 0x2D then r else s1
      match s2 with
      | [] => .error (.msg (utf8 "EOF"))
      | d :: _ =>
        if json.isDigit d = false then .error (.msg (utf8 "expected integer"))
        else
          match strconv.ParseInt (sign ++ s2.takeWhile json.isDigit) with
          | .error err => .error err
          | .ok i => .ok (i, s2.dropWhile json.isDigit)

/-- A verb `%d` of the format: `doScanf` skips the whitespace and scans the
number. -/
def verb (s : GoString) : Except GoError (Int × GoString) :=
  match SkipSpace s.length s with
  | .error err => .error err
  | .ok s1 => scanInt s1

/-- A period of the format: the input goes on with a period, or the scan
fails. -/
def period (s : GoString) : Except GoError GoString :=
  match s with
  | [] => .error (.msg (utf8 "unexpected EOF"))
  | c :: r => if c = 0x2E then .ok r else .error (.msg (utf8 "input does not match format"))

/-- The call `fmt.Sscanf(s, "%d.%d.%d", &major, &minor, &patch)`: the three numbers, or
the error. What follows the third number is not read. -/
def Sscanf (s : GoString) : Except GoError (Int × Int × Int) :=
  match verb s with
  | .error err => .error err
  | .ok (major, s1) =>
    match period s1 with
    | .error err => .error err
    | .ok s2 =>
      match verb s2 with
      | .error err => .error err
      | .ok (minor, s3) =>
        match period s3 with
        | .error err => .error err
        | .ok s4 =>
          match verb s4 with
          | .error err => .error err
          | .ok (patch, _) => .ok (major, minor, patch)

end fmt

namespace version

/-- The closure `parse` of `Compare`. -/
def parse (s : GoString) : Except GoError (Int × Int × Int) :=
  fmt.Sscanf (strings.TrimPrefix s (utf8 "v"))

/-- The loop of `Compare` over the pairs. -/
def compareLoop : List (Int × Int) → Int
  | [] => 0
  | pair :: rest =>
    if pair.1 > pair.2 then 1
    else if pair.1 < pair.2 then -1
    else compareLoop rest

/-- The function `version.Compare`: the result and the error. -/
def Compare (a b : GoString) : Int × Option GoError :=
  match parse a with
  | .error err => (0, some err)
  | .ok av =>
    match parse b with
    | .error err => (0, some err)
    | .ok bv => (compareLoop [(av.1, bv.1), (av.2.1, bv.2.1), (av.2.2, bv.2.2)], none)

/-- A run of digits, one at least. -/
def isNumber (d : GoString) : Bool :=
  d ≠ [] && d.all json.isDigit

/-- A version string of the form major.minor.patch, with a leading `v` or
without. -/
def versionString (v : Bool) (major minor patch : GoString) : GoString :=
  (if v then utf8 "v" else []) ++ major ++ utf8 "." ++ minor ++ utf8 "." ++ patch

end version

/-! ## Lemmas on the string functions -/

namespace strings

theorem stripOne_eq_some {encs : List GoString} {s r : GoString}
    (h : stripOne encs s = some r) : ∃ e ∈ encs, s = e ++ r := by
  induction encs with
  | nil => simp [stripOne] at h
  | cons e es ih =>
    unfold stripOne at h
    split at h
    · rename_i hp
      obtain ⟨t, rfl⟩ := List.isPrefixOf_iff_prefix.mp hp
      simp only [List.drop_left, Option.some.injEq] at h
      exact ⟨e, List.mem_cons_self _ _, by rw [h]⟩
    · obtain ⟨e1, he1, hs⟩ := ih h
      exact ⟨e1, List.mem_cons_of_mem _ he1, hs⟩

theorem trimLeftLoop_decomp (encs : List GoString) :
    ∀ (fuel : Nat) (s : GoString),
      ∃ pre, s = pre ++ trimLeftLoop encs fuel s ∧ ∀ c ∈ pre, ∃ e ∈ encs, c ∈ e
  | 0, s => ⟨[], by simp [trimLeftLoop], by simp⟩
  | fuel + 1, s => by
    unfold trimLeftLoop
    cases h : stripOne encs s with
    | none => exact ⟨[], by simp, by simp⟩
    | some r =>
      obtain ⟨e, he, hs⟩ := stripOne_eq_some h
      obtain ⟨pre, hr, hpre⟩ := trimLeftLoop_decomp encs fuel r
      refine ⟨e ++ pre, ?_, ?_⟩
      · simp only [List.append_assoc]
        rw [← hr, hs]
      · intro c hc
        rcases List.mem_append.mp hc with hc | hc
        · exact ⟨e, he, hc⟩
        · exact hpre c hc

theorem stripOne_nil {encs : List GoString} (hencs : ∀ e ∈ encs, e ≠ []) :
    stripOne encs [] = none := by
  induction encs with
  | nil => rfl
  | cons e es ih =>
    have he : e ≠ [] := hencs e (List.mem_cons_self _ _)
    have hes := ih (fun x hx => hencs x (List.mem_cons_of_mem _ hx))
    cases e with
    | nil => exact absurd rfl he
    | cons a as => simp [stripOne, hes, List.isPrefixOf]

/-- With fuel for every byte the loop runs to its end: what it returns does
not start with a rune of `encs`. -/
theorem stripOne_trimLeftLoop {encs : List GoString} (hencs : ∀ e ∈ encs, e ≠ []) :
    ∀ (fuel : Nat) (s : GoString), s.length ≤ fuel →
      stripOne encs (trimLeftLoop encs fuel s) = none
  | 0, s, h => by
    have hs : s = [] := List.length_eq_zero.mp (Nat.le_zero.mp h)
    rw [hs]
    exact stripOne_nil hencs
  | fuel + 1, s, h => by
    unfold trimLeftLoop
    cases hr : stripOne encs s with
    | none => exact hr
    | some r =>
      obtain ⟨e, he, hs⟩ := stripOne_eq_some hr
      have hlen : 0 < e.length := List.length_pos.mpr (hencs e he)
      have hle : r.length ≤ fuel := by
        have := congrArg List.length hs
        rw [List.length_append] at this
        omega
      exact stripOne_trimLeftLoop hencs fuel r hle

/-- What `TrimSpace` returns starts with no whitespace rune and ends with
none. -/
theorem TrimSpace_trimmed (s : GoString) :
    stripOne (spaceEncodings.map List.reverse) (TrimSpace s).reverse = none
      ∧ (TrimSpace s = [] ∨ stripOne spaceEncodings (TrimSpace s) = none) := by
  have hr : stripOne (spaceEncodings.map List.reverse) (TrimSpace s).reverse = none := by
    unfold TrimSpace TrimRightSpace
    rw [List.reverse_reverse]
    exact stripOne_trimLeftLoop (by decide) _ _ (by simp)
  refine ⟨hr, ?_⟩
  by_cases hnil : TrimSpace s = []
  · exact Or.inl hnil
  · right
    have hl : stripOne spaceEncodings (TrimLeftSpace s) = none :=
      stripOne_trimLeftLoop (by decide) _ _ (Nat.le_refl _)
    obtain ⟨post, hpost, -⟩ :=
      trimLeftLoop_decomp (spaceEncodings.map List.reverse) (TrimLeftSpace s).length
        (TrimLeftSpace s).reverse
    have h2 : TrimLeftSpace s = TrimSpace s ++ post.reverse := by
      have := congrArg List.reverse hpost
      simpa [TrimSpace, TrimRightSpace] using this
    cases hs : stripOne spaceEncodings (TrimSpace s) with
    | none => rfl
    | some r =>
      exfalso
      obtain ⟨e, he, hes⟩ := stripOne_eq_some hs
      have hpre : e <+: TrimLeftSpace s := by
        rw [h2, hes, List.append_assoc]
        exact List.prefix_append _ _
      have : ∀ (encs : List GoString), e ∈ encs → stripOne encs (TrimLeftSpace s) ≠ none := by
        intro encs
        induction encs with
        | nil => intro h; simp at h
        | cons x xs ih =>
          intro hmem
          unfold stripOne
          split
          · simp
          · rename_i hx
            rcases List.mem_cons.mp hmem with h | h
            · rw [← h] at hx
              exact absurd (List.isPrefixOf_iff_prefix.mpr hpre) hx
            · exact ih h
      exact this spaceEncodings he hl

theorem isSpaceByte_of_mem {c : Nat} (h : ∃ e ∈ spaceEncodings, c ∈ e) :
    isSpaceByte c = true := by
  obtain ⟨e, he, hc⟩ := h
  unfold isSpaceByte
  rw [List.any_eq_true]
  exact ⟨e, he, by simpa using hc⟩

theorem isSpaceByte_of_mem_reverse {c : Nat}
    (h : ∃ e ∈ spaceEncodings.map List.reverse, c ∈ e) : isSpaceByte c = true := by
  obtain ⟨e, he, hc⟩ := h
  obtain ⟨e0, he0, rfl⟩ := List.mem_map.mp he
  exact isSpaceByte_of_mem ⟨e0, he0, List.mem_reverse.mp hc⟩

/-- The string `TrimSpace s` is `s` without a run of whitespace bytes at the start and one at
the end. -/
theorem TrimSpace_decomp (s : GoString) :
    ∃ pre post, s = pre ++ TrimSpace s ++ post
      ∧ (∀ c ∈ pre, isSpaceByte c = true) ∧ (∀ c ∈ post, isSpaceByte c = true) := by
  obtain ⟨pre, hpre, hpre2⟩ := trimLeftLoop_decomp spaceEncodings s.length s
  obtain ⟨tsop, hpost, hpost2⟩ :=
    trimLeftLoop_decomp (spaceEncodings.map List.reverse) (TrimLeftSpace s).length
      (TrimLeftSpace s).reverse
  refine ⟨pre, tsop.reverse, ?_, fun c hc => isSpaceByte_of_mem (hpre2 c hc),
    fun c hc => isSpaceByte_of_mem_reverse (hpost2 c (List.mem_reverse.mp hc))⟩
  have h2 : TrimLeftSpace s = TrimSpace s ++ tsop.reverse := by
    have := congrArg List.reverse hpost
    simpa [TrimSpace, TrimRightSpace] using this
  have h1 : s = pre ++ TrimLeftSpace s := hpre
  rw [List.append_assoc, ← h2]
  exact h1

/-- A byte that is in no whitespace rune survives the trimming. -/
theorem mem_TrimSpace {c : Nat} {s : GoString} (hc : c ∈ s) (hns : isSpaceByte c = false) :
    c ∈ TrimSpace s := by
  obtain ⟨pre, post, hs, hpre, hpost⟩ := TrimSpace_decomp s
  rw [hs] at hc
  rcases List.mem_append.mp hc with hc | hc
  · rcases List.mem_append.mp hc with hc | hc
    · rw [hpre c hc] at hns
      exact absurd hns (by simp)
    · exact hc
  · rw [hpost c hc] at hns
    exact absurd hns (by simp)

/-- What is trimmed is part of the string. -/
theorem mem_of_mem_TrimSpace {c : Nat} {s : GoString} (hc : c ∈ TrimSpace s) : c ∈ s := by
  obtain ⟨pre, post, hs, -, -⟩ := TrimSpace_decomp s
  rw [hs]
  simp [hc]

/-- A string that starts with a byte that is in no whitespace rune still
starts with it after the trimming. -/
theorem TrimSpace_cons {c : Nat} (rest : GoString) (hns : isSpaceByte c = false) :
    ∃ t, TrimSpace (c :: rest) = c :: t := by
  obtain ⟨pre, post, hs, hpre, hpost⟩ := TrimSpace_decomp (c :: rest)
  cases pre with
  | cons p ps =>
    simp only [List.cons_append, List.cons.injEq] at hs
    have hp := hpre p (List.mem_cons_self _ _)
    rw [← hs.1, hns] at hp
    exact absurd hp (by simp)
  | nil =>
    cases ht : TrimSpace (c :: rest) with
    | cons d t =>
      rw [ht] at hs
      simp only [List.nil_append, List.cons_append, List.cons.injEq] at hs
      exact ⟨t, by rw [hs.1]⟩
    | nil =>
      rw [ht] at hs
      simp only [List.nil_append] at hs
      have : c ∈ post := by rw [← hs]; exact List.mem_cons_self _ _
      rw [hpost c this] at hns
      exact absurd hns (by simp)

/-- Dropping bytes before a string keeps an occurrence of `sub` that does not
start with one of them. -/
theorem infix_of_infix_append_left {sub pre r : GoString} {a : Nat} {sub1 : GoString}
    (hsub : sub = a :: sub1) (ha : a ∉ pre) (h : sub <:+: pre ++ r) : sub <:+: r := by
  induction pre with
  | nil => simpa using h
  | cons p ps ih =>
    rw [List.cons_append, List.infix_cons_iff] at h
    rcases h with h | h
    · rw [hsub] at h
      have := List.cons_prefix_cons.mp h
      exact absurd this.1 (fun e => ha (by rw [e]; exact List.mem_cons_self _ _))
    · exact ih (fun hm => ha (List.mem_cons_of_mem _ hm)) h

/-- Trimming keeps an occurrence of a substring whose first and last bytes are
in no whitespace rune. -/
theorem infix_TrimSpace {sub s : GoString} (a b : Nat) (sub1 sub2 : GoString)
    (h1 : sub = a :: sub1) (h2 : sub.reverse = b :: sub2)
    (ha : isSpaceByte a = false) (hb : isSpaceByte b = false) (h : sub <:+: s) :
    sub <:+: TrimSpace s := by
  obtain ⟨pre, post, hs, hpre, hpost⟩ := TrimSpace_decomp s
  rw [hs, List.append_assoc] at h
  have h3 : sub <:+: TrimSpace s ++ post :=
    infix_of_infix_append_left h1 (fun hm => by rw [hpre a hm] at ha; simp at ha) h
  have h4 : sub.reverse <:+: post.reverse ++ (TrimSpace s).reverse := by
    rw [← List.reverse_append]
    exact List.reverse_infix.mpr h3
  have h5 := infix_of_infix_append_left h2
    (fun hm => by rw [hpost b (List.mem_reverse.mp hm)] at hb; simp at hb) h4
  exact List.reverse_infix.mp h5

end strings

/-! ## The sanitizer -/

theorem sanitize_of_control (P : Platform) (link : GoString)
    (hne : strings.TrimSpace link ≠ [])
    (hc : strings.ContainsAny (strings.TrimSpace link) (utf8 "\x00\n\r") = true) :
    sanitizeMediaTarget P link = .error (.msg (utf8 "invalid control characters in URL")) := by
  unfold sanitizeMediaTarget
  simp only [hne, hc, if_false, if_true]

theorem containsAny_of_mem {s chars : GoString} {c : Nat} (hs : c ∈ s) (hc : c ∈ chars) :
    strings.ContainsAny s chars = true := by
  unfold strings.ContainsAny
  rw [List.any_eq_true]
  exact ⟨c, hs, by simpa using hc⟩

/-- C2, as amended: a target that contains a NUL byte, or that still contains
a newline or a carriage return once the surrounding whitespace is trimmed, is
rejected with an error. -/
theorem sanitizeMediaTarget_rejects_control (P : Platform) (link : GoString)
    (h : 0x00 ∈ link ∨ 0x0A ∈ strings.TrimSpace link ∨ 0x0D ∈ strings.TrimSpace link) :
    rejects P link := by
  have hm : ∃ c, c ∈ strings.TrimSpace link ∧ c ∈ utf8 "\x00\n\r" := by
    rcases h with h | h | h
    · exact ⟨0x00, strings.mem_TrimSpace h (by decide), by decide⟩
    · exact ⟨0x0A, h, by decide⟩
    · exact ⟨0x0D, h, by decide⟩
  obtain ⟨c, hc, hchars⟩ := hm
  exact ⟨_, sanitize_of_control P link (List.ne_nil_of_mem hc) (containsAny_of_mem hc hchars)⟩

theorem sanitizeMediaTarget_rejects_control_witness :
    rejects unix (utf8 "a\nb") ∧ rejects unix (utf8 "\x00") :=
  ⟨sanitizeMediaTarget_rejects_control unix (utf8 "a\nb") (Or.inr (Or.inl (by decide))),
   sanitizeMediaTarget_rejects_control unix (utf8 "\x00") (Or.inl (by decide))⟩

/-- C2 as stated fails: a target with a trailing newline contains a newline
and is accepted, on every platform. -/
theorem sanitizeMediaTarget_accepts_trailing_newline :
    0x0A ∈ utf8 "https://example.com/v.mp4\n"
      ∧ sanitizeMediaTarget unix (utf8 "https://example.com/v.mp4\n")
          = .ok (utf8 "https://example.com/v.mp4")
      ∧ 0x0A ∈ utf8 "v.mp4\n"
      ∧ ∀ P : Platform, ¬ rejects P (utf8 "v.mp4\n") := by
  refine ⟨by decide, by rfl, by decide, ?_⟩
  rintro P ⟨e, he⟩
  have : sanitizeMediaTarget P (utf8 "v.mp4\n") = .ok (P.filepathClean (utf8 "v.mp4")) := by rfl
  rw [this] at he
  exact absurd he (by simp)

/-- C3 fails on the code: the relative path made of a dot, a slash and
`--script=x.lua` passes the checks, and the path cleaning that follows them
returns `--script=x.lua`, which begins with a dash. -/
theorem sanitizeMediaTarget_returns_flag :
    sanitizeMediaTarget unix (utf8 "./--script=x.lua") = .ok (utf8 "--script=x.lua")
      ∧ strings.HasPrefix (utf8 "--script=x.lua") (utf8 "-") = true :=
  ⟨by rfl, by decide⟩

/-- C4: a target that starts with `-` is rejected with an error. -/
theorem sanitizeMediaTarget_rejects_dash (P : Platform) (link : GoString)
    (h : strings.HasPrefix link (utf8 "-") = true) : rejects P link := by
  have hp : utf8 "-" <+: link := List.isPrefixOf_iff_prefix.mp h
  obtain ⟨rest, hrest⟩ := hp
  have hl : link = 0x2D :: rest := by rw [← hrest]; rfl
  obtain ⟨t, ht⟩ := strings.TrimSpace_cons (c := 0x2D) rest (by decide)
  rw [← hl] at ht
  unfold rejects sanitizeMediaTarget
  simp only [ht]
  by_cases hc : strings.ContainsAny (0x2D :: t) (utf8 "\x00\n\r") = true
  · exact ⟨.msg (utf8 "invalid control characters in URL"), by simp [hc]⟩
  · have hd : strings.HasPrefix (0x2D :: t) (utf8 "-") = true := by
      show (utf8 "-").isPrefixOf (0x2D :: t) = true
      rw [List.isPrefixOf_iff_prefix]
      exact ⟨t, rfl⟩
    exact ⟨.msg (utf8 "url must not start with \x27-\x27 (looks like a flag)"),
      by simp [hc, hd]⟩

theorem sanitizeMediaTarget_rejects_dash_witness :
    strings.HasPrefix (utf8 "--fs") (utf8 "-") = true ∧ rejects unix (utf8 "--fs") :=
  ⟨by decide, sanitizeMediaTarget_rejects_dash unix (utf8 "--fs") (by decide)⟩

/-- C5: a target that contains `://` and passes the emptiness, control
character and leading dash checks is accepted exactly when it parses as a URL
whose scheme, in lower case, is `http` or `https`, and what is returned then
is the target with the surrounding whitespace trimmed;
`https://example.com/v.mp4` is returned as it is and `ftp://x` is rejected. -/
theorem sanitizeMediaTarget_url (P : Platform) (link : GoString)
    (hurl : strings.Contains link (utf8 "://") = true)
    (hne : strings.TrimSpace link ≠ [])
    (hctl : strings.ContainsAny (strings.TrimSpace link) (utf8 "\x00\n\r") = false)
    (hdash : strings.HasPrefix (strings.TrimSpace link) (utf8 "-") = false) :
    ((∃ out, sanitizeMediaTarget P link = .ok out) ↔
        ∃ u, P.urlParse (strings.TrimSpace link) = .ok u
          ∧ (strings.ToLower u.Scheme = utf8 "http" ∨ strings.ToLower u.Scheme = utf8 "https"))
      ∧ (∀ out, sanitizeMediaTarget P link = .ok out → out = strings.TrimSpace link)
      ∧ sanitizeMediaTarget unix (utf8 "https://example.com/v.mp4")
          = .ok (utf8 "https://example.com/v.mp4")
      ∧ rejects unix (utf8 "ftp://x") := by
  have hin : utf8 "://" <:+: link := by simpa [strings.Contains] using hurl
  have hin2 : utf8 "://" <:+: strings.TrimSpace link :=
    strings.infix_TrimSpace 0x3A 0x2F [0x2F, 0x2F] [0x2F, 0x3A]
      (by rfl) (by rfl) (by decide) (by decide) hin
  have hc : strings.Contains (strings.TrimSpace link) (utf8 "://") = true := by
    simpa [strings.Contains] using hin2
  have key : sanitizeMediaTarget P link =
      match P.urlParse (strings.TrimSpace link) with
      | .error err => .error (.wrap (utf8 "invalid URL: ") err)
      | .ok u =>
        if strings.ToLower u.Scheme = utf8 "http" ∨ strings.ToLower u.Scheme = utf8 "https" then
          .ok (strings.TrimSpace link)
        else .error (.msg (utf8 "unsupported URL scheme: " ++ u.Scheme)) := by
    unfold sanitizeMediaTarget
    simp only [hne, hctl, hdash, hc, if_false, if_true, Bool.false_eq_true]
  refine ⟨?_, ?_, by rfl, ⟨_, by rfl⟩⟩
  · rw [key]
    cases hp : P.urlParse (strings.TrimSpace link) with
    | error err => simp
    | ok u =>
      by_cases hs : strings.ToLower u.Scheme = utf8 "http" ∨ strings.ToLower u.Scheme = utf8 "https"
      · simp [hs]
      · simp [hs]
  · intro out
    rw [key]
    cases hp : P.urlParse (strings.TrimSpace link) with
    | error err => simp
    | ok u =>
      by_cases hs : strings.ToLower u.Scheme = utf8 "http" ∨ strings.ToLower u.Scheme = utf8 "https"
      · simp only [hs, if_true]
        intro h
        injection h with h
        exact h.symm
      · simp [hs]

theorem sanitizeMediaTarget_url_witness :
    (∃ out, sanitizeMediaTarget unix (utf8 " https://example.com/v.mp4 ") = .ok out) ↔
      ∃ u, url.Parse (strings.TrimSpace (utf8 " https://example.com/v.mp4 ")) = .ok u
        ∧ (strings.ToLower u.Scheme = utf8 "http" ∨ strings.ToLower u.Scheme = utf8 "https") :=
  (sanitizeMediaTarget_url unix (utf8 " https://example.com/v.mp4 ") (by decide) (by decide)
    (by decide) (by decide)).1

/-! ## The command client -/

theorem transportFailure_fails (unmarshal : GoString → Except GoError ipcResponse)
    (a : Attempt) (h : a.transportFailure = true) :
    ∃ e, doSendCommand unmarshal a = .error e := by
  obtain ⟨dial, marshal, write, deadline, read⟩ := a
  cases dial with
  | some e => exact ⟨_, rfl⟩
  | none =>
    cases marshal with
    | some e => simp [Attempt.transportFailure] at h
    | none =>
      cases write with
      | some e => exact ⟨_, rfl⟩
      | none =>
        cases deadline with
        | some e => exact ⟨_, rfl⟩
        | none =>
          cases read with
          | error e => exact ⟨_, rfl⟩
          | ok b => simp [Attempt.transportFailure] at h

/-- The loop keeps the list of commands handed to `sendCommand`. -/
theorem sendLoop_sent (env : Env) (command : Command) :
    ∀ (remaining attempt : Nat) (lastErr : Option GoError) (m : MPV),
      (sendLoop env command remaining attempt lastErr m).2.sent = m.sent
  | 0, _, _, _ => rfl
  | remaining + 1, attempt, lastErr, m => by
    unfold sendLoop
    simp only
    split
    · split <;> rfl
    · rw [sendLoop_sent env command remaining]
      split <;> rfl

/-- Three failed attempts in a row: the loop makes them all, sleeps before the
second and the third, and returns the last error wrapped. -/
theorem sendCommand_of_three_failures (env : Env) (m : MPV) (command : Command)
    (e0 e1 e2 : GoError)
    (h0 : doSendCommand env.unmarshal (env.attempt m.attempts command) = .error e0)
    (h1 : doSendCommand env.unmarshal (env.attempt (m.attempts + 1) command) = .error e1)
    (h2 : doSendCommand env.unmarshal (env.attempt (m.attempts + 2) command) = .error e2) :
    m.sendCommand env command =
      (.error (exhausted (some e2)),
        ⟨m.attempts + 3, m.sleeps + 2, m.sent ++ [command]⟩) := by
  simp [MPV.sendCommand, maxRetries, sendLoop, h0, h1, h2]

/-- A first attempt that succeeds: the loop makes no other. -/
theorem sendCommand_of_success (env : Env) (m : MPV) (command : Command) (v : Value)
    (h0 : doSendCommand env.unmarshal (env.attempt m.attempts command) = .ok v) :
    m.sendCommand env command = (.ok v, ⟨m.attempts + 1, m.sleeps, m.sent ++ [command]⟩) := by
  simp [MPV.sendCommand, maxRetries, sendLoop, h0]

/-- C1 fails on the code: when the player answers every attempt with the
application error `property unavailable`, `sendCommand` makes three attempts
with two sleeps between them, and returns the exhaustion error around the
application error. -/
theorem sendCommand_retries_application_error :
    doSendCommand nothingLoaded.unmarshal (nothingLoaded.attempt 0 getTimePos)
        = .error (.msg (utf8 "mpv error: property unavailable"))
      ∧ MPV.sendCommand nothingLoaded ⟨0, 0, []⟩ getTimePos
        = (.error (.wrap (utf8 "ipc command failed after 3 attempts: ")
              (.msg (utf8 "mpv error: property unavailable"))),
            ⟨3, 2, [getTimePos]⟩) := by
  have h : ∀ n, doSendCommand nothingLoaded.unmarshal (nothingLoaded.attempt n getTimePos)
      = .error (.msg (utf8 "mpv error: property unavailable")) := fun _ => by rfl
  refine ⟨h 0, ?_⟩
  rw [sendCommand_of_three_failures nothingLoaded ⟨0, 0, []⟩ getTimePos _ _ _ (h _) (h _) (h _)]
  rfl

/-- C10: when each of the three attempts fails on the connection, `sendCommand`
makes exactly three attempts and returns an error that wraps, with `%w`, the
error of the third. -/
theorem sendCommand_exhausted (env : Env) (m : MPV) (command : Command)
    (h : ∀ k, k < maxRetries → (env.attempt (m.attempts + k) command).transportFailure = true) :
    ∃ last,
      doSendCommand env.unmarshal (env.attempt (m.attempts + 2) command) = .error last
      ∧ (m.sendCommand env command).1
          = .error (.wrap (utf8 "ipc command failed after 3 attempts: ") last)
      ∧ GoError.wraps (.wrap (utf8 "ipc command failed after 3 attempts: ") last) last = true
      ∧ (m.sendCommand env command).2.attempts = m.attempts + maxRetries := by
  obtain ⟨e0, h0⟩ := transportFailure_fails env.unmarshal _ (h 0 (by decide))
  obtain ⟨e1, h1⟩ := transportFailure_fails env.unmarshal _ (h 1 (by decide))
  obtain ⟨e2, h2⟩ := transportFailure_fails env.unmarshal _ (h 2 (by decide))
  refine ⟨e2, h2, ?_, ?_, ?_⟩
  · rw [sendCommand_of_three_failures env m command e0 e1 e2 h0 h1 h2]
    rfl
  · cases e2 <;> simp [GoError.wraps]
  · rw [sendCommand_of_three_failures env m command e0 e1 e2 h0 h1 h2]
    rfl

theorem sendCommand_exhausted_witness :
    ∃ last,
      doSendCommand unreachable.unmarshal
          (unreachable.attempt 2 [.str (utf8 "quit")]) = .error last
      ∧ (MPV.sendCommand unreachable ⟨0, 0, []⟩ [.str (utf8 "quit")]).1
          = .error (.wrap (utf8 "ipc command failed after 3 attempts: ") last)
      ∧ GoError.wraps (.wrap (utf8 "ipc command failed after 3 attempts: ") last) last = true
      ∧ (MPV.sendCommand unreachable ⟨0, 0, []⟩ [.str (utf8 "quit")]).2.attempts = 0 + maxRetries :=
  sendCommand_exhausted unreachable ⟨0, 0, []⟩ [.str (utf8 "quit")]
    (fun _ _ => by rfl)

/-! ## The skip controller -/

theorem Seek_sent (env : Env) (m : MPV) (seconds : F64) :
    (m.Seek env seconds).2.sent = m.sent ++ [seekCommand seconds] := by
  have h := sendLoop_sent env (seekCommand seconds) maxRetries 0 none
    { m with sent := m.sent ++ [seekCommand seconds] }
  unfold MPV.Seek MPV.sendCommand
  split <;> rename_i heq <;> (rw [seekCommand] at h; rw [heq] at h; exact h)

theorem Check_of_opening (env : Env) (m : MPV) (t : SkipTimes) (pos : F64)
    (h : (t.HasIntro && t.Opening.holds pos) = true) :
    (Skipper.mk (some t)).Check env m pos
      = (((m.Seek env t.Opening.End).1.isNone,
          (m.Seek env t.Opening.End).1.map (GoError.wrap (utf8 "skip intro seek: "))),
         (m.Seek env t.Opening.End).2) := by
  have h1 : (t.HasIntro && F64.ge pos t.Opening.Start && F64.lt pos t.Opening.End) = true := by
    simpa [Interval.holds, F64.le, Bool.and_assoc] using h
  unfold Skipper.Check
  simp only [h1, if_true]
  split <;> rename_i heq <;> simp [heq]

theorem Check_of_ending (env : Env) (m : MPV) (t : SkipTimes) (pos : F64)
    (h0 : (t.HasIntro && t.Opening.holds pos) = false)
    (h : (t.HasOutro && t.Ending.holds pos) = true) :
    (Skipper.mk (some t)).Check env m pos
      = (((m.Seek env t.Ending.End).1.isNone,
          (m.Seek env t.Ending.End).1.map (GoError.wrap (utf8 "skip outro seek: "))),
         (m.Seek env t.Ending.End).2) := by
  have h1 : (t.HasIntro && F64.ge pos t.Opening.Start && F64.lt pos t.Opening.End) = false := by
    simpa [Interval.holds, F64.le, Bool.and_assoc] using h0
  have h2 : (t.HasOutro && F64.ge pos t.Ending.Start && F64.lt pos t.Ending.End) = true := by
    simpa [Interval.holds, F64.le, Bool.and_assoc] using h
  unfold Skipper.Check
  simp only [h1, h2, if_true, if_false, Bool.false_eq_true]
  split <;> rename_i heq <;> simp [heq]

theorem Check_of_neither (env : Env) (m : MPV) (t : SkipTimes) (pos : F64)
    (h0 : (t.HasIntro && t.Opening.holds pos) = false)
    (h : (t.HasOutro && t.Ending.holds pos) = false) :
    (Skipper.mk (some t)).Check env m pos = ((false, none), m) := by
  have h1 : (t.HasIntro && F64.ge pos t.Opening.Start && F64.lt pos t.Opening.End) = false := by
    simpa [Interval.holds, F64.le, Bool.and_assoc] using h0
  have h2 : (t.HasOutro && F64.ge pos t.Ending.Start && F64.lt pos t.Ending.End) = false := by
    simpa [Interval.holds, F64.le, Bool.and_assoc] using h
  unfold Skipper.Check
  simp only [h1, h2, if_false, Bool.false_eq_true]

/-- C6: provided the seek succeeds, `Check` returns true exactly when an
opening is present and the position is in it, or an ending is present and the
position is in it; with the opening from 10 to 30 and the ending from 200 to
210 it returns false at 5 and 35 and true at 15 and 205; with nil skip times
it returns false. -/
theorem Check_true_iff (env : Env) (m : MPV)
    (hseek : ∀ seconds, (m.Seek env seconds).1 = none) :
    (∀ (t : SkipTimes) (pos : F64),
        ((Skipper.mk (some t)).Check env m pos).1.1 = true ↔
          (t.HasIntro = true ∧ F64.le t.Opening.Start pos = true
              ∧ F64.lt pos t.Opening.End = true)
            ∨ (t.HasOutro = true ∧ F64.le t.Ending.Start pos = true
              ∧ F64.lt pos t.Ending.End = true))
      ∧ ((Skipper.mk (some exampleTimes)).Check env m (.fin 5)).1.1 = false
      ∧ ((Skipper.mk (some exampleTimes)).Check env m (.fin 35)).1.1 = false
      ∧ ((Skipper.mk (some exampleTimes)).Check env m (.fin 15)).1.1 = true
      ∧ ((Skipper.mk (some exampleTimes)).Check env m (.fin 205)).1.1 = true
      ∧ (∀ pos, ((Skipper.mk none).Check env m pos).1.1 = false) := by
  have main : ∀ (t : SkipTimes) (pos : F64),
      ((Skipper.mk (some t)).Check env m pos).1.1 = true ↔
        (t.HasIntro = true ∧ F64.le t.Opening.Start pos = true
            ∧ F64.lt pos t.Opening.End = true)
          ∨ (t.HasOutro = true ∧ F64.le t.Ending.Start pos = true
            ∧ F64.lt pos t.Ending.End = true) := by
    intro t pos
    cases h0 : (t.HasIntro && t.Opening.holds pos)
    · cases h : (t.HasOutro && t.Ending.holds pos)
      · rw [Check_of_neither env m t pos h0 h]
        simp only [Interval.holds, Bool.and_eq_false_iff, Bool.and_eq_true] at h0 h
        constructor
        · intro hf
          exact absurd hf (by simp)
        · rintro (⟨a, b, c⟩ | ⟨a, b, c⟩)
          · rcases h0 with h0 | h0 | h0 <;> simp_all
          · rcases h with h | h | h <;> simp_all
      · rw [Check_of_ending env m t pos h0 h, hseek]
        simp only [Interval.holds, Bool.and_eq_true] at h
        simp [h]
    · rw [Check_of_opening env m t pos h0, hseek]
      simp only [Interval.holds, Bool.and_eq_true] at h0
      simp [h0]
  refine ⟨main, ?_, ?_, ?_, ?_, fun pos => rfl⟩
  · rw [Check_of_neither env m exampleTimes (.fin 5) (by decide) (by decide)]
  · rw [Check_of_neither env m exampleTimes (.fin 35) (by decide) (by decide)]
  · rw [Check_of_opening env m exampleTimes (.fin 15) (by decide), hseek]
    rfl
  · rw [Check_of_ending env m exampleTimes (.fin 205) (by decide) (by decide), hseek]
    rfl

theorem Check_true_iff_witness :
    ((Skipper.mk (some exampleTimes)).Check (answering ⟨.null, utf8 "success"⟩) ⟨0, 0, []⟩
        (.fin 15)).1.1 = true
      ∧ ((Skipper.mk (some exampleTimes)).Check (answering ⟨.null, utf8 "success"⟩) ⟨0, 0, []⟩
        (.fin 35)).1.1 = false :=
  have h := Check_true_iff (answering ⟨.null, utf8 "success"⟩) ⟨0, 0, []⟩ (fun _ => by rfl)
  ⟨h.2.2.2.1, h.2.2.1⟩

/-- C7: one call of `Check` hands `sendCommand` the absolute seek to the end
of the opening when the position is in the opening, else the absolute seek to
the end of the ending when the position is in the ending, else nothing: one
command at most, and the opening seek alone when the position is in both. -/
theorem Check_sent (s : Skipper) (env : Env) (m : MPV) (pos : F64) :
    (s.Check env m pos).2.sent = m.sent ++
      (match s.Times with
       | none => []
       | some t =>
         if (t.HasIntro && t.Opening.holds pos) = true then [seekCommand t.Opening.End]
         else if (t.HasOutro && t.Ending.holds pos) = true then [seekCommand t.Ending.End]
         else []) := by
  obtain ⟨times⟩ := s
  cases times with
  | none => simp [Skipper.Check]
  | some t =>
    show ((Skipper.mk (some t)).Check env m pos).2.sent = m.sent ++
      (if (t.HasIntro && t.Opening.holds pos) = true then [seekCommand t.Opening.End]
       else if (t.HasOutro && t.Ending.holds pos) = true then [seekCommand t.Ending.End]
       else [])
    cases h0 : (t.HasIntro && t.Opening.holds pos)
    · cases h : (t.HasOutro && t.Ending.holds pos)
      · rw [Check_of_neither env m t pos h0 h]
        simp
      · rw [Check_of_ending env m t pos h0 h]
        simp [Seek_sent]
    · rw [Check_of_opening env m t pos h0]
      simp [Seek_sent]

/-! ## The event listener -/

/-- C8 fails on the code: the remainder that is carried over to the next read
is the trimmed text, so a read that ends after a space inside a JSON string
loses the space. The line with the data `a b`, read in one piece, is handed to
`processEvent` as it is; read in two pieces, the first ending after the space,
it is handed over without the space, and the callback gets the data `ab`. -/
theorem readLoop_split_loses_space :
    titleEventHead ++ titleEventTail = titleEvent ++ utf8 "\n"
      ∧ (∀ el : EventListener,
          el.readLoop [.bytes (titleEvent ++ utf8 "\n")] [] = el.processEvent titleEvent
          ∧ el.readLoop [.bytes titleEventHead, .bytes titleEventTail] []
              = el.processEvent titleEventSquashed)
      ∧ exampleListener.readLoop [.bytes (titleEvent ++ utf8 "\n")] []
          = [⟨utf8 "media-title", .str (utf8 "a b")⟩]
      ∧ exampleListener.readLoop [.bytes titleEventHead, .bytes titleEventTail] []
          = [⟨utf8 "media-title", .str (utf8 "ab")⟩] := by
  have h : ∀ el : EventListener,
      el.readLoop [.bytes (titleEvent ++ utf8 "\n")] [] = el.processEvent titleEvent
      ∧ el.readLoop [.bytes titleEventHead, .bytes titleEventTail] []
          = el.processEvent titleEventSquashed := by
    intro el
    have h1 : el.readLoop [.bytes (titleEvent ++ utf8 "\n")] []
        = (el.processEvent titleEvent ++ []) ++ [] := by rfl
    have h2 : el.readLoop [.bytes titleEventHead, .bytes titleEventTail] []
        = [] ++ ((el.processEvent titleEventSquashed ++ []) ++ []) := by rfl
    rw [h1, h2]
    simp
  refine ⟨by decide, h, ?_, ?_⟩
  · rw [(h exampleListener).1]
    rfl
  · rw [(h exampleListener).2]
    rfl

theorem processEvent_of_error (el : EventListener) (line : GoString) (e : GoError)
    (h : el.unmarshal line = .error e) : el.processEvent line = [] := by
  simp [EventListener.processEvent, h]

theorem processEvent_of_ok (el : EventListener) (line : GoString) (event : JsonObject)
    (h : el.unmarshal line = .ok event) :
    el.processEvent line =
      match (event.get (utf8 "event")).asString with
      | none => []
      | some eventType =>
        if eventType = utf8 "property-change" then
          if ((event.get (utf8 "name")).asString).getD [] ≠ [] ∧ el.callback then
            [⟨((event.get (utf8 "name")).asString).getD [], event.get (utf8 "data")⟩]
          else []
        else
          if el.callback then [⟨eventType, .object event⟩] else [] := by
  simp [EventListener.processEvent, h]

/-- C9: for every line, `processEvent` invokes the callback once at most; a
listener that has a callback invokes it once with the name and the data when
the line decodes to an object whose `event` is `property-change` and whose
`name` is a non-empty string, and once with the kind and the decoded object
when `event` is another string; nothing is invoked when the line does not
decode, when `event` is not a string, or when the `name` of a property change
is not a non-empty string. -/
theorem processEvent_invocations (el : EventListener) (line : GoString) :
    (el.processEvent line).length ≤ 1
      ∧ (el.callback = true → ∀ event name, el.unmarshal line = .ok event →
          event.get (utf8 "event") = .str (utf8 "property-change") →
          event.get (utf8 "name") = .str name → name ≠ [] →
          el.processEvent line = [⟨name, event.get (utf8 "data")⟩])
      ∧ (el.callback = true → ∀ event kind, el.unmarshal line = .ok event →
          event.get (utf8 "event") = .str kind → kind ≠ utf8 "property-change" →
          el.processEvent line = [⟨kind, .object event⟩])
      ∧ (∀ e, el.unmarshal line = .error e → el.processEvent line = [])
      ∧ (∀ event, el.unmarshal line = .ok event →
          (event.get (utf8 "event")).asString = none → el.processEvent line = [])
      ∧ (∀ event, el.unmarshal line = .ok event →
          event.get (utf8 "event") = .str (utf8 "property-change") →
          ((event.get (utf8 "name")).asString = none ∨ event.get (utf8 "name") = .str []) →
          el.processEvent line = []) := by
  refine ⟨?_, ?_, ?_, ?_, ?_, ?_⟩
  · cases h : el.unmarshal line with
    | error e => simp [processEvent_of_error el line e h]
    | ok event =>
      rw [processEvent_of_ok el line event h]
      repeat' split
      all_goals simp
  · intro hcb event name h he hn hne
    rw [processEvent_of_ok el line event h, he, hn]
    simp [Value.asString, hne, hcb]
  · intro hcb event kind h he hk
    rw [processEvent_of_ok el line event h, he]
    simp [Value.asString, hk, hcb]
  · intro e h
    exact processEvent_of_error el line e h
  · intro event h he
    rw [processEvent_of_ok el line event h, he]
  · intro event h he hn
    rw [processEvent_of_ok el line event h, he]
    rcases hn with hn | hn
    · rw [hn]
      simp [Value.asString]
    · rw [hn]
      simp [Value.asString]

theorem processEvent_invocations_witness :
    (exampleListener.processEvent titleEvent).length ≤ 1
      ∧ exampleListener.processEvent titleEvent = [⟨utf8 "media-title", .str (utf8 "a b")⟩]
      ∧ exampleListener.processEvent (utf8 "\x7b\"event\":\"end-file\"\x7d")
          = [⟨utf8 "end-file", .object [(utf8 "event", .str (utf8 "end-file"))]⟩]
      ∧ exampleListener.processEvent (utf8 "\x7b\"event\":") = [] :=
  have h1 := processEvent_invocations exampleListener titleEvent
  have h2 := processEvent_invocations exampleListener (utf8 "\x7b\"event\":\"end-file\"\x7d")
  have h3 := processEvent_invocations exampleListener (utf8 "\x7b\"event\":")
  ⟨h1.1, h1.2.1 rfl titleObject (utf8 "media-title") (by rfl) (by rfl) (by rfl) (by decide),
    h2.2.2.1 rfl [(utf8 "event", .str (utf8 "end-file"))] (utf8 "end-file") (by rfl) (by rfl)
      (by decide),
    h3.2.2.2.1 (.msg (utf8 "invalid character")) (by rfl)⟩

/-! ## The chapter list -/

theorem SetChapters_sent (env : Env) (m : MPV) (chapters : List Value) :
    (m.SetChapters env chapters).2.sent = m.sent ++ [chapterCommand chapters] := by
  have h := sendLoop_sent env (chapterCommand chapters) maxRetries 0 none
    { m with sent := m.sent ++ [chapterCommand chapters] }
  unfold MPV.SetChapters MPV.sendCommand
  split <;> rename_i heq <;> (rw [chapterCommand] at h; rw [heq] at h; exact h)

/-- C12: with both intervals present `ApplyChapters` hands `sendCommand` one
command, `set_property chapter-list`, with the 5 chapters `Part A` at 0,
`Opening` at the opening start, `Part B` at the opening end, `Ending` at the
ending start and `Preview / Next` at the ending end, in this order; in general
the list has one chapter, two more when the opening is present and two more
when the ending is; with nil skip times nothing is sent. -/
theorem ApplyChapters_sent (env : Env) (m : MPV) :
    (∀ t : SkipTimes, t.HasIntro = true → t.HasOutro = true →
        ((Skipper.mk (some t)).ApplyChapters env m).2.sent = m.sent ++
          [chapterCommand
            [chapter (utf8 "Part A") (.fin 0),
             chapter (utf8 "Opening") t.Opening.Start,
             chapter (utf8 "Part B") t.Opening.End,
             chapter (utf8 "Ending") t.Ending.Start,
             chapter (utf8 "Preview / Next") t.Ending.End]])
      ∧ (∀ t : SkipTimes,
          ((Skipper.mk (some t)).ApplyChapters env m).2.sent
              = m.sent ++ [chapterCommand (chaptersOf t)]
            ∧ (chaptersOf t).length
              = 1 + 2 * (if t.HasIntro then 1 else 0) + 2 * (if t.HasOutro then 1 else 0))
      ∧ (Skipper.mk none).ApplyChapters env m = (none, m) := by
  refine ⟨?_, ?_, rfl⟩
  · intro t hi ho
    show (m.SetChapters env (chaptersOf t)).2.sent = _
    rw [SetChapters_sent]
    simp [chaptersOf, hi, ho]
  · intro t
    refine ⟨SetChapters_sent env m (chaptersOf t), ?_⟩
    cases hi : t.HasIntro <;> cases ho : t.HasOutro <;> simp [chaptersOf, hi, ho]

theorem ApplyChapters_sent_witness :
    ((Skipper.mk (some exampleTimes)).ApplyChapters unreachable ⟨0, 0, []⟩).2.sent = [] ++
      [chapterCommand
        [chapter (utf8 "Part A") (.fin 0),
         chapter (utf8 "Opening") (.fin 10),
         chapter (utf8 "Part B") (.fin 30),
         chapter (utf8 "Ending") (.fin 200),
         chapter (utf8 "Preview / Next") (.fin 210)]] :=
  (ApplyChapters_sent unreachable ⟨0, 0, []⟩).1 exampleTimes rfl rfl

/-- C13 as stated fails: with the opening from 600 to 690 and the ending from
30 to 120, both present, the chapter times are 0, 600, 690, 30, 120, and 30
is less than 690. -/
theorem chaptersOf_not_ascending :
    endingFirst.HasIntro = true ∧ endingFirst.HasOutro = true
      ∧ (chaptersOf endingFirst).map chapterTime
          = [some (.fin 0), some (.fin 600), some (.fin 690), some (.fin 30), some (.fin 120)]
      ∧ F64.lt (.fin 30) (.fin 690) = true
      ∧ ascending [.fin 0, .fin 600, .fin 690, .fin 30, .fin 120] = false := by
  refine ⟨rfl, rfl, ?_, by decide, by decide⟩
  simp [chaptersOf, endingFirst, chapter, chapterTime, JsonObject.get, List.find?]
  decide

/-- C13, as amended: when both intervals are present and
`0 <= Opening.Start <= Opening.End <= Ending.Start <= Ending.End`, the times
of the chapter list are in ascending order. -/
theorem chaptersOf_ascending (t : SkipTimes) (hi : t.HasIntro = true) (ho : t.HasOutro = true)
    (h0 : F64.le (.fin 0) t.Opening.Start = true)
    (h1 : F64.le t.Opening.Start t.Opening.End = true)
    (h2 : F64.le t.Opening.End t.Ending.Start = true)
    (h3 : F64.le t.Ending.Start t.Ending.End = true) :
    (chaptersOf t).map chapterTime
        = [some (.fin 0), some t.Opening.Start, some t.Opening.End,
           some t.Ending.Start, some t.Ending.End]
      ∧ ascending [.fin 0, t.Opening.Start, t.Opening.End, t.Ending.Start, t.Ending.End]
          = true := by
  constructor
  · have hk : ∀ (title : GoString) (x : F64), chapterTime (chapter title x) = some x := by
      intro title x
      have hne : (utf8 "title" = utf8 "time") = False := by
        apply eq_false
        decide
      simp [chapter, chapterTime, JsonObject.get, List.find?, hne]
    simp [chaptersOf, hi, ho, hk]
  · simp [ascending, h0, h1, h2, h3]

theorem chaptersOf_ascending_witness :
    (chaptersOf exampleTimes).map chapterTime
        = [some (.fin 0), some (.fin 10), some (.fin 30), some (.fin 200), some (.fin 210)]
      ∧ ascending [.fin 0, .fin 10, .fin 30, .fin 200, .fin 210] = true :=
  chaptersOf_ascending exampleTimes rfl rfl (by decide) (by decide) (by decide) (by decide)

/-! ## The decoding of a response -/

/-- C11 fails on the code: the whole buffer is handed to `json.Unmarshal`,
which takes one JSON value and nothing after it. The response to the pause
query alone decodes and its data is returned; the same response followed in
the same read by an event is an error of the attempt, and `sendCommand`
tries again: with the event behind every response it gives up after three
attempts. -/
theorem doSendCommand_rejects_trailing_event :
    doSendCommand json.UnmarshalResponse ⟨none, none, none, none, .ok pauseResponse⟩
        = .ok (.bool false)
      ∧ doSendCommand json.UnmarshalResponse
          ⟨none, none, none, none, .ok (pauseResponse ++ seekEvent)⟩
        = .error (.wrap (utf8 "unmarshal: ")
            (.msg (utf8 "invalid character after top-level value")))
      ∧ MPV.sendCommand (reading fun _ => pauseResponse ++ seekEvent) ⟨0, 0, []⟩ getPause
        = (.error (.wrap (utf8 "ipc command failed after 3 attempts: ")
              (.wrap (utf8 "unmarshal: ")
                (.msg (utf8 "invalid character after top-level value")))),
            ⟨3, 2, [getPause]⟩) := by
  have h : doSendCommand json.UnmarshalResponse
      ⟨none, none, none, none, .ok (pauseResponse ++ seekEvent)⟩
      = .error (.wrap (utf8 "unmarshal: ")
          (.msg (utf8 "invalid character after top-level value"))) := by rfl
  refine ⟨by rfl, h, ?_⟩
  rw [sendCommand_of_three_failures (reading fun _ => pauseResponse ++ seekEvent) ⟨0, 0, []⟩
    getPause _ _ _ h h h]
  rfl

/-! ## The process and its exit signal -/

/-- C14 fails on the code: `Play` starts a process whenever it gets as far as
`cmd.Start`. After a first `Play` that succeeds, a second `Play` on the same
player, while the first process runs, succeeds as well, keeps the socket path,
sends no IPC command, kills nothing, and leaves two processes running. -/
theorem Play_twice_runs_two_processes :
    (Instance.Play unix smooth NewMPV exampleURL (utf8 "Episode 1") []).1 = none
      ∧ firstPlay.host.running = [0]
      ∧ (Instance.Play unix smooth firstPlay exampleURL (utf8 "Episode 2") []).1 = none
      ∧ secondPlay.socketPath = firstPlay.socketPath
      ∧ secondPlay.ipc.sent = []
      ∧ secondPlay.host.killed = []
      ∧ secondPlay.host.spawned = 2
      ∧ secondPlay.host.running = [0, 1] :=
  ⟨by rfl, by rfl, by rfl, by rfl, by rfl, by rfl, by rfl, by rfl⟩

/-- C15 fails on the code: the goroutine that waits for a process closes the
channel that the field `exited` holds when it gets there. On an MPV player
with two processes started, the field holds the channel of the second `Play`
(channel 2): when the first process exits its goroutine closes that channel,
and when the second exits the channel is closed again. On an IINA player the
channel is made once, in `NewIINA`, so the second `Play` closes it again. -/
theorem exited_closed_twice :
    secondPlay.exited = 2
      ∧ (secondPlay.run [.exit 0, .reap 0]).host.closedChans = [2]
      ∧ (secondPlay.run [.exit 0, .reap 0]).host.panics = 0
      ∧ (secondPlay.run [.exit 0, .reap 0, .exit 1, .reap 1]).host.panics = 1
      ∧ iinaPlayed.host.closedChans = [0]
      ∧ iinaPlayed.host.panics = 0
      ∧ (IINA.Play mac iinaPlayed exampleURL (utf8 "Episode 2") []).1 = none
      ∧ (((IINA.Play mac iinaPlayed exampleURL (utf8 "Episode 2") []).2).run
          [.exit 1, .reap 1]).host.panics = 1 :=
  ⟨by rfl, by rfl, by rfl, by rfl, by rfl, by rfl, by rfl, by rfl⟩

/-- C16 fails on the code: `Close` returns at once only while the socket path
is empty, and `Play` sets the path before it starts the process. After a
`Play` that fails at `cmd.Start` no process was launched, and `Close` sends
the `quit` command (three attempts, two sleeps), waits for the exit signal,
which nothing closes, and removes the socket path, before it returns nil. -/
theorem Close_after_failed_start :
    (Instance.Play unix noBinary NewMPV exampleURL (utf8 "Episode 1") []).1
        = some (.wrap (utf8 "start mpv: ")
            (.msg (utf8 "exec: \"mpv\": executable file not found in $PATH")))
      ∧ failedStart.host.spawned = 0
      ∧ failedStart.socketPath = utf8 "/tmp/anisan-deadbeef.sock"
      ∧ (failedStart.Close unreachable []).1 = none
      ∧ (failedStart.Close unreachable []).2.ipc.sent = [[.str (utf8 "quit")]]
      ∧ (failedStart.Close unreachable []).2.ipc.attempts = 3
      ∧ (failedStart.Close unreachable []).2.ipc.sleeps = 2
      ∧ (failedStart.Close unreachable []).2.host.waits = 1
      ∧ (failedStart.Close unreachable []).2.host.killed = []
      ∧ (failedStart.Close unreachable []).2.host.removed = [utf8 "/tmp/anisan-deadbeef.sock"] :=
  ⟨by rfl, by rfl, by rfl, by rfl, by rfl, by rfl, by rfl, by rfl, by rfl, by rfl⟩

/-- While the socket path is empty `Close` stops the ticker and returns nil:
no command, no wait, no kill. -/
theorem Close_of_no_socket (env : Env) (during : List Event) (m : Instance)
    (h : m.socketPath = []) :
    m.Close env during = (none, m.StopIPCTicker) := by
  have h1 : m.StopIPCTicker.socketPath = [] := by
    unfold Instance.StopIPCTicker
    split <;> exact h
  unfold Instance.Close
  simp [h1]

/-- A `Play` that fails in the sanitizer or at the socket name leaves the
player as it was. -/
theorem Play_of_sanitizer_error (P : Platform) (env : PlayEnv) (m : Instance)
    (rawURL title : GoString) (headers : List (GoString × GoString)) (e : GoError)
    (h : sanitizeMediaTarget P rawURL = .error e) :
    Instance.Play P env m rawURL title headers
      = (some (.wrap (utf8 "invalid media target: ") e), m) := by
  unfold Instance.Play
  rw [h]

theorem Host.later_refl (h : Host) : h.later h :=
  ⟨fun _ hc => hc, fun _ hp => hp⟩

theorem Host.later_trans {a b c : Host} (hab : a.later b) (hbc : b.later c) : a.later c :=
  ⟨fun x hx => hbc.1 x (hab.1 x hx), fun p hp => hbc.2 p (hab.2 p hp)⟩

theorem Host.close_later (h : Host) (c : Nat) : h.later (h.close c) := by
  unfold Host.close
  split
  · exact ⟨fun _ hc => hc, fun _ hp => hp⟩
  · refine ⟨fun x hx => ?_, fun _ hp => hp⟩
    simp [Host.isClosed] at hx ⊢
    exact Or.inl hx

theorem Host.close_killed (h : Host) (c : Nat) : (h.close c).killed = h.killed := by
  unfold Host.close
  split <;> rfl

theorem Host.kill_later (h : Host) (pid : Nat) : h.later (h.kill pid) := by
  unfold Host.kill
  split
  · refine ⟨fun _ hc => hc, fun p hp => ?_⟩
    simp [Host.isRunning] at hp ⊢
    intro hm
    exact absurd hm hp
  · exact h.later_refl

theorem Host.kill_not_running (h : Host) (pid : Nat) : (h.kill pid).isRunning pid = false := by
  unfold Host.kill
  split
  · simp [Host.isRunning, List.mem_filter]
  · rename_i hr
    simpa using hr

theorem Host.kill_isClosed (h : Host) (pid c : Nat) :
    (h.kill pid).isClosed c = h.isClosed c := by
  unfold Host.kill
  split <;> rfl

theorem Host.kill_killed_of_not_running (h : Host) (pid : Nat)
    (hp : h.isRunning pid = false) : h.kill pid = h := by
  unfold Host.kill
  simp [hp]

theorem Host.happen_later (h : Host) (exited : Nat) (e : Event) :
    h.later (h.happen exited e) := by
  cases e with
  | exit pid =>
    refine ⟨fun _ hc => hc, fun p hp => ?_⟩
    simp [Host.happen, Host.isRunning] at hp ⊢
    intro hm
    exact absurd hm hp
  | reap pid =>
    simp only [Host.happen]
    split
    · exact Host.later_trans (b := { h with reapers := h.reapers.erase pid })
        ⟨fun _ hc => hc, fun _ hp => hp⟩ (Host.close_later _ exited)
    · exact h.later_refl

theorem Host.happen_killed (h : Host) (exited : Nat) (e : Event) :
    (h.happen exited e).killed = h.killed := by
  cases e with
  | exit pid => rfl
  | reap pid =>
    simp only [Host.happen]
    split
    · rw [Host.close_killed]
    · rfl

theorem Host.apply_later (exited : Nat) (events : List Event) :
    ∀ h : Host, h.later (h.apply exited events) := by
  induction events with
  | nil => exact fun h => h.later_refl
  | cons e es ih =>
    intro h
    exact Host.later_trans (h.happen_later exited e) (ih (h.happen exited e))

theorem Host.apply_killed (exited : Nat) (events : List Event) :
    ∀ h : Host, (h.apply exited events).killed = h.killed := by
  induction events with
  | nil => exact fun h => rfl
  | cons e es ih =>
    intro h
    show ((h.happen exited e).apply exited es).killed = h.killed
    rw [ih, Host.happen_killed]

/-- Time going by keeps a settled player settled. -/
theorem Instance.settled_of_later {m : Instance} (hm : m.settled) (h2 : Host)
    (hl : m.host.later h2) (ipc : MPV) (stop : Option Nat) :
    Instance.settled { m with host := h2, ipc := ipc, tickerStop := stop } := by
  intro c pid hc hp
  rcases hm c pid hc hp with h | h
  · exact Or.inl (hl.1 _ h)
  · exact Or.inr (hl.2 _ h)

theorem Instance.settled_of {m n : Instance} (hm : m.settled) (hcmd : n.cmd = m.cmd)
    (hex : n.exited = m.exited) (hl : m.host.later n.host) : n.settled := by
  intro c pid hc hp
  rw [hcmd] at hc
  rw [hex]
  rcases hm c pid hc hp with h | h
  · exact Or.inl (hl.1 _ h)
  · exact Or.inr (hl.2 _ h)

theorem waitLoop_later (env : PlayEnv) (socketPath : GoString) (exited : Nat) :
    ∀ (remaining i : Nat) (h : Host),
      h.later (waitLoop env socketPath exited remaining i h).2
  | 0, _, h => h.later_refl
  | remaining + 1, i, h => by
    unfold waitLoop
    simp only
    split
    · exact Host.apply_later exited _ h
    · split
      · exact Host.apply_later exited _ h
      · exact Host.later_trans (Host.apply_later exited _ h)
          (waitLoop_later env socketPath exited remaining (i + 1) _)

theorem waitLoop_killed (env : PlayEnv) (socketPath : GoString) (exited : Nat) :
    ∀ (remaining i : Nat) (h : Host),
      (waitLoop env socketPath exited remaining i h).2.killed = h.killed
  | 0, _, h => rfl
  | remaining + 1, i, h => by
    unfold waitLoop
    simp only
    split
    · exact Host.apply_killed exited _ h
    · split
      · exact Host.apply_killed exited _ h
      · rw [waitLoop_killed env socketPath exited remaining (i + 1), Host.apply_killed]

/-- The wait returns nil only when a connection attempt has succeeded. -/
theorem waitLoop_none (env : PlayEnv) (socketPath : GoString) (exited : Nat) :
    ∀ (remaining i : Nat) (h : Host),
      (waitLoop env socketPath exited remaining i h).1 = none →
      ∃ k, i ≤ k ∧ k < i + remaining ∧ env.dial k = true
  | 0, _, h => by
    intro hn
    simp [waitLoop] at hn
  | remaining + 1, i, h => by
    unfold waitLoop
    simp only
    split
    · intro hn
      simp at hn
    · split
      · rename_i hd
        intro _
        exact ⟨i, Nat.le_refl i, by omega, hd⟩
      · intro hn
        obtain ⟨k, h1, h2, h3⟩ := waitLoop_none env socketPath exited remaining (i + 1) _ hn
        exact ⟨k, by omega, by omega, h3⟩

/-- When no connection attempt succeeds the wait returns an error. -/
theorem waitLoop_all_fail (env : PlayEnv) (socketPath : GoString) (exited : Nat) :
    ∀ (remaining i : Nat) (h : Host),
      (∀ k, i ≤ k → k < i + remaining → env.dial k = false) →
      ∃ e, (waitLoop env socketPath exited remaining i h).1 = some e
  | 0, _, h => fun _ => ⟨_, rfl⟩
  | remaining + 1, i, h => by
    intro hd
    unfold waitLoop
    simp only
    split
    · exact ⟨_, rfl⟩
    · rw [hd i (Nat.le_refl i) (by omega)]
      simp only [Bool.false_eq_true, if_false]
      exact waitLoop_all_fail env socketPath exited remaining (i + 1) _
        (fun k h1 h2 => hd k (by omega) (by omega))

/-- When the exit signal is closed at a look before which no connection
attempt has succeeded, the wait returns the error of the exit. -/
theorem waitLoop_exited (env : PlayEnv) (socketPath : GoString) (exited : Nat) :
    ∀ (remaining i n : Nat) (h : Host), n < remaining →
      (∀ j, j < n → env.dial (i + j) = false) →
      (lookAt env exited i n h).isClosed exited = true →
      (waitLoop env socketPath exited remaining i h).1
        = some (.msg (utf8 "mpv exited before socket was ready"))
  | 0, _, _, _ => fun hn => absurd hn (Nat.not_lt_zero _)
  | remaining + 1, i, n, h => by
    intro hn hd hc
    unfold waitLoop
    simp only
    split
    · rfl
    · rename_i hnc
      cases n with
      | zero => exact absurd hc hnc
      | succ n =>
        have h0 := hd 0 (Nat.succ_pos n)
        rw [Nat.add_zero] at h0
        rw [h0]
        simp only [Bool.false_eq_true, if_false]
        exact waitLoop_exited env socketPath exited remaining (i + 1) n _ (by omega)
          (fun j hj => by
            have := hd (j + 1) (by omega)
            rwa [show i + (j + 1) = i + 1 + j from by omega] at this)
          hc

/-- With a process that starts, `Play` comes down to the wait for the socket
and the kill after it. -/
theorem Play_of_start (P : Platform) (env : PlayEnv) (m : Instance) (rawURL title : GoString)
    (headers : List (GoString × GoString)) (safeURL socketPath : GoString)
    (hs : sanitizeMediaTarget P rawURL = .ok safeURL)
    (hp : socketPathFor P env m = .ok socketPath) (hstart : env.start = none) :
    Instance.Play P env m rawURL title headers =
      match waitForSocket env socketPath m.host.chans m.host.launch with
      | (none, host2) =>
        (none,
          { m with
            socketPath := socketPath,
            cmd := some ⟨playArgs socketPath (sanitizeTitle title) (headerLoop headers [])
              safeURL, some m.host.spawned⟩,
            exited := m.host.chans,
            host := host2 })
      | (some err, host2) =>
        (some (.wrap (utf8 "mpv socket not ready: ") err),
          { m with
            socketPath := socketPath,
            cmd := some ⟨playArgs socketPath (sanitizeTitle title) (headerLoop headers [])
              safeURL, some m.host.spawned⟩,
            exited := m.host.chans,
            host :=
              if (host2.apply m.host.chans (env.events socketWaitRetries)).isClosed m.host.chans
              then host2.apply m.host.chans (env.events socketWaitRetries)
              else (host2.apply m.host.chans (env.events socketWaitRetries)).kill
                m.host.spawned }) := by
  unfold Instance.Play
  rw [hs]
  simp only [hp]
  unfold Instance.start
  simp only [hstart]

/-- C20: for a `Play` that gets as far as the wait for the socket. When none
of the 10 connection attempts succeeds, or the exit signal is closed at a look
before which none has succeeded, `Play` returns the socket-not-ready error;
whenever it returns an error and the exit signal is not closed, the process it
has started does not run any more (with nothing else happening and no attempt
succeeding, the kill of that process is on record); and it returns nil only
when a connection attempt has succeeded. -/
theorem Play_socket_not_ready (P : Platform) (env : PlayEnv) (m : Instance)
    (rawURL title : GoString) (headers : List (GoString × GoString))
    (safeURL socketPath : GoString)
    (hs : sanitizeMediaTarget P rawURL = .ok safeURL)
    (hp : socketPathFor P env m = .ok socketPath) (hstart : env.start = none) :
    ((∀ k, k < socketWaitRetries → env.dial k = false) →
        ∃ e, (Instance.Play P env m rawURL title headers).1
          = some (.wrap (utf8 "mpv socket not ready: ") e))
      ∧ (∀ n, n < socketWaitRetries → (∀ j, j < n → env.dial j = false) →
          (lookAt env m.host.chans 0 n m.host.launch).isClosed m.host.chans = true →
          (Instance.Play P env m rawURL title headers).1
            = some (.wrap (utf8 "mpv socket not ready: ")
                (.msg (utf8 "mpv exited before socket was ready"))))
      ∧ ((Instance.Play P env m rawURL title headers).1 ≠ none →
          (Instance.Play P env m rawURL title headers).2.host.isClosed
              (Instance.Play P env m rawURL title headers).2.exited = false →
          (Instance.Play P env m rawURL title headers).2.host.isRunning m.host.spawned = false)
      ∧ ((∀ k, env.events k = []) → (∀ k, k < socketWaitRetries → env.dial k = false) →
          m.host.isClosed m.host.chans = false →
          (Instance.Play P env m rawURL title headers).2.host.killed
            = m.host.killed ++ [m.host.spawned])
      ∧ ((Instance.Play P env m rawURL title headers).1 = none →
          ∃ k, k < socketWaitRetries ∧ env.dial k = true) := by
  have key := Play_of_start P env m rawURL title headers safeURL socketPath hs hp hstart
  refine ⟨?_, ?_, ?_, ?_, ?_⟩
  · intro hd
    obtain ⟨e, he⟩ := waitLoop_all_fail env socketPath m.host.chans socketWaitRetries 0
      m.host.launch (fun k _ h2 => hd k (by omega))
    rw [key]
    cases hw : waitForSocket env socketPath m.host.chans m.host.launch with
    | mk r host2 =>
      have he2 : r = some e := by
        have : (waitForSocket env socketPath m.host.chans m.host.launch).1 = some e := he
        rw [hw] at this
        exact this
      rw [he2]
      exact ⟨e, rfl⟩
  · intro n hn hd hc
    have he := waitLoop_exited env socketPath m.host.chans socketWaitRetries 0 n
      m.host.launch hn (fun j hj => by rw [Nat.zero_add]; exact hd j hj) hc
    rw [key]
    cases hw : waitForSocket env socketPath m.host.chans m.host.launch with
    | mk r host2 =>
      have he2 : r = some (.msg (utf8 "mpv exited before socket was ready")) := by
        have : (waitForSocket env socketPath m.host.chans m.host.launch).1 = _ := he
        rw [hw] at this
        exact this
      rw [he2]
  · rw [key]
    cases hw : waitForSocket env socketPath m.host.chans m.host.launch with
    | mk r host2 =>
      cases r with
      | none =>
        intro hne
        exact absurd rfl hne
      | some err =>
        intro _
        simp only
        split
        · rename_i hc
          intro hnc
          rw [hc] at hnc
          exact absurd hnc (by simp)
        · intro _
          exact Host.kill_not_running _ _
  · intro hev hd hfresh
    obtain ⟨e, he⟩ := waitLoop_all_fail env socketPath m.host.chans socketWaitRetries 0
      m.host.launch (fun k _ h2 => hd k (by omega))
    have hnone : ∀ (remaining i : Nat) (h : Host),
        (∀ k, i ≤ k → k < i + remaining → env.dial k = false) →
        h.isClosed m.host.chans = false →
        (waitLoop env socketPath m.host.chans remaining i h).2 = h := by
      intro remaining
      induction remaining with
      | zero => intro i h _ _; rfl
      | succ r ih =>
        intro i h hdial hcl
        unfold waitLoop
        simp only [hev, Host.apply, List.foldl, hcl, Bool.false_eq_true, if_false,
          hdial i (Nat.le_refl i) (by omega)]
        exact ih (i + 1) h (fun k h1 h2 => hdial k (by omega) (by omega)) hcl
    have hl : m.host.launch.isClosed m.host.chans = false := hfresh
    have h2 : (waitForSocket env socketPath m.host.chans m.host.launch).2 = m.host.launch :=
      hnone socketWaitRetries 0 m.host.launch (fun k _ h2 => hd k (by omega)) hl
    rw [key]
    cases hw : waitForSocket env socketPath m.host.chans m.host.launch with
    | mk r host2 =>
      have he2 : r = some e := by
        have : (waitForSocket env socketPath m.host.chans m.host.launch).1 = some e := he
        rw [hw] at this
        exact this
      have hh : host2 = m.host.launch := by
        rw [hw] at h2
        exact h2
      rw [he2, hh]
      simp only [hev, Host.apply, List.foldl, hl, Bool.false_eq_true, if_false]
      simp [Host.kill, Host.isRunning, Host.launch]
  · rw [key]
    cases hw : waitForSocket env socketPath m.host.chans m.host.launch with
    | mk r host2 =>
      cases r with
      | some err =>
        intro hn
        simp at hn
      | none =>
        intro _
        have : (waitForSocket env socketPath m.host.chans m.host.launch).1 = none := by
          rw [hw]
        obtain ⟨k, _, h2, h3⟩ := waitLoop_none env socketPath m.host.chans socketWaitRetries 0
          m.host.launch this
        exact ⟨k, by omega, h3⟩

theorem Play_socket_not_ready_witness :
    (∃ e, (Instance.Play unix deaf NewMPV exampleURL (utf8 "Episode 1") []).1
        = some (.wrap (utf8 "mpv socket not ready: ") e))
      ∧ (Instance.Play unix deaf NewMPV exampleURL (utf8 "Episode 1") []).2.host.killed
          = [] ++ [0] :=
  have h := Play_socket_not_ready unix deaf NewMPV exampleURL (utf8 "Episode 1") []
    exampleURL (utf8 "/tmp/anisan-deadbeef.sock") (by rfl) (by rfl) (by rfl)
  ⟨h.1 (fun _ _ => rfl), h.2.2.2.1 (fun _ => rfl) (fun _ _ => rfl) (by rfl)⟩

theorem StopIPCTicker_later (m : Instance) :
    m.StopIPCTicker.cmd = m.cmd ∧ m.StopIPCTicker.exited = m.exited
      ∧ m.host.later m.StopIPCTicker.host
      ∧ m.StopIPCTicker.host.killed = m.host.killed := by
  unfold Instance.StopIPCTicker
  split
  · exact ⟨rfl, rfl, Host.close_later _ _, Host.close_killed _ _⟩
  · exact ⟨rfl, rfl, m.host.later_refl, rfl⟩

/-- The player after `Close`: the command and the exit signal are the ones
before, and the machine is the one before some time later. -/
theorem Close_later (env : Env) (during : List Event) (m : Instance) :
    (m.Close env during).1 = none
      ∧ (m.Close env during).2.cmd = m.cmd
      ∧ (m.Close env during).2.exited = m.exited
      ∧ m.host.later (m.Close env during).2.host := by
  obtain ⟨hc, he, hl, -⟩ := StopIPCTicker_later m
  unfold Instance.Close
  simp only
  split
  · exact ⟨rfl, hc, he, hl⟩
  · refine ⟨rfl, hc, he, ?_⟩
    have h1 : m.StopIPCTicker.host.later
        { m.StopIPCTicker.host.apply m.StopIPCTicker.exited during with
          waits := m.StopIPCTicker.host.waits + 1 } :=
      Host.later_trans (Host.apply_later _ during _) ⟨fun _ hx => hx, fun _ hx => hx⟩
    refine Host.later_trans hl (Host.later_trans h1 ?_)
    split
    · exact ⟨fun _ hx => hx, fun _ hx => hx⟩
    · unfold killProcess
      split
      · exact ⟨fun _ hx => hx, fun _ hx => hx⟩
      · split
        · exact ⟨fun _ hx => hx, fun _ hx => hx⟩
        · exact Host.later_trans (Host.kill_later _ _) ⟨fun _ hx => hx, fun _ hx => hx⟩

/-- A `Play` that returns an error leaves a settled player settled. -/
theorem Play_settled (P : Platform) (env : PlayEnv) (m : Instance) (rawURL title : GoString)
    (headers : List (GoString × GoString)) (hm : m.settled)
    (hfail : (Instance.Play P env m rawURL title headers).1 ≠ none) :
    (Instance.Play P env m rawURL title headers).2.settled := by
  cases hs : sanitizeMediaTarget P rawURL with
  | error e =>
    rw [Play_of_sanitizer_error P env m rawURL title headers e hs]
    exact hm
  | ok safeURL =>
    cases hp : socketPathFor P env m with
    | error e =>
      have : Instance.Play P env m rawURL title headers = (some e, m) := by
        unfold Instance.Play
        rw [hs]
        simp only [hp]
      rw [this]
      exact hm
    | ok socketPath =>
      cases hstart : env.start with
      | some err =>
        have : (Instance.Play P env m rawURL title headers).2.cmd
            = some ⟨playArgs socketPath (sanitizeTitle title) (headerLoop headers []) safeURL,
                none⟩ := by
          unfold Instance.Play
          rw [hs]
          simp only [hp]
          unfold Instance.start
          simp only [hstart]
        intro c pid hc hpid
        rw [this] at hc
        injection hc with hc
        rw [← hc] at hpid
        exact absurd hpid (by simp)
      | none =>
        have key := Play_of_start P env m rawURL title headers safeURL socketPath hs hp hstart
        rw [key] at hfail ⊢
        cases hw : waitForSocket env socketPath m.host.chans m.host.launch with
        | mk r host2 =>
          rw [hw] at hfail
          cases r with
          | none => exact absurd rfl hfail
          | some err =>
            intro c pid hc hpid
            simp only at hc hpid ⊢
            injection hc with hc
            rw [← hc] at hpid
            injection hpid with hpid
            rw [← hpid]
            split
            · rename_i hcl
              exact Or.inl hcl
            · exact Or.inr (Host.kill_not_running _ _)

/-- A player that has been reached without a successful `Play` is settled. -/
theorem Unplayed.settled {P : Platform} {m : Instance} (h : Unplayed P m) : m.settled := by
  induction h with
  | new =>
    intro c pid hc _
    exact absurd hc (by simp [NewMPV])
  | play m env rawURL title headers _ hfail ih =>
    exact Play_settled P env m rawURL title headers ih hfail
  | happen m e _ ih =>
    exact Instance.settled_of ih rfl rfl (Host.happen_later _ _ _)
  | close m env during _ ih =>
    obtain ⟨-, hc, he, hl⟩ := Close_later env during m
    exact Instance.settled_of ih hc he hl
  | stopTicker m _ ih =>
    obtain ⟨hc, he, hl, -⟩ := StopIPCTicker_later m
    exact Instance.settled_of ih hc he hl
  | startTicker m _ ih =>
    exact Instance.settled_of ih rfl rfl ⟨fun _ hx => hx, fun _ hx => hx⟩
  | tickerExit m _ ih =>
    exact Instance.settled_of ih rfl rfl (Host.later_refl _)
  | poll m ipc _ ih =>
    exact Instance.settled_of ih rfl rfl (Host.later_refl _)

/-- C17: on a player that has been reached without a successful `Play`,
`Close` returns nil and no process that is alive is killed: the record of the
kills is the one before. -/
theorem Close_without_play (P : Platform) (m : Instance) (h : Unplayed P m) (env : Env)
    (during : List Event) :
    (m.Close env during).1 = none
      ∧ (m.Close env during).2.host.killed = m.host.killed := by
  have hm := h.settled
  obtain ⟨hc, he, hl, hk⟩ := StopIPCTicker_later m
  refine ⟨(Close_later env during m).1, ?_⟩
  unfold Instance.Close
  simp only
  split
  · exact hk
  · have hset : m.StopIPCTicker.settled := Instance.settled_of hm hc he hl
    have hap := Host.apply_later m.StopIPCTicker.exited during m.StopIPCTicker.host
    have hapk := Host.apply_killed m.StopIPCTicker.exited during m.StopIPCTicker.host
    split
    · simp only [hapk, hk]
    · rename_i hnc
      unfold killProcess
      split
      · simp only [hapk, hk]
      · split
        · simp only [hapk, hk]
        · rename_i c hcmd _ pid hpid
          have hdead : Host.isRunning
              { m.StopIPCTicker.host.apply m.StopIPCTicker.exited during with
                waits := m.StopIPCTicker.host.waits + 1 } pid = false := by
            rcases hset c pid hcmd hpid with h1 | h1
            · exact absurd (hap.1 _ h1) hnc
            · exact hap.2 _ h1
          rw [Host.kill_killed_of_not_running _ _ hdead]
          simp only [hapk, hk]

theorem Close_without_play_witness :
    (((Instance.Play unix deaf NewMPV exampleURL (utf8 "Episode 1") []).2).Close
        unreachable []).1 = none
      ∧ (((Instance.Play unix deaf NewMPV exampleURL (utf8 "Episode 1") []).2).Close
          unreachable []).2.host.killed
        = (Instance.Play unix deaf NewMPV exampleURL (utf8 "Episode 1") []).2.host.killed :=
  Close_without_play unix _
    (Unplayed.play NewMPV deaf exampleURL (utf8 "Episode 1") [] Unplayed.new
      (by rw [show (Instance.Play unix deaf NewMPV exampleURL (utf8 "Episode 1") []).1
            = some (.wrap (utf8 "mpv socket not ready: ")
                (.msg (utf8 "socket /tmp/anisan-deadbeef.sock not ready after 10 attempts")))
            from rfl]
          simp))
    unreachable []

/-! ## The ticker -/

theorem IsRunning_of_exited (env : Env) (m : Instance)
    (hex : m.host.isClosed m.exited = true) : m.IsRunning env = (false, m) := by
  unfold Instance.IsRunning
  split
  · rfl
  · simp [hex]

theorem poll_of_exited (env : Env) (m : Instance)
    (hex : m.host.isClosed m.exited = true) : m.poll env = (none, m) := by
  unfold Instance.poll
  rw [IsRunning_of_exited env m hex]

/-- A step of a ticker goroutine when the exit signal is closed: no IPC
command, no callback, and the signal stays as it is. -/
theorem step_of_exited (env : Env) (s : Sys) (g : Nat) (pick : Pick)
    (hex : s.player.host.isClosed s.player.exited = true) :
    (s.step env g pick).player.ipc = s.player.ipc
      ∧ (s.step env g pick).calls = s.calls
      ∧ (s.step env g pick).player.exited = s.player.exited
      ∧ (s.step env g pick).player.host = s.player.host := by
  unfold Sys.step
  split
  · exact ⟨rfl, rfl, rfl, rfl⟩
  · rename_i t _
    split
    · exact ⟨rfl, rfl, rfl, rfl⟩
    · exact ⟨rfl, rfl, rfl, rfl⟩
    · cases pick with
      | stop =>
        simp only
        split
        · split <;> exact ⟨rfl, rfl, rfl, rfl⟩
        · exact ⟨rfl, rfl, rfl, rfl⟩
      | exited =>
        simp only
        split <;> exact ⟨rfl, rfl, rfl, rfl⟩
      | tick => exact ⟨rfl, rfl, rfl, rfl⟩
    · rw [poll_of_exited env s.player hex]
      exact ⟨rfl, rfl, rfl, rfl⟩

/-- C18: once the exit signal of the session is closed, whatever the ticker
goroutines do afterwards, in any order and with any case of the `select`
firing, no IPC command is sent and no callback is invoked. -/
theorem ticker_quiet_after_exit (env : Env) (schedule : List (Nat × Pick)) :
    ∀ s : Sys, s.player.host.isClosed s.player.exited = true →
      (s.run env schedule).player.ipc = s.player.ipc
        ∧ (s.run env schedule).calls = s.calls := by
  induction schedule with
  | nil => exact fun s _ => ⟨rfl, rfl⟩
  | cons gp rest ih =>
    intro s hex
    obtain ⟨h1, h2, h3, h4⟩ := step_of_exited env s gp.1 gp.2 hex
    have hex2 : (s.step env gp.1 gp.2).player.host.isClosed (s.step env gp.1 gp.2).player.exited
        = true := by
      rw [h3, h4]
      exact hex
    obtain ⟨i1, i2⟩ := ih (s.step env gp.1 gp.2) hex2
    show ((s.step env gp.1 gp.2).run env rest).player.ipc = s.player.ipc
      ∧ ((s.step env gp.1 gp.2).run env rest).calls = s.calls
    rw [i1, i2, h1, h2]
    exact ⟨rfl, rfl⟩

theorem ticker_quiet_after_exit_witness :
    (((Sys.mk (firstPlay.run [.exit 0, .reap 0]) [] []).StartIPCTicker 0).run twelve
        [(0, .tick), (0, .tick), (0, .tick), (0, .tick)]).player.ipc
      = ((Sys.mk (firstPlay.run [.exit 0, .reap 0]) [] []).StartIPCTicker 0).player.ipc
    ∧ (((Sys.mk (firstPlay.run [.exit 0, .reap 0]) [] []).StartIPCTicker 0).run twelve
        [(0, .tick), (0, .tick), (0, .tick), (0, .tick)]).calls
      = ((Sys.mk (firstPlay.run [.exit 0, .reap 0]) [] []).StartIPCTicker 0).calls :=
  ticker_quiet_after_exit twelve [(0, .tick), (0, .tick), (0, .tick), (0, .tick)]
    ((Sys.mk (firstPlay.run [.exit 0, .reap 0]) [] []).StartIPCTicker 0) (by rfl)

/-- A goroutine that entered its `select` when the stop channel field was nil
is not ended by the stop case. -/
theorem step_stop_of_nil (env : Env) (s : Sys) (g exited callback : Nat)
    (h : s.tickers[g]? = some ⟨.blocked none exited, callback⟩) :
    s.step env g .stop = s := by
  unfold Sys.step
  rw [h]

/-- C19 fails on the code: the goroutine reads the stop channel from the field
each time it enters its `select`, and `StopIPCTicker` sets the field to nil.
When the stop arrives while the goroutine is in the body of the tick case (the
stop channel 2 is closed, the field is nil), the goroutine completes the poll
and invokes its callback, enters the `select` with a nil stop channel, is not
ended by the stop case, and polls and invokes the callback again at the next
tick; when `StartIPCTicker` is called again right after the stop, the old
goroutine goes on with its callback 0 beside the new one. -/
theorem ticker_survives_stop :
    midPoll.player.tickerStop = some 2
      ∧ midPoll.tickers.map Ticker.pc = [.polling]
      ∧ midPoll.calls = []
      ∧ midPoll.StopIPCTicker.player.tickerStop = none
      ∧ midPoll.StopIPCTicker.player.host.closedChans = [2]
      ∧ (midPoll.StopIPCTicker.run twelve [(0, .stop)]).calls = [⟨0, 12, 12⟩]
      ∧ (midPoll.StopIPCTicker.run twelve [(0, .stop), (0, .stop), (0, .stop)]).tickers.map
          Ticker.pc = [.blocked none 1]
      ∧ (midPoll.StopIPCTicker.run twelve
          [(0, .stop), (0, .stop), (0, .stop), (0, .tick), (0, .tick)]).calls
          = [⟨0, 12, 12⟩, ⟨0, 12, 12⟩]
      ∧ ((midPoll.StopIPCTicker.StartIPCTicker 1).run twelve
          [(0, .stop), (0, .stop), (0, .tick), (0, .tick)]).calls
          = [⟨0, 12, 12⟩, ⟨0, 12, 12⟩]
      ∧ ((midPoll.StopIPCTicker.StartIPCTicker 1).run twelve
          [(0, .stop), (0, .stop), (0, .tick), (0, .tick)]).player.host.panics = 0 :=
  ⟨by rfl, by rfl, by rfl, by rfl, by rfl, by rfl, by rfl, by rfl, by rfl, by rfl⟩

/-! ## One attempt and its response -/

/-- C21: an attempt that gets through to a decoded response returns the data
of the response when the error field is empty or `success`, and only then;
for every other error string it fails with the error `mpv error: ` followed
by that string. -/
theorem doSendCommand_of_response (unmarshal : GoString → Except GoError ipcResponse)
    (a : Attempt) (buf : GoString) (resp : ipcResponse)
    (hdial : a.dial = none) (hmarshal : a.marshal = none) (hwrite : a.write = none)
    (hdeadline : a.setReadDeadline = none) (hread : a.read = .ok buf)
    (hresp : unmarshal buf = .ok resp) :
    ((resp.Error = [] ∨ resp.Error = utf8 "success") →
        doSendCommand unmarshal a = .ok resp.Data)
      ∧ (¬ (resp.Error = [] ∨ resp.Error = utf8 "success") →
        doSendCommand unmarshal a = .error (.msg (utf8 "mpv error: " ++ resp.Error))
          ∧ GoError.Error (.msg (utf8 "mpv error: " ++ resp.Error))
            = utf8 "mpv error: " ++ resp.Error) := by
  constructor
  · intro h
    have hc : ¬ (resp.Error ≠ [] ∧ resp.Error ≠ utf8 "success") := by
      rintro ⟨h1, h2⟩
      rcases h with h | h
      · exact h1 h
      · exact h2 h
    simp only [doSendCommand, hdial, hmarshal, hwrite, hdeadline, hread, hresp]
    rw [if_neg hc]
  · intro h
    have hc : resp.Error ≠ [] ∧ resp.Error ≠ utf8 "success" :=
      ⟨fun h1 => h (Or.inl h1), fun h2 => h (Or.inr h2)⟩
    refine ⟨?_, rfl⟩
    simp only [doSendCommand, hdial, hmarshal, hwrite, hdeadline, hread, hresp]
    rw [if_pos hc]

theorem doSendCommand_of_response_witness :
    doSendCommand json.UnmarshalResponse
        ⟨none, none, none, none, .ok (utf8 "\x7b\"data\":true,\"error\":\"success\"\x7d\n")⟩
      = .ok (.bool true) :=
  (doSendCommand_of_response json.UnmarshalResponse
    ⟨none, none, none, none, .ok (utf8 "\x7b\"data\":true,\"error\":\"success\"\x7d\n")⟩
    (utf8 "\x7b\"data\":true,\"error\":\"success\"\x7d\n") ⟨.bool true, utf8 "success"⟩
    rfl rfl rfl rfl rfl rfl).1 (Or.inr rfl)

/-- C30 as stated fails on the code: an event without an error field that is read in
the place of the response decodes to an empty error, and the attempt returns
the data of the event as the result of the command. -/
theorem doSendCommand_accepts_event :
    json.UnmarshalResponse pauseEvent = .ok ⟨.bool true, []⟩
      ∧ doSendCommand json.UnmarshalResponse ⟨none, none, none, none, .ok pauseEvent⟩
        = .ok (.bool true)
      ∧ (MPV.sendCommand (reading fun _ => pauseEvent) ⟨0, 0, []⟩ getTimePos).1
        = .ok (.bool true) := by
  refine ⟨rfl, rfl, rfl⟩

/-! ## The queries -/

theorem HasActivePlayback_of_error (env : Env) (m m1 : MPV) (err : GoError)
    (h : m.sendCommand env getTimePos = (.error err, m1)) :
    m.HasActivePlayback env =
      (if strings.Contains err.Error (utf8 "property unavailable") then ((false, none), m1)
       else ((false, some err), m1)) := by
  have h1 : m.sendCommand env [.str (utf8 "get_property"), .str (utf8 "time-pos")]
      = (.error err, m1) := h
  simp only [MPV.HasActivePlayback, h1]

theorem HasActivePlayback_of_ok (env : Env) (m m1 : MPV) (data : Value)
    (h : m.sendCommand env getTimePos = (.ok data, m1)) :
    m.HasActivePlayback env = ((!data.isNil, none), m1) := by
  have h1 : m.sendCommand env [.str (utf8 "get_property"), .str (utf8 "time-pos")]
      = (.ok data, m1) := h
  simp only [MPV.HasActivePlayback, h1]

/-- C22 as stated fails on the code: the test is whether the text of the
error contains `property unavailable`, so a failure to connect whose text
holds these words (the socket path is part of it) is returned as
(false, nil) and not as an error. -/
theorem HasActivePlayback_hides_dial_failure :
    doSendCommand oddTempDir.unmarshal (oddTempDir.attempt 0 getTimePos)
        = .error (.wrap (utf8 "connect: ") (.msg (utf8
          "dial unix /tmp/property unavailable/anisan-deadbeef.sock: connect: connection refused")))
      ∧ MPV.HasActivePlayback oddTempDir ⟨0, 0, []⟩ = ((false, none), ⟨3, 2, [getTimePos]⟩) := by
  refine ⟨rfl, ?_⟩
  have h : MPV.sendCommand oddTempDir ⟨0, 0, []⟩ getTimePos
      = (.error (exhausted (some (.wrap (utf8 "connect: ") (.msg (utf8
          "dial unix /tmp/property unavailable/anisan-deadbeef.sock: connect: connection refused"))))),
        ⟨3, 2, [getTimePos]⟩) :=
    sendCommand_of_three_failures oddTempDir ⟨0, 0, []⟩ getTimePos _ _ _ rfl rfl rfl
  rw [HasActivePlayback_of_error _ _ _ _ h]
  have hc : strings.Contains (exhausted (some (.wrap (utf8 "connect: ") (.msg (utf8
      "dial unix /tmp/property unavailable/anisan-deadbeef.sock: connect: connection refused"))))).Error
      (utf8 "property unavailable") = true := by decide!
  rw [if_pos hc]

/-- C22, amended: when the third attempt of the time-pos query is answered
with the application error `property unavailable` (the two before it having
failed), `HasActivePlayback` returns (false, nil), from the error the retry
loop has wrapped; a failure whose text does not contain `property unavailable`
is returned as the error; and on success the result is true exactly when the
data is not null. -/
theorem HasActivePlayback_cases (env : Env) (m : MPV) :
    (∀ e0 e1 : GoError,
        doSendCommand env.unmarshal (env.attempt m.attempts getTimePos) = .error e0 →
        doSendCommand env.unmarshal (env.attempt (m.attempts + 1) getTimePos) = .error e1 →
        doSendCommand env.unmarshal (env.attempt (m.attempts + 2) getTimePos)
          = .error (.msg (utf8 "mpv error: property unavailable")) →
        (m.HasActivePlayback env).1 = (false, none))
      ∧ (∀ (err : GoError) (m1 : MPV), m.sendCommand env getTimePos = (.error err, m1) →
        strings.Contains err.Error (utf8 "property unavailable") = false →
        m.HasActivePlayback env = ((false, some err), m1))
      ∧ (∀ (data : Value) (m1 : MPV), m.sendCommand env getTimePos = (.ok data, m1) →
        m.HasActivePlayback env = ((!data.isNil, none), m1)
          ∧ ((!data.isNil) = true ↔ data ≠ .null)) := by
  refine ⟨?_, ?_, ?_⟩
  · intro e0 e1 h0 h1 h2
    rw [HasActivePlayback_of_error _ _ _ _
      (sendCommand_of_three_failures env m getTimePos e0 e1 _ h0 h1 h2)]
    have hc : strings.Contains
        (exhausted (some (.msg (utf8 "mpv error: property unavailable")))).Error
        (utf8 "property unavailable") = true := by decide
    rw [if_pos hc]
  · intro err m1 h hc
    rw [HasActivePlayback_of_error _ _ _ _ h, hc]
    simp
  · intro data m1 h
    refine ⟨HasActivePlayback_of_ok _ _ _ _ h, ?_⟩
    cases data <;> simp [Value.isNil]

theorem HasActivePlayback_cases_witness :
    (MPV.HasActivePlayback nothingLoaded ⟨0, 0, []⟩).1 = (false, none) :=
  (HasActivePlayback_cases nothingLoaded ⟨0, 0, []⟩).1
    (.msg (utf8 "mpv error: property unavailable"))
    (.msg (utf8 "mpv error: property unavailable")) rfl rfl rfl

/-- With a duration that is zero or negative `GetPercentWatched` returns 0 and
no error, without dividing. -/
theorem GetPercentWatched_of_no_duration (env : Env) (m m1 m2 : MPV) (pos dur : F64)
    (hpos : m.GetTimePos env = (.ok pos, m1)) (hdur : m1.GetDuration env = (.ok dur, m2))
    (h : F64.le dur (.fin 0) = true) :
    m.GetPercentWatched env = ((.fin 0, none), m2) := by
  simp [MPV.GetPercentWatched, hpos, hdur, h]

/-- C23 fails on the code: when the player reports the position 150 and the
duration 100, `GetPercentWatched` returns 150, which is above the range from 0
to 100 of its interface; nothing clamps the quotient. -/
theorem GetPercentWatched_above_hundred :
    (MPV.GetPercentWatched (reporting (.fin 150) (.fin 100)) ⟨0, 0, []⟩).1 = (.fin 150, none)
      ∧ F64.le (.fin 150) (.fin 100) = false := by
  constructor
  · decide!
  · decide

/-- C29 as stated fails on the code: with an opening from 10 to 30.5 and the playback
at 30.5, the end of the opening, the ticker hands `Check` the position cut to
30 whole seconds, which is inside the opening, and the seek to 30.5 is sent
again. -/
theorem Check_repeats_skip_on_truncated_sample :
    F64.ge (.fin (61 / 2)) halfSecond.Opening.End = true
      ∧ F64.ofInt (F64.toInt (.fin (61 / 2))) = .fin 30
      ∧ halfSecond.Opening.holds (F64.ofInt (F64.toInt (.fin (61 / 2)))) = true
      ∧ (Skipper.mk (some halfSecond)).Check (answering ⟨.null, utf8 "success"⟩) ⟨0, 0, []⟩
          (F64.ofInt (F64.toInt (.fin (61 / 2))))
        = ((true, none), ⟨1, 0, [seekCommand (.fin (61 / 2))]⟩) := by
  have h : (halfSecond.HasIntro
      && halfSecond.Opening.holds (F64.ofInt (F64.toInt (.fin (61 / 2))))) = true := by decide!
  refine ⟨by decide!, by decide!, by decide!, ?_⟩
  rw [Check_of_opening _ _ _ _ h]
  rfl

/-! ## The helpers of `util` -/

/-- C26 fails on the code: `Capitalize` takes the first byte, not the first
rune. On a string that starts with a rune of two bytes (here U+00E9, the
bytes C3 A9) the lone first byte becomes the replacement rune U+FFFD and the
second byte stays, where the upper case of the rune is U+00C9 (C3 89). -/
theorem Capitalize_splits_first_rune :
    utf8 "élan" = [0xC3, 0xA9, 0x6C, 0x61, 0x6E]
      ∧ Capitalize (utf8 "élan") = [0xEF, 0xBF, 0xBD, 0xA9, 0x6C, 0x61, 0x6E]
      ∧ utf8 "Élan" = [0xC3, 0x89, 0x6C, 0x61, 0x6E]
      ∧ Capitalize (utf8 "élan") ≠ utf8 "Élan"
      ∧ Capitalize (utf8 "hello") = utf8 "Hello"
      ∧ Capitalize [] = [] := by
  decide

/-- C27: a `Pop` after a `Push` returns the item pushed and leaves the stack
with the items, and the length, that it had before; `Pop` and `Peek` on an
empty stack return the zero value, and the stack stays empty. -/
theorem Stack_push_pop {α : Type} (zero : α) (s : Stack α) (x : α) :
    (s.Push x).Pop zero = (x, s)
      ∧ ((s.Push x).Pop zero).2.Len = s.Len
      ∧ (Stack.mk ([] : List α)).Pop zero = (zero, ⟨[]⟩)
      ∧ (Stack.mk ([] : List α)).Peek zero = zero
      ∧ ((Stack.mk ([] : List α)).Pop zero).2.Len = 0 := by
  have h : (s.Push x).Pop zero = (x, s) := by
    obtain ⟨items⟩ := s
    simp [Stack.Push, Stack.Pop, List.getD]
  refine ⟨h, ?_, ?_, ?_, ?_⟩
  · rw [h]
  · simp [Stack.Pop]
  · simp [Stack.Peek]
  · simp [Stack.Pop, Stack.Len]

/-! ## The history -/

/-- C25 fails on the code: the records are kept under the name of the anime
and the ID of its source, so both episodes of the anime share one entry. After
the first episode is saved with 95 percent, saving the second episode with 0
percent, as the start of its playback does, stores the second episode with
the 95 percent of the first. -/
theorem Save_takes_percentage_of_other_episode :
    (newSavedEpisode frierenOne).encode = (newSavedEpisode frierenTwo).encode
      ∧ (history.Save emptyCacher frierenOne (.fin 95)).1 = none
      ∧ (history.Save afterOne frierenTwo (.fin 0)).1 = none
      ∧ afterTwo.cached
        = some [(utf8 "Frieren (example)",
            { newSavedEpisode frierenTwo with WatchedPercentage := .fin 95 })]
      ∧ frierenOne.ID ≠ frierenTwo.ID := by
  decide

/-! ## The title of the window -/

theorem mem_ReplaceByte {c old : Nat} {new s : GoString}
    (h : c ∈ strings.ReplaceByte s old new) : (c ∈ s ∧ c ≠ old) ∨ c ∈ new := by
  unfold strings.ReplaceByte at h
  rw [List.mem_flatMap] at h
  obtain ⟨x, hx, hc⟩ := h
  split at hc
  · exact Or.inr hc
  · rename_i hne
    have hcx : c = x := by simpa using hc
    subst hcx
    exact Or.inl ⟨hx, hne⟩

theorem ReplaceByte_of_not_mem {old : Nat} {new s : GoString} (h : old ∉ s) :
    strings.ReplaceByte s old new = s := by
  induction s with
  | nil => rfl
  | cons c r ih =>
    have hc : c ≠ old := fun hc => h (by simp [hc])
    have hr : old ∉ r := fun hr => h (List.mem_cons_of_mem _ hr)
    have ih1 := ih hr
    unfold strings.ReplaceByte at ih1 ⊢
    rw [List.flatMap_cons, ih1, if_neg hc]
    rfl

theorem trimLeftLoop_of_none {encs : List GoString} {s : GoString} (fuel : Nat)
    (h : strings.stripOne encs s = none) : strings.trimLeftLoop encs fuel s = s := by
  cases fuel <;> simp [strings.trimLeftLoop, h]

/-- A string with no whitespace rune at its start or at its end is what
`TrimSpace` returns for it. -/
theorem TrimSpace_of_trimmed {s : GoString}
    (h1 : strings.stripOne strings.spaceEncodings s = none)
    (h2 : strings.stripOne (strings.spaceEncodings.map List.reverse) s.reverse = none) :
    strings.TrimSpace s = s := by
  unfold strings.TrimSpace strings.TrimLeftSpace strings.TrimRightSpace
  rw [trimLeftLoop_of_none _ h1, trimLeftLoop_of_none _ h2, List.reverse_reverse]

theorem TrimSpace_no_leading (s : GoString) :
    strings.stripOne strings.spaceEncodings (strings.TrimSpace s) = none := by
  rcases (strings.TrimSpace_trimmed s).2 with h | h
  · rw [h]
    exact strings.stripOne_nil (by decide)
  · exact h

theorem TrimSpace_idem (s : GoString) :
    strings.TrimSpace (strings.TrimSpace s) = strings.TrimSpace s :=
  TrimSpace_of_trimmed (TrimSpace_no_leading s) (strings.TrimSpace_trimmed s).1

/-- C24: what `sanitizeTitle` returns holds no newline, carriage return, tab or
NUL, starts with no whitespace rune and ends with none, and is returned as it
is when `sanitizeTitle` is applied to it again. -/
theorem sanitizeTitle_clean (title : GoString) :
    (∀ c ∈ sanitizeTitle title, c ≠ 0x0A ∧ c ≠ 0x0D ∧ c ≠ 0x09 ∧ c ≠ 0x00)
      ∧ strings.stripOne strings.spaceEncodings (sanitizeTitle title) = none
      ∧ strings.stripOne (strings.spaceEncodings.map List.reverse)
          (sanitizeTitle title).reverse = none
      ∧ sanitizeTitle (sanitizeTitle title) = sanitizeTitle title := by
  have hclean : ∀ c ∈ sanitizeTitle title, c ≠ 0x0A ∧ c ≠ 0x0D ∧ c ≠ 0x09 ∧ c ≠ 0x00 := by
    intro c hc
    have h4 := strings.mem_of_mem_TrimSpace hc
    rcases mem_ReplaceByte h4 with ⟨h3, hne0⟩ | h
    · rcases mem_ReplaceByte h3 with ⟨h2, hne9⟩ | h
      · rcases mem_ReplaceByte h2 with ⟨h1, hneD⟩ | h
        · rcases mem_ReplaceByte h1 with ⟨_, hneA⟩ | h
          · exact ⟨hneA, hneD, hne9, hne0⟩
          · have hc : c = 0x20 := by simpa [show utf8 " " = [0x20] from rfl] using h
            subst hc
            decide
        · have hc : c = 0x20 := by simpa [show utf8 " " = [0x20] from rfl] using h
          subst hc
          decide
      · have hc : c = 0x20 := by simpa [show utf8 " " = [0x20] from rfl] using h
        subst hc
        decide
    · simp at h
  refine ⟨hclean, TrimSpace_no_leading _, (strings.TrimSpace_trimmed _).1, ?_⟩
  have hA : (0x0A : Nat) ∉ sanitizeTitle title := fun h => (hclean _ h).1 rfl
  have hD : (0x0D : Nat) ∉ sanitizeTitle title := fun h => (hclean _ h).2.1 rfl
  have h9 : (0x09 : Nat) ∉ sanitizeTitle title := fun h => (hclean _ h).2.2.1 rfl
  have h0 : (0x00 : Nat) ∉ sanitizeTitle title := fun h => (hclean _ h).2.2.2 rfl
  have hstep : sanitizeTitle (sanitizeTitle title)
      = strings.TrimSpace (strings.ReplaceByte (strings.ReplaceByte (strings.ReplaceByte
          (strings.ReplaceByte (sanitizeTitle title) 0x0A (utf8 " ")) 0x0D (utf8 " "))
          0x09 (utf8 " ")) 0x00 []) := rfl
  rw [hstep, ReplaceByte_of_not_mem hA, ReplaceByte_of_not_mem hD, ReplaceByte_of_not_mem h9,
    ReplaceByte_of_not_mem h0]
  exact TrimSpace_idem _

/-! ## The comparison of versions -/

theorem isSpaceByte_of_isDigit {c : Nat} (h : json.isDigit c = true) :
    strings.isSpaceByte c = false := by
  simp only [json.isDigit, Bool.and_eq_true, decide_eq_true_eq] at h
  obtain ⟨h1, h2⟩ := h
  interval_cases c <;> rfl

theorem stripOne_of_not_space {c : Nat} (r : GoString) (h : strings.isSpaceByte c = false) :
    strings.stripOne strings.spaceEncodings (c :: r) = none := by
  cases hs : strings.stripOne strings.spaceEncodings (c :: r) with
  | none => rfl
  | some x =>
    obtain ⟨e, he, heq⟩ := strings.stripOne_eq_some hs
    have hne : e ≠ [] := (by decide : ∀ e ∈ strings.spaceEncodings, e ≠ []) e he
    cases e with
    | nil => exact absurd rfl hne
    | cons a e1 =>
      simp only [List.cons_append, List.cons.injEq] at heq
      have hsp : strings.isSpaceByte c = true :=
        strings.isSpaceByte_of_mem ⟨a :: e1, he, by simp [heq.1]⟩
      rw [h] at hsp
      cases hsp

theorem ne_of_isDigit {c : Nat} (h : json.isDigit c = true) :
    c ≠ 0x0A ∧ c ≠ 0x2B ∧ c ≠ 0x2D ∧ c ≠ 0x2E ∧ c ≠ 0x76 := by
  simp only [json.isDigit, Bool.and_eq_true, decide_eq_true_eq] at h
  omega

theorem SkipSpace_of_digit {c : Nat} (r : GoString) (fuel : Nat) (h : json.isDigit c = true) :
    fmt.SkipSpace fuel (c :: r) = .ok (c :: r) := by
  cases fuel with
  | zero => rfl
  | succ n =>
    simp only [fmt.SkipSpace, if_neg (ne_of_isDigit h).1,
      stripOne_of_not_space r (isSpaceByte_of_isDigit h)]

/-- The number that a run of digits below 2^63 writes is what `ParseInt`
returns for it. -/
theorem ParseInt_of_digits {c : Nat} {d : GoString} (hc : json.isDigit c = true)
    (hd : d.all json.isDigit = true) (hlt : json.natOf (c :: d) < 2 ^ 63) :
    strconv.ParseInt (c :: d) = .ok (json.natOf (c :: d) : Int) := by
  obtain ⟨-, hp, hm, -, -⟩ := ne_of_isDigit hc
  have hall : (c :: d).all json.isDigit = true := by simp [hc, hd]
  have hlt1 : json.natOf (c :: d) < 9223372036854775808 := by
    norm_num at hlt
    exact hlt
  simp [strconv.ParseInt, hp, hm, hall, hlt1]

/-- The scan of a number in front of the end of the input or of a byte that
is no digit. -/
theorem scanInt_of_digits {c : Nat} {d rest : GoString} (hc : json.isDigit c = true)
    (hd : d.all json.isDigit = true) (hlt : json.natOf (c :: d) < 2 ^ 63)
    (hrest : rest.head?.all (fun x => !json.isDigit x) = true) :
    fmt.scanInt (c :: d ++ rest) = .ok ((json.natOf (c :: d) : Int), rest) := by
  obtain ⟨-, hp, hm, -, -⟩ := ne_of_isDigit hc
  have hall : ∀ x ∈ c :: d, json.isDigit x = true := by
    intro x hx
    rcases List.mem_cons.mp hx with hx | hx
    · rw [hx]
      exact hc
    · exact List.all_eq_true.mp hd x hx
  have htake : (c :: d ++ rest).takeWhile json.isDigit = c :: d := by
    rw [List.takeWhile_append_of_pos hall]
    cases rest with
    | nil => simp
    | cons x r =>
      have hx : json.isDigit x = false := by simpa using hrest
      simp [List.takeWhile, hx]
  have hdrop : (c :: d ++ rest).dropWhile json.isDigit = rest := by
    rw [List.dropWhile_append_of_pos hall]
    cases rest with
    | nil => simp
    | cons x r =>
      have hx : json.isDigit x = false := by simpa using hrest
      simp [List.dropWhile, hx]
  have hor : ¬ (c = 0x2B ∨ c = 0x2D) := by
    rintro (h | h)
    · exact hp h
    · exact hm h
  unfold fmt.scanInt
  rw [List.cons_append, SkipSpace_of_digit _ _ hc]
  simp only [if_neg hor, hc, List.nil_append]
  rw [← List.cons_append, htake, hdrop, ParseInt_of_digits hc hd hlt]
  simp

theorem verb_of_digits {c : Nat} {d rest : GoString} (hc : json.isDigit c = true)
    (hd : d.all json.isDigit = true) (hlt : json.natOf (c :: d) < 2 ^ 63)
    (hrest : rest.head?.all (fun x => !json.isDigit x) = true) :
    fmt.verb (c :: d ++ rest) = .ok ((json.natOf (c :: d) : Int), rest) := by
  unfold fmt.verb
  rw [List.cons_append, SkipSpace_of_digit _ _ hc, ← List.cons_append]
  exact scanInt_of_digits hc hd hlt hrest

theorem verb_of_number {n rest : GoString} (hn : version.isNumber n = true)
    (hlt : json.natOf n < 2 ^ 63)
    (hrest : rest.head?.all (fun x => !json.isDigit x) = true) :
    fmt.verb (n ++ rest) = .ok ((json.natOf n : Int), rest) := by
  cases n with
  | nil => simp [version.isNumber] at hn
  | cons c d =>
    have h : json.isDigit c = true ∧ d.all json.isDigit = true := by
      simpa [version.isNumber] using hn
    exact verb_of_digits h.1 h.2 hlt hrest

/-- What `parse` reads from a version string whose numbers are below 2^63. -/
theorem parse_versionString (v : Bool) {major minor patch : GoString}
    (h1 : version.isNumber major = true) (h2 : version.isNumber minor = true)
    (h3 : version.isNumber patch = true)
    (l1 : json.natOf major < 2 ^ 63) (l2 : json.natOf minor < 2 ^ 63)
    (l3 : json.natOf patch < 2 ^ 63) :
    version.parse (version.versionString v major minor patch)
      = .ok ((json.natOf major : Int), (json.natOf minor : Int), (json.natOf patch : Int)) := by
  have htrim : strings.TrimPrefix (version.versionString v major minor patch) (utf8 "v")
      = major ++ (0x2E :: (minor ++ (0x2E :: (patch ++ [])))) := by
    have hv : utf8 "v" = [0x76] := rfl
    have hp : utf8 "." = [0x2E] := rfl
    cases v with
    | true =>
      simp [version.versionString, strings.TrimPrefix, strings.HasPrefix, hv, hp]
    | false =>
      cases major with
      | nil => simp [version.isNumber] at h1
      | cons c d =>
        have hc : json.isDigit c = true := by
          have h : json.isDigit c = true ∧ d.all json.isDigit = true := by
            simpa [version.isNumber] using h1
          exact h.1
        have hne : c ≠ 0x76 := (ne_of_isDigit hc).2.2.2.2
        simp [version.versionString, strings.TrimPrefix, strings.HasPrefix, hv, hp, hne,
          Ne.symm hne]
  unfold version.parse fmt.Sscanf
  rw [htrim, verb_of_number h1 l1 (by simp [json.isDigit])]
  simp only [fmt.period, if_true]
  rw [verb_of_number h2 l2 (by simp [json.isDigit])]
  simp only [fmt.period, if_true]
  rw [verb_of_number h3 l3 (by simp)]

/-- C28 as stated fails on the code: a number from 2^63 on does not fit the
`int` that `Sscanf` scans into, the scan fails, and `Compare` returns 0 with
the error, where the triple is the greater one. -/
theorem Compare_fails_on_large_number :
    version.Compare (utf8 "v9223372036854775808.0.0") (utf8 "1.0.0")
      = (0, some (.msg (utf8
          "strconv.ParseInt: parsing \"9223372036854775808\": value out of range"))) := by
  decide

/-- C28, amended: for version strings of the form major.minor.patch, with a
leading `v` or without, whose three numbers are below 2^63, `Compare` returns
no error, and returns 1 when the triple of the first is the greater one in
the lexicographic order, -1 when it is the smaller one and 0 when the triples
are equal; and the result is the negation of the result for the swapped
arguments. -/
theorem Compare_versionString (va vb : Bool) (a1 a2 a3 b1 b2 b3 : GoString)
    (ha1 : version.isNumber a1 = true) (ha2 : version.isNumber a2 = true)
    (ha3 : version.isNumber a3 = true) (hb1 : version.isNumber b1 = true)
    (hb2 : version.isNumber b2 = true) (hb3 : version.isNumber b3 = true)
    (la1 : json.natOf a1 < 2 ^ 63) (la2 : json.natOf a2 < 2 ^ 63)
    (la3 : json.natOf a3 < 2 ^ 63) (lb1 : json.natOf b1 < 2 ^ 63)
    (lb2 : json.natOf b2 < 2 ^ 63) (lb3 : json.natOf b3 < 2 ^ 63) :
    (version.Compare (version.versionString va a1 a2 a3)
        (version.versionString vb b1 b2 b3)).2 = none
      ∧ (toLex (json.natOf b1, toLex (json.natOf b2, json.natOf b3))
          < toLex (json.natOf a1, toLex (json.natOf a2, json.natOf a3)) →
        (version.Compare (version.versionString va a1 a2 a3)
          (version.versionString vb b1 b2 b3)).1 = 1)
      ∧ (toLex (json.natOf a1, toLex (json.natOf a2, json.natOf a3))
          < toLex (json.natOf b1, toLex (json.natOf b2, json.natOf b3)) →
        (version.Compare (version.versionString va a1 a2 a3)
          (version.versionString vb b1 b2 b3)).1 = -1)
      ∧ ((json.natOf a1, json.natOf a2, json.natOf a3)
          = (json.natOf b1, json.natOf b2, json.natOf b3) →
        (version.Compare (version.versionString va a1 a2 a3)
          (version.versionString vb b1 b2 b3)).1 = 0)
      ∧ (version.Compare (version.versionString va a1 a2 a3)
          (version.versionString vb b1 b2 b3)).1
        = -(version.Compare (version.versionString vb b1 b2 b3)
          (version.versionString va a1 a2 a3)).1 := by
  have hab : version.Compare (version.versionString va a1 a2 a3)
      (version.versionString vb b1 b2 b3)
      = (version.compareLoop [((json.natOf a1 : Int), (json.natOf b1 : Int)),
          ((json.natOf a2 : Int), (json.natOf b2 : Int)),
          ((json.natOf a3 : Int), (json.natOf b3 : Int))], none) := by
    simp only [version.Compare, parse_versionString va ha1 ha2 ha3 la1 la2 la3,
      parse_versionString vb hb1 hb2 hb3 lb1 lb2 lb3]
  have hba : version.Compare (version.versionString vb b1 b2 b3)
      (version.versionString va a1 a2 a3)
      = (version.compareLoop [((json.natOf b1 : Int), (json.natOf a1 : Int)),
          ((json.natOf b2 : Int), (json.natOf a2 : Int)),
          ((json.natOf b3 : Int), (json.natOf a3 : Int))], none) := by
    simp only [version.Compare, parse_versionString va ha1 ha2 ha3 la1 la2 la3,
      parse_versionString vb hb1 hb2 hb3 lb1 lb2 lb3]
  rw [hab, hba]
  generalize json.natOf a1 = x1
  generalize json.natOf a2 = x2
  generalize json.natOf a3 = x3
  generalize json.natOf b1 = y1
  generalize json.natOf b2 = y2
  generalize json.natOf b3 = y3
  simp only [version.compareLoop, Prod.Lex.lt_iff, Prod.mk.injEq, Nat.cast_lt, gt_iff_lt]
  refine ⟨trivial, ?_, ?_, ?_, ?_⟩
  · intro h
    split_ifs <;> omega
  · intro h
    split_ifs <;> omega
  · intro h
    split_ifs <;> omega
  · split_ifs <;> omega

theorem Compare_versionString_witness :
    (version.Compare (utf8 "v1.2.3") (utf8 "1.10.0")).1 = -1 :=
  (Compare_versionString true false (utf8 "1") (utf8 "2") (utf8 "3") (utf8 "1") (utf8 "10")
    (utf8 "0") (by decide) (by decide) (by decide) (by decide) (by decide) (by decide)
    (by decide) (by decide) (by decide) (by decide) (by decide) (by decide)).2.2.1 (by decide)

/-! ## The sample of the ticker and whole seconds -/

theorem tdiv_num_den (q : ℚ) :
    F64.toInt (.fin q) = if -(2 : Int) ^ 63 ≤ (if 0 ≤ q then ⌊q⌋ else ⌈q⌉)
        ∧ (if 0 ≤ q then ⌊q⌋ else ⌈q⌉) < (2 : Int) ^ 63
      then (if 0 ≤ q then ⌊q⌋ else ⌈q⌉) else -(2 : Int) ^ 63 := by
  have h : Int.tdiv q.num q.den = if 0 ≤ q then ⌊q⌋ else ⌈q⌉ := by
    split
    · rename_i h
      have hn : 0 ≤ q.num := Rat.num_nonneg.mpr h
      rw [Int.tdiv_eq_ediv hn (by positivity), Rat.floor_def]
    · rename_i h
      have hn : q.num < 0 := Rat.num_neg.mpr (not_le.mp h)
      have h1 : Int.tdiv q.num q.den = -(Int.tdiv (-q.num) q.den) := by
        rw [Int.neg_tdiv, neg_neg]
      rw [h1, Int.tdiv_eq_ediv (by omega) (by positivity)]
      have h2 : ⌈q⌉ = -⌊-q⌋ := by rw [Int.floor_neg, neg_neg]
      rw [h2, Rat.floor_def, Rat.neg_num, Rat.neg_den]
  simp only [F64.toInt]
  rw [h]

/-- The sample of a position of up to 2^53 seconds in magnitude is the
position cut to whole seconds, towards zero. -/
theorem tickerSample_of_fin {q : ℚ} (hlo : -(2 : ℚ) ^ 53 ≤ q) (hhi : q ≤ 2 ^ 53) :
    tickerSample (.fin q) = .fin ((if 0 ≤ q then ⌊q⌋ else ⌈q⌉ : Int) : ℚ) := by
  have h1 : -(2 : Int) ^ 53 ≤ (if 0 ≤ q then ⌊q⌋ else ⌈q⌉) := by
    split
    · exact Int.le_floor.mpr (by push_cast; exact hlo)
    · have h := hlo.trans (Int.le_ceil q)
      exact_mod_cast h
  have h2 : (if 0 ≤ q then ⌊q⌋ else ⌈q⌉) ≤ (2 : Int) ^ 53 := by
    split
    · have h := (Int.floor_le q).trans hhi
      exact_mod_cast h
    · exact Int.ceil_le.mpr (by push_cast; exact hhi)
  unfold tickerSample
  rw [tdiv_num_den]
  generalize (if 0 ≤ q then ⌊q⌋ else ⌈q⌉) = z at h1 h2 ⊢
  have hr : -(2 : Int) ^ 63 ≤ z ∧ z < (2 : Int) ^ 63 := by
    constructor <;> omega
  have ha : z.natAbs ≤ 2 ^ 53 := by omega
  rw [if_pos hr]
  unfold F64.ofInt
  rw [if_pos ha]

/-- A position at or after a whole number of seconds is sampled at or after
it. -/
theorem tickerSample_not_lt {q : ℚ} {n : Int} (hlo : -(2 : ℚ) ^ 53 ≤ q) (hhi : q ≤ 2 ^ 53)
    (h : (n : ℚ) ≤ q) : F64.lt (tickerSample (.fin q)) (.fin n) = false := by
  rw [tickerSample_of_fin hlo hhi]
  have hz : n ≤ (if 0 ≤ q then ⌊q⌋ else ⌈q⌉) := by
    split
    · exact Int.le_floor.mpr h
    · have h1 := h.trans (Int.le_ceil q)
      exact_mod_cast h1
  have hq : ¬ (((if 0 ≤ q then ⌊q⌋ else ⌈q⌉ : Int) : ℚ) < (n : ℚ)) := by
    rw [not_lt]
    exact_mod_cast hz
  simp only [F64.lt, hq, decide_False]

/-- C29, amended: for an interval whose end is a whole number of seconds and
a position of the player at or after the end (of up to 2^53 seconds in
magnitude), the sample that the ticker hands to `Check` is outside the
interval; `Check` on that sample sends no seek for the interval, be it the
opening or the ending, only the seek of the other interval if the sample is
in that one. -/
theorem tickerSample_outside_whole_interval (i : Interval) (n : Int) (q : ℚ)
    (hend : i.End = .fin n) (hp : F64.ge (.fin q) i.End = true)
    (hlo : -(2 : ℚ) ^ 53 ≤ q) (hhi : q ≤ 2 ^ 53) :
    i.holds (tickerSample (.fin q)) = false
      ∧ (∀ (env : Env) (m : MPV) (t : SkipTimes), t.Opening = i →
        ((Skipper.mk (some t)).Check env m (tickerSample (.fin q))).2.sent = m.sent ++
          (if (t.HasOutro && t.Ending.holds (tickerSample (.fin q))) = true
            then [seekCommand t.Ending.End] else []))
      ∧ (∀ (env : Env) (m : MPV) (t : SkipTimes), t.Ending = i →
        ((Skipper.mk (some t)).Check env m (tickerSample (.fin q))).2.sent = m.sent ++
          (if (t.HasIntro && t.Opening.holds (tickerSample (.fin q))) = true
            then [seekCommand t.Opening.End] else [])) := by
  have hq : (n : ℚ) ≤ q := by
    rw [hend] at hp
    simpa [F64.ge] using hp
  have hout : i.holds (tickerSample (.fin q)) = false := by
    unfold Interval.holds
    rw [hend, tickerSample_not_lt hlo hhi hq, Bool.and_false]
  refine ⟨hout, ?_, ?_⟩
  · intro env m t ht
    have h0 : (t.HasIntro && t.Opening.holds (tickerSample (.fin q))) = false := by
      rw [ht, hout, Bool.and_false]
    cases h : (t.HasOutro && t.Ending.holds (tickerSample (.fin q)))
    · rw [Check_of_neither env m t _ h0 h]
      simp
    · rw [Check_of_ending env m t _ h0 h]
      simp [Seek_sent]
  · intro env m t ht
    have h1 : (t.HasOutro && t.Ending.holds (tickerSample (.fin q))) = false := by
      rw [ht, hout, Bool.and_false]
    cases h : (t.HasIntro && t.Opening.holds (tickerSample (.fin q)))
    · rw [Check_of_neither env m t _ h h1]
      simp
    · rw [Check_of_opening env m t _ h]
      simp [Seek_sent]

theorem tickerSample_outside_whole_interval_witness :
    exampleTimes.Opening.holds (tickerSample (.fin (61 / 2))) = false :=
  (tickerSample_outside_whole_interval exampleTimes.Opening 30 (61 / 2) (by decide!)
    (by decide!) (by norm_num) (by norm_num)).1

/-! ## An object without an error field -/

/-- Members of which none is the error field leave the error of the response
as it is. -/
theorem decodeFields_Error (members : List (GoString × json.Tree)) :
    ∀ resp : ipcResponse,
      (∀ member ∈ members, json.equalFold (json.unquote member.1) (utf8 "error") = false) →
      (json.decodeFields members resp).1.Error = resp.Error := by
  induction members with
  | nil =>
    intro resp _
    rfl
  | cons member ms ih =>
    intro resp h
    obtain ⟨key, t⟩ := member
    have hkey : json.equalFold (json.unquote key) (utf8 "error") = false :=
      h (key, t) (List.mem_cons_self _ _)
    have hms : ∀ member ∈ ms,
        json.equalFold (json.unquote member.1) (utf8 "error") = false :=
      fun member hmem => h member (List.mem_cons_of_mem _ hmem)
    unfold json.decodeFields
    split
    · exact ih _ hms
    · rw [if_neg (by simp [hkey])]
      exact ih _ hms

/-- C30, amended: an attempt does not ask for an error field. When the text
read is an object of which no member is the error field, an event for one, the
error of the decoded response is empty, and the attempt returns the data that
the object decodes to as the result of the command, or the error of the
decoding of that data; it does not fail on the missing field. -/
theorem doSendCommand_of_object_without_error (a : Attempt) (buf : GoString)
    (members : List (GoString × json.Tree))
    (hdial : a.dial = none) (hmarshal : a.marshal = none) (hwrite : a.write = none)
    (hdeadline : a.setReadDeadline = none) (hread : a.read = .ok buf)
    (hscan : json.scan buf = .ok (.object members))
    (hno : ∀ member ∈ members,
      json.equalFold (json.unquote member.1) (utf8 "error") = false) :
    (json.decodeFields members ⟨.null, []⟩).1.Error = []
      ∧ doSendCommand json.UnmarshalResponse a =
        (match (json.decodeFields members ⟨.null, []⟩).2 with
         | some err => .error (.wrap (utf8 "unmarshal: ") err)
         | none => .ok (json.decodeFields members ⟨.null, []⟩).1.Data) := by
  have herr := decodeFields_Error members ⟨.null, []⟩ hno
  refine ⟨herr, ?_⟩
  have hun : json.UnmarshalResponse buf =
      (match (json.decodeFields members ⟨.null, []⟩).2 with
       | some err => .error err
       | none => .ok (json.decodeFields members ⟨.null, []⟩).1) := by
    unfold json.UnmarshalResponse
    rw [hscan]
    simp only
    split <;> rename_i heq <;> simp [heq]
  simp only [doSendCommand, hdial, hmarshal, hwrite, hdeadline, hread, hun]
  cases h2 : (json.decodeFields members ⟨.null, []⟩).2 with
  | some err => rfl
  | none =>
    have hc : ¬ ((json.decodeFields members ⟨.null, []⟩).1.Error ≠ []
        ∧ (json.decodeFields members ⟨.null, []⟩).1.Error ≠ utf8 "success") :=
      fun hc => hc.1 herr
    simp only [if_neg hc]

theorem doSendCommand_of_object_without_error_witness :
    doSendCommand json.UnmarshalResponse ⟨none, none, none, none, .ok pauseEvent⟩
      = .ok (.bool true) :=
  (doSendCommand_of_object_without_error ⟨none, none, none, none, .ok pauseEvent⟩ pauseEvent
    [(utf8 "event", .string (utf8 "property-change")), (utf8 "id", .number (utf8 "2")),
      (utf8 "name", .string (utf8 "pause")), (utf8 "data", .bool true)]
    rfl rfl rfl rfl rfl rfl (by decide)).2.trans rfl

end Anisan
